import Mathlib

/-!
# porkbun-tui: views, controller and credentials

A shallow embedding of the views of `internal/tui/views`, of the controller
`internal/tui/app.go`, of the key bindings of `internal/keys` and of
`internal/config`, together with the data types of `internal/api`.

Go values are embedded as follows.

* `string` is `String` (the strings here hold UTF-8 text); comparison with `<`
  is the lexicographic order of the character lists, and a substring is a
  contiguous block of characters (for UTF-8 text the byte-wise order and
  search Go uses agree with the code-point-wise ones).
* `int` is `Int` (no arithmetic here comes near the 64-bit range).
* a slice is a `List`; where two slices of the source share one backing array
  the sharing is recorded explicitly.
* `time.Time` is the record `Time`: the instant compared by `Before`, and the
  civil year and month reported by `Year()` and `Month()`.
* `float64` is `F64`: the value of the float (NaN, an infinity, or a finite
  rational), on which the IEEE-754 comparisons are exact.
* a `map[string]V` is an association list in first-insertion order without
  repeated keys; the order in which `range` visits it is not fixed by Go and is
  a parameter.

What the Go runtime and standard library decide (Unicode case mapping, the
pattern-defeating quicksort behind `sort.Slice` on more than twelve elements,
the order of `range` over a map, `strconv.ParseFloat`, rounding of a float
product) is collected in the record `GoLib` and constrained by `GoLib.Lawful`.
The bubbles components (text input, spinner) are the record `TeaLib`, the
operating system and the YAML decoder behind `config.Load` the record `Host`.

A message is a value of `Msg`, a command a list of `Cmd` (the empty list is
the nil command), and a function that can panic returns an `Option`.
-/

namespace Porkbun

/-! ## Data model (`internal/api/client.go`) -/

/-- A `time.Time` value: `instant` is the point on the time line (what
`Before` compares), `Year` and `Month` are what the methods of the same name
report for the value in its own location. -/
structure Time where
  instant : Int
  Year : Int
  Month : Nat
deriving DecidableEq

/-- Go `time.Time.Before`. -/
def Time.Before (t u : Time) : Bool := decide (t.instant < u.instant)

/-- The record `api.Domain`. -/
structure Domain where
  Name : String
  Status : String
  TLD : String
  CreateDate : Time
  ExpireDate : Time
  SecurityLock : Bool
  WhoisPrivacy : Bool
  AutoRenew : Bool
  NotLocal : Bool
  Labels : List String
deriving DecidableEq

/-- The record `api.TLDPricing`. -/
structure TLDPricing where
  TLD : String
  Registration : String
  Renewal : String
  Transfer : String
deriving DecidableEq

/-! ## Go values -/

/-- The value of a `float64`. Every finite float is a rational number, and the
comparison operators of IEEE-754 depend only on the value, so they are exact on
this type. -/
inductive F64 where
  | nan
  | negInf
  | fin (q : ℚ)
  | posInf
deriving DecidableEq

/-- The Go operator `>` on `float64`: false as soon as one side is NaN. -/
def F64.gt : F64 → F64 → Bool
  | .nan, _ => false
  | _, .nan => false
  | .negInf, _ => false
  | .fin _, .negInf => true
  | .fin a, .fin b => decide (b < a)
  | .fin _, .posInf => false
  | .posInf, .posInf => false
  | .posInf, _ => true

/-- The Go operator `>=` on `float64`: false as soon as one side is NaN. -/
def F64.ge : F64 → F64 → Bool
  | .nan, _ => false
  | _, .nan => false
  | .negInf, .negInf => true
  | .negInf, _ => false
  | .fin _, .negInf => true
  | .fin a, .fin b => decide (b ≤ a)
  | .fin _, .posInf => false
  | .posInf, _ => true

/-- The float `0`, the zero value of a `float64` variable. -/
def F64.zero : F64 := .fin 0

/-- The conversion `float64(n)` of a slice length (exact below `2^53`). -/
def F64.ofLen (n : Nat) : F64 := .fin n

/-- The Go operator `<` on strings. -/
def strLess (a b : String) : Bool := decide (a.data < b.data)

/-- Go `strings.Contains`: `substr` occurs in `s` as a contiguous block. -/
def strings.Contains (s substr : String) : Bool :=
  s.data.tails.any (fun t => substr.data.isPrefixOf t)

/-- A Go map with string keys: entries in first-insertion order, keys not
repeated. -/
abbrev GoMap (V : Type) := List (String × V)

/-- The map read `m[k]` in its two-result form. -/
def GoMap.get? {V : Type} : GoMap V → String → Option V
  | [], _ => none
  | (k', x) :: m, k => if k' = k then some x else GoMap.get? m k

/-- The map write `m[k] = x`. -/
def GoMap.set {V : Type} : GoMap V → String → V → GoMap V
  | [], k, x => [(k, x)]
  | (k', y) :: m, k, x => if k' = k then (k', x) :: m else (k', y) :: GoMap.set m k x

/-! ## Group records (`calendar.go`, `tld.go`) -/

/-- The record `views.MonthGroup`. -/
structure MonthGroup where
  Year : Int
  Month : Nat
  Domains : List Domain
  Expanded : Bool
deriving DecidableEq

/-- The record `views.TLDGroup`. -/
structure TLDGroup where
  TLD : String
  Domains : List Domain
  RenewalPrice : F64
  TotalCost : F64
deriving DecidableEq

/-! ## Runtime and library parameters -/

/-- What the embedding leaves to the Go runtime and standard library.

* `toLowerRune` is `unicode.ToLower`;
* `pdqDomains`, `pdqMonthGroups`, `pdqTLDGroups` are `pdqsort_func` of package
  `sort` on a slice of more than twelve elements, at the three element types
  the views sort;
* `rangeMonths`, `rangeTLDs` give the order in which a `range` loop visits the
  entries of a map;
* `parseFloat` is the value returned by `strconv.ParseFloat(s, 64)` (the error
  result is dropped by the caller);
* `fmul` is the `float64` product, rounding included. -/
structure GoLib where
  toLowerRune : Char → Char
  pdqDomains : (Domain → Domain → Bool) → List Domain → List Domain
  pdqMonthGroups : (MonthGroup → MonthGroup → Bool) → List MonthGroup → List MonthGroup
  pdqTLDGroups : (TLDGroup → TLDGroup → Bool) → List TLDGroup → List TLDGroup
  rangeMonths : GoMap MonthGroup → GoMap MonthGroup
  rangeTLDs : GoMap (List Domain) → GoMap (List Domain)
  parseFloat : String → F64
  fmul : F64 → F64 → F64

/-- Go `strings.ToLower`: the case mapping applied rune by rune. -/
def strings.ToLower (L : GoLib) (s : String) : String :=
  String.mk (s.data.map L.toLowerRune)

/-! ## `sort.Slice` -/

/-- One run of the inner loop of `insertionSort_func`: the element `x` sits to
the right of the already processed prefix, given here from right to left, and
is swapped leftwards while `less x p` holds for its left neighbour `p`. -/
def insertLeft {α : Type} (less : α → α → Bool) (x : α) : List α → List α
  | [] => [x]
  | p :: ps => if less x p then p :: insertLeft less x ps else x :: p :: ps

/-- Go `insertionSort_func` of package `sort` on a whole slice: the elements
are taken from left to right and each is moved into the prefix before it. The
accumulator holds that prefix from right to left. -/
def insertionSort_func {α : Type} (less : α → α → Bool) (xs : List α) : List α :=
  (xs.foldl (fun acc x => insertLeft less x acc) []).reverse

/-- The bound `maxInsertion` of `pdqsort_func`. -/
def maxInsertion : Nat := 12

/-- Go `sort.Slice`: `pdqsort_func` hands a range of at most `maxInsertion`
elements to `insertionSort_func`; on a longer slice the remainder of the
algorithm is the parameter `pdq`. The `less` callback of the source reads the
two slice positions it is given, so it is a function of the two elements. -/
def sort.Slice {α : Type} (pdq : (α → α → Bool) → List α → List α)
    (less : α → α → Bool) (xs : List α) : List α :=
  if xs.length ≤ maxInsertion then insertionSort_func less xs else pdq less xs

/-- The order `sort.Slice` leaves behind, read on a pair of neighbours `a`,
`b`: they are not strictly out of order. For an asymmetric `less` this says
`less b a` is false. -/
def Ordered {α : Type} (less : α → α → Bool) (l : List α) : Prop :=
  List.Chain' (fun a b => less a b = true ∨ less b a = false) l

/-- The contract of `pdqsort_func` used here: it permutes its input, and when
`less` meets the requirement documented for `sort.Interface.Less` on the
elements of the slice (`less` is transitive and so is its negation), no two
neighbours of the result are strictly out of order. -/
structure PdqSpec {α : Type} (pdq : (α → α → Bool) → List α → List α) : Prop where
  perm : ∀ less xs, (pdq less xs).Perm xs
  ordered : ∀ less xs,
    (∀ a ∈ xs, ∀ b ∈ xs, ∀ c ∈ xs, less a b = true → less b c = true → less a c = true) →
    (∀ a ∈ xs, ∀ b ∈ xs, ∀ c ∈ xs, less a b = false → less b c = false → less a c = false) →
    Ordered less (pdq less xs)

/-- The assumptions on the runtime: the three instances of `pdqsort_func`
meet `PdqSpec`, and a `range` loop visits every entry of the map exactly
once. -/
structure GoLib.Lawful (L : GoLib) : Prop where
  pdqDomains : PdqSpec L.pdqDomains
  pdqMonthGroups : PdqSpec L.pdqMonthGroups
  pdqTLDGroups : PdqSpec L.pdqTLDGroups
  rangeMonths : ∀ m, (L.rangeMonths m).Perm m
  rangeTLDs : ∀ m, (L.rangeTLDs m).Perm m

/-! ## The domain list (`domains.go`) -/

/-- The type `views.SortField`. -/
inductive SortField where
  | SortByName
  | SortByExpiration
deriving DecidableEq

/-- The part of `textinput.Model` the view reads: the text typed so far and
the focus flag. -/
structure TextInput where
  value : String
  focus : Bool
deriving DecidableEq

/-- The record `views.DomainsView`. The flag `shared` is not a field of the
source: it records that `filtered` and `domains` are the same slice (the
assignment `v.filtered = v.domains`), so that sorting `filtered` in place also
reorders `domains`. -/
structure DomainsView where
  domains : List Domain
  filtered : List Domain
  shared : Bool
  cursor : Int
  offset : Int
  height : Int
  width : Int
  searchInput : TextInput
  searching : Bool
  sortField : SortField
  sortAscending : Bool
deriving DecidableEq

/-- Go `NewDomainsView`. -/
def NewDomainsView : DomainsView :=
  { domains := [], filtered := [], shared := true, cursor := 0, offset := 0,
    height := 0, width := 0, searchInput := ⟨"", false⟩, searching := false,
    sortField := .SortByExpiration, sortAscending := true }

/-- Go `DomainsView.applyFilter`. -/
def DomainsView.applyFilter (L : GoLib) (v : DomainsView) : DomainsView :=
  let query := strings.ToLower L v.searchInput.value
  if query = "" then
    { v with filtered := v.domains, shared := true }
  else
    let filtered := v.domains.foldl
      (fun acc d => if strings.Contains (strings.ToLower L d.Name) query then acc ++ [d] else acc) []
    let cursor :=
      if v.cursor ≥ (filtered.length : Int) then max 0 ((filtered.length : Int) - 1) else v.cursor
    { v with filtered := filtered, shared := false, cursor := cursor }

/-- The value `less` computed by the `switch` of the comparison closure of
`sortDomains`. -/
def fieldLess (f : SortField) (a b : Domain) : Bool :=
  match f with
  | .SortByName => strLess a.Name b.Name
  | .SortByExpiration => a.ExpireDate.Before b.ExpireDate

/-- The comparison closure handed to `sort.Slice` by `sortDomains`. -/
def DomainsView.sortLess (v : DomainsView) (a b : Domain) : Bool :=
  let less := fieldLess v.sortField a b
  if !v.sortAscending then !less else less

/-- Two domains have the same sort key: the same name, or expiration dates at
the same instant. -/
def sameKey (f : SortField) (a b : Domain) : Bool :=
  match f with
  | .SortByName => decide (a.Name = b.Name)
  | .SortByExpiration => decide (a.ExpireDate.instant = b.ExpireDate.instant)

/-- Go `DomainsView.sortDomains`: `filtered` is sorted in place, which
reorders `domains` too when the two are the same slice. -/
def DomainsView.sortDomains (L : GoLib) (v : DomainsView) : DomainsView :=
  let sorted := sort.Slice L.pdqDomains v.sortLess v.filtered
  { v with filtered := sorted, domains := if v.shared then sorted else v.domains }

/-- Go `DomainsView.SetDomains`. -/
def DomainsView.SetDomains (L : GoLib) (v : DomainsView) (domains : List Domain) : DomainsView :=
  ({ v with domains := domains }.applyFilter L).sortDomains L

/-! ## The expiration calendar (`calendar.go`) -/

/-- The decimal digit `d` as a character. -/
def digitChar (d : Nat) : Char := Char.ofNat (48 + d)

/-- The decimal digits of `n`, most significant first; `fuel` bounds the
number of digits. -/
def decimalDigits : Nat → Nat → List Char
  | 0, _ => []
  | fuel + 1, n =>
    if n < 10 then [digitChar n] else decimalDigits fuel (n / 10) ++ [digitChar (n % 10)]

/-- The verb `%d` of `fmt.Sprintf` on a natural number. -/
def fmtNat (n : Nat) : List Char := decimalDigits (n + 1) n

/-- The verb `%d` of `fmt.Sprintf` on an `int`. -/
def fmtInt (i : Int) : List Char :=
  if i < 0 then '-' :: fmtNat i.natAbs else fmtNat i.toNat

/-- The verb `%02d` of `fmt.Sprintf` on a month number: padded with a zero to
two digits. -/
def fmtPad2 (m : Nat) : List Char :=
  if m < 10 then ['0', digitChar m] else fmtNat m

/-- The map key `fmt.Sprintf("%d-%02d", year, month)` of `SetDomains`. -/
def monthKey (year : Int) (month : Nat) : String :=
  String.mk (fmtInt year ++ '-' :: fmtPad2 month)

/-- The record `views.CalendarView`. -/
structure CalendarView where
  groups : List MonthGroup
  cursor : Int
  offset : Int
  height : Int
  width : Int
deriving DecidableEq

/-- Go `NewCalendarView`. -/
def NewCalendarView : CalendarView :=
  { groups := [], cursor := 0, offset := 0, height := 0, width := 0 }

/-- The body of the first loop of `CalendarView.SetDomains`: the domain joins
the group stored under its year-month key, or starts that group. -/
def CalendarView.addDomain (groupMap : GoMap MonthGroup) (d : Domain) : GoMap MonthGroup :=
  let key := monthKey d.ExpireDate.Year d.ExpireDate.Month
  match groupMap.get? key with
  | some g => groupMap.set key { g with Domains := g.Domains ++ [d] }
  | none =>
    groupMap.set key
      { Year := d.ExpireDate.Year, Month := d.ExpireDate.Month, Domains := [d], Expanded := false }

/-- The comparison closure of the second `sort.Slice` of `SetDomains`. -/
def CalendarView.groupLess (a b : MonthGroup) : Bool :=
  if a.Year ≠ b.Year then decide (a.Year < b.Year) else decide (a.Month < b.Month)

/-- The statement `v.groups[0].Expanded = true` under `len(v.groups) > 0`. -/
def CalendarView.expandFirst : List MonthGroup → List MonthGroup
  | [] => []
  | g :: gs => { g with Expanded := true } :: gs

/-- The slice `v.groups` of `CalendarView.SetDomains` after its two loops and
the `sort.Slice` over the groups, before the first group is expanded. -/
def CalendarView.buildGroups (L : GoLib) (domains : List Domain) : List MonthGroup :=
  let groupMap := domains.foldl CalendarView.addDomain []
  let groups := (L.rangeMonths groupMap).map (fun kg =>
    { kg.2 with
      Domains := sort.Slice L.pdqDomains
        (fun a b => a.ExpireDate.Before b.ExpireDate) kg.2.Domains })
  sort.Slice L.pdqMonthGroups CalendarView.groupLess groups

/-- Go `CalendarView.SetDomains`. -/
def CalendarView.SetDomains (L : GoLib) (v : CalendarView) (domains : List Domain) :
    CalendarView :=
  { v with
    groups := CalendarView.expandFirst (CalendarView.buildGroups L domains)
    cursor := 0, offset := 0 }

/-! ## The cost breakdown (`tld.go`) -/

/-- The record `views.TLDView`. -/
structure TLDView where
  groups : List TLDGroup
  cursor : Int
  offset : Int
  height : Int
  width : Int
  expanded : GoMap Bool
deriving DecidableEq

/-- Go `NewTLDView`. -/
def NewTLDView : TLDView :=
  { groups := [], cursor := 0, offset := 0, height := 0, width := 0, expanded := [] }

/-- The map read `v.expanded[tld]`: `false` for a key that is absent. -/
def TLDView.isExpanded (v : TLDView) (tld : String) : Bool :=
  (v.expanded.get? tld).getD false

/-- The body of the first loop of `TLDView.SetData`:
`groupMap[d.TLD] = append(groupMap[d.TLD], d)`. -/
def TLDView.addDomain (groupMap : GoMap (List Domain)) (d : Domain) : GoMap (List Domain) :=
  groupMap.set d.TLD ((groupMap.get? d.TLD).getD [] ++ [d])

/-- The body of the second loop of `TLDView.SetData`: the group record built
for one map entry. -/
def TLDView.mkGroup (L : GoLib) (pricing : GoMap TLDPricing) (tld : String)
    (doms : List Domain) : TLDGroup :=
  let renewalPrice :=
    match pricing.get? tld with
    | some p => L.parseFloat p.Renewal
    | none => F64.zero
  { TLD := tld, Domains := doms, RenewalPrice := renewalPrice,
    TotalCost := L.fmul renewalPrice (F64.ofLen doms.length) }

/-- The comparison closure of the `sort.Slice` of `SetData`. -/
def TLDView.groupLess (a b : TLDGroup) : Bool := F64.gt a.TotalCost b.TotalCost

/-- The slice `v.groups` of `TLDView.SetData` after its two loops and the
`sort.Slice`. A nil pricing map is the empty map. -/
def TLDView.buildGroups (L : GoLib) (domains : List Domain) (pricing : GoMap TLDPricing) :
    List TLDGroup :=
  let groupMap := domains.foldl TLDView.addDomain []
  let groups := (L.rangeTLDs groupMap).map (fun kd => TLDView.mkGroup L pricing kd.1 kd.2)
  sort.Slice L.pdqTLDGroups TLDView.groupLess groups

/-- Go `TLDView.SetData`. -/
def TLDView.SetData (L : GoLib) (v : TLDView) (domains : List Domain)
    (pricing : GoMap TLDPricing) : TLDView :=
  { v with groups := TLDView.buildGroups L domains pricing, cursor := 0, offset := 0 }

/-! ## A reference runtime -/

/-- A `strconv.ParseFloat` for the reference runtime: the literals used in the
examples below, each with the value Go gives it; any other text counts as
malformed and gives `0`. -/
def refParseFloat (s : String) : F64 :=
  if s = "NaN" then .nan
  else if s = "10.00" then .fin 10
  else if s = "15.00" then .fin 15
  else if s = "30.00" then .fin 30
  else if s = "1" then .fin 1
  else F64.zero

/-- A float product for the reference runtime: NaN is absorbing, finite
factors are multiplied exactly (the fraction of the two numerators and the two
denominators), an infinity keeps the sign of the product. -/
def refFmul : F64 → F64 → F64
  | .nan, _ => .nan
  | _, .nan => .nan
  | .fin a, .fin b => .fin (mkRat (a.num * b.num) (a.den * b.den))
  | .fin a, .posInf => if a = 0 then .nan else if 0 < a then .posInf else .negInf
  | .fin a, .negInf => if a = 0 then .nan else if 0 < a then .negInf else .posInf
  | .posInf, .fin b => if b = 0 then .nan else if 0 < b then .posInf else .negInf
  | .negInf, .fin b => if b = 0 then .nan else if 0 < b then .negInf else .posInf
  | .posInf, .posInf => .posInf
  | .negInf, .negInf => .posInf
  | .posInf, .negInf => .negInf
  | .negInf, .posInf => .negInf

/-- A concrete runtime: ASCII case mapping, insertion sort on every length, a
`range` loop that visits a map in insertion order. -/
def refLib : GoLib :=
  { toLowerRune := Char.toLower
    pdqDomains := insertionSort_func
    pdqMonthGroups := insertionSort_func
    pdqTLDGroups := insertionSort_func
    rangeMonths := id
    rangeTLDs := id
    parseFloat := refParseFloat
    fmul := refFmul }

/-- The same runtime with a `range` loop that visits a map in reverse
insertion order. -/
def refLibRev : GoLib :=
  { refLib with rangeMonths := List.reverse, rangeTLDs := List.reverse }

/-- A domain with the given name, label and expiration date; every other field
has its zero value. -/
def mkDomain (name tld : String) (expire : Time) : Domain :=
  { Name := name, Status := "", TLD := tld, CreateDate := ⟨0, 1, 1⟩, ExpireDate := expire,
    SecurityLock := false, WhoisPrivacy := false, AutoRenew := false, NotLocal := false,
    Labels := [] }

/-! ## Vocabulary of the statements and sample inputs -/

/-- The processed prefix, read from right to left, has no neighbours strictly
out of order. -/
def RevOrdered {α : Type} (less : α → α → Bool) (acc : List α) : Prop :=
  List.Chain' (fun b a => less a b = true ∨ less b a = false) acc

/-- A comparison that is a strict weak order: asymmetric, transitive, and with
a transitive negation. -/
structure StrictWeak {α : Type} (lt : α → α → Bool) : Prop where
  asymm : ∀ a b, lt a b = true → lt b a = false
  trans : ∀ a b c, lt a b = true → lt b c = true → lt a c = true
  negtrans : ∀ a b c, lt a b = false → lt b c = false → lt a c = false

/-- A view sorted by expiration date, descending, that holds two domains
expiring at the same instant. -/
def tieView : DomainsView :=
  { NewDomainsView with
    domains := [mkDomain "a.com" "com" ⟨1736899200, 2025, 1⟩,
      mkDomain "b.com" "com" ⟨1736899200, 2025, 1⟩]
    filtered := [mkDomain "a.com" "com" ⟨1736899200, 2025, 1⟩,
      mkDomain "b.com" "com" ⟨1736899200, 2025, 1⟩]
    sortAscending := false }

/-- The value of a decimal digit character. -/
def digitVal (c : Char) : Nat := c.toNat - 48

/-- The number a list of decimal digits denotes. -/
def parseDigits (l : List Char) : Nat := l.foldl (fun acc c => 10 * acc + digitVal c) 0

/-- A character that is one of the ten decimal digits. -/
def IsDigit (c : Char) : Prop := ∃ d, d < 10 ∧ c = digitChar d

/-- What the first loop of `CalendarView.SetDomains` maintains, after the
domains `ds` have been put into the map `m`. -/
def MonthMapInv (m : GoMap MonthGroup) (ds : List Domain) : Prop :=
  (m.map Prod.fst).Nodup ∧
  (∀ e ∈ m, e.1 = monthKey e.2.Year e.2.Month ∧ e.2.Expanded = false ∧ e.2.Domains ≠ [] ∧
    ∀ d ∈ e.2.Domains, d.ExpireDate.Year = e.2.Year ∧ d.ExpireDate.Month = e.2.Month) ∧
  (m.flatMap (fun e => e.2.Domains)).Perm ds

/-- The year-month pair of a group. -/
def MonthGroup.ym (g : MonthGroup) : Int × Nat := (g.Year, g.Month)

/-- Strict chronological order of year-month pairs. -/
def ymLess (p q : Int × Nat) : Prop := p.1 < q.1 ∨ (p.1 = q.1 ∧ p.2 < q.2)

/-- The groups of `buildGroups` before the `sort.Slice` over them. -/
def CalendarView.unsortedGroups (L : GoLib) (domains : List Domain) : List MonthGroup :=
  (L.rangeMonths (domains.foldl CalendarView.addDomain [])).map (fun kg =>
    { kg.2 with
      Domains := sort.Slice L.pdqDomains
        (fun a b => a.ExpireDate.Before b.ExpireDate) kg.2.Domains })

/-- Four domains expiring on 15 and 20 January, 10 March and 5 June 2025 (UTC),
listed out of order. -/
def calendarSample : List Domain :=
  [mkDomain "jun1.com" "com" ⟨1749081600, 2025, 6⟩,
    mkDomain "jan2.com" "com" ⟨1737331200, 2025, 1⟩,
    mkDomain "mar1.com" "com" ⟨1741564800, 2025, 3⟩,
    mkDomain "jan1.com" "com" ⟨1736899200, 2025, 1⟩]

/-- A calendar view that was scrolled and had its second group expanded. -/
def usedCalendar : CalendarView :=
  { groups := [⟨2024, 5, [mkDomain "old.com" "com" ⟨1714521600, 2024, 5⟩], false⟩,
      ⟨2024, 7, [mkDomain "older.com" "com" ⟨1719792000, 2024, 7⟩], true⟩]
    cursor := 1, offset := 1, height := 10, width := 80 }

/-- What the first loop of `TLDView.SetData` maintains, after the domains `ds`
have been put into the map `m`. -/
def TLDMapInv (m : GoMap (List Domain)) (ds : List Domain) : Prop :=
  (m.map Prod.fst).Nodup ∧
  (∀ e ∈ m, e.2 = ds.filter (fun d => decide (d.TLD = e.1)) ∧ e.2 ≠ []) ∧
  (∀ d ∈ ds, d.TLD ∈ m.map Prod.fst) ∧
  (m.flatMap (fun e => e.2)).Perm ds

/-- The groups of `TLDView.buildGroups` before the `sort.Slice`. -/
def TLDView.unsortedGroups (L : GoLib) (domains : List Domain) (pricing : GoMap TLDPricing) :
    List TLDGroup :=
  (L.rangeTLDs (domains.foldl TLDView.addDomain [])).map
    (fun kd => TLDView.mkGroup L pricing kd.1 kd.2)

/-- The four domains of `TestTLDView_SetData_SortedByTotalCost`. -/
def tldSample : List Domain :=
  [mkDomain "a.com" "com" ⟨1749081600, 2025, 6⟩, mkDomain "b.io" "io" ⟨1737331200, 2025, 1⟩,
    mkDomain "c.io" "io" ⟨1741564800, 2025, 3⟩, mkDomain "d.dev" "dev" ⟨1736899200, 2025, 1⟩]

/-- The pricing map of `TestTLDView_SetData_SortedByTotalCost`. -/
def tldSamplePricing : GoMap TLDPricing :=
  [("com", ⟨"", "", "10.00", ""⟩), ("io", ⟨"", "", "30.00", ""⟩), ("dev", ⟨"", "", "15.00", ""⟩)]

/-- The three domains of `TestTLDView_SetData_CalculatesTotalCost`. -/
def threeCom : List Domain :=
  [mkDomain "a.com" "com" ⟨1749081600, 2025, 6⟩, mkDomain "b.com" "com" ⟨1737331200, 2025, 1⟩,
    mkDomain "c.com" "com" ⟨1741564800, 2025, 3⟩]

/-- Two domains with different labels. -/
def twoLabels : List Domain :=
  [mkDomain "a.com" "com" ⟨1749081600, 2025, 6⟩, mkDomain "b.net" "net" ⟨1737331200, 2025, 1⟩]

/-- A pricing map whose renewal price for `com` is the text `NaN`, which
`strconv.ParseFloat` accepts and reads as the float NaN. -/
def nanPricing : GoMap TLDPricing :=
  [("com", ⟨"com", "", "NaN", ""⟩), ("net", ⟨"net", "", "1", ""⟩)]

/-- A cost-breakdown view in which the user has expanded the group `com`. -/
def expandedCom : TLDView := { NewTLDView with expanded := [("com", true)] }

/-! ## Keys, messages and commands (`keys.go`, `app.go`) -/

/-- A `tea.KeyMsg`, given by the text `msg.String()` by which the program
tells keys apart. -/
structure KeyMsg where
  text : String
deriving DecidableEq

/-- A `key.Binding`: the key texts it is bound to. Every binding of the
program is enabled. -/
abbrev Binding := List String

/-- Go `key.Matches` on one binding. -/
def key.Matches (msg : KeyMsg) (b : Binding) : Bool := decide (msg.text ∈ b)

/-- The binding `keys.Keys.Up`. -/
def Keys.Up : Binding := ["up", "k", "ctrl+k"]

/-- The binding `keys.Keys.Down`. -/
def Keys.Down : Binding := ["down", "j", "ctrl+j"]

/-- The binding `keys.Keys.Enter`. -/
def Keys.Enter : Binding := ["enter"]

/-- The binding `keys.Keys.Back`. -/
def Keys.Back : Binding := ["esc"]

/-- The binding `keys.Keys.Search`. -/
def Keys.Search : Binding := ["/"]

/-- The binding `keys.Keys.Refresh`. -/
def Keys.Refresh : Binding := ["r"]

/-- The binding `keys.Keys.Help`. -/
def Keys.Help : Binding := ["?"]

/-- The binding `keys.Keys.Quit`. -/
def Keys.Quit : Binding := ["q", "ctrl+c"]

/-- The binding `keys.Keys.DNS`. -/
def Keys.DNS : Binding := ["d"]

/-- The binding `keys.Keys.NS`. -/
def Keys.NS : Binding := ["n"]

/-- The binding `keys.Keys.Avail`. -/
def Keys.Avail : Binding := ["a"]

/-- The binding `keys.Keys.TLD`. -/
def Keys.TLD : Binding := ["t"]

/-- The binding `keys.Keys.Calendar`. -/
def Keys.Calendar : Binding := ["c"]

/-- The binding `keys.Keys.SortName`. -/
def Keys.SortName : Binding := ["1"]

/-- The binding `keys.Keys.SortExp`. -/
def Keys.SortExp : Binding := ["2"]

/-- The binding `keys.Keys.Tab`. -/
def Keys.Tab : Binding := ["tab"]

/-- The record `api.DNSRecord`; `Typ` is the field `Type` of the source. -/
structure DNSRecord where
  ID : String
  Name : String
  Typ : String
  Content : String
  TTL : String
  Priority : String
  Notes : String
deriving DecidableEq

/-- The record `api.AvailabilityResult`. -/
structure AvailabilityResult where
  Domain : String
  Available : Bool
  Price : String
  Premium : Bool
deriving DecidableEq

/-- A Go `error` value that is not nil, given by its text. -/
structure GoError where
  text : String
deriving DecidableEq

/-- A `tea.Msg` as the type switch of `App.Update` sees it. `other` stands for
every message of another type (cursor blink, paste, the nil message of a failed
pricing fetch). -/
inductive Msg where
  | WindowSizeMsg (Width Height : Int)
  | TickMsg
  | domainsLoadedMsg (domains : List Domain)
  | dnsLoadedMsg (records : List DNSRecord)
  | nsLoadedMsg (nameservers : List String)
  | nsSavedMsg
  | availabilityResultMsg (result : Option AvailabilityResult)
  | pricingLoadedMsg (pricing : GoMap TLDPricing)
  | errMsg (err : GoError)
  | KeyMsg (k : KeyMsg)
  | other (tag : Nat)
deriving DecidableEq

/-- A command created inside a bubbles component (cursor blink timer, paste);
the program only passes such commands on. -/
structure LibCmd where
  tag : Nat
deriving DecidableEq

/-- A `tea.Cmd` by what it does when run: the six registrar tasks of
`app.go`, the spinner tick, `tea.Quit`, `textinput.Blink`, or a command of a
bubbles component. A `tea.Batch` or a nil command is a list of these. -/
inductive Cmd where
  | spinnerTick
  | loadDomains
  | loadPricing
  | loadDNS (domain : String)
  | loadNameservers (domain : String)
  | saveNameservers (domain : String) (ns : List String)
  | checkAvailability (domain : String)
  | Quit
  | Blink
  | lib (c : LibCmd)
deriving DecidableEq

/-- The state of a `spinner.Model`, which the program only hands back to the
library. -/
structure Spinner where
  frame : Nat
deriving DecidableEq

/-- What the embedding leaves to the bubbles components and to `strings`.

* `textinputUpdate` is `textinput.Model.Update`: the model after the message
  and the commands it asks for;
* `textinputSetValue` is `textinput.Model.SetValue` (the library cuts the text
  at the character limit and replaces control characters);
* `spinnerUpdate` is `spinner.Model.Update`;
* `trimSpace` is `strings.TrimSpace`. -/
structure TeaLib where
  textinputUpdate : TextInput → Msg → TextInput × List LibCmd
  textinputSetValue : TextInput → String → TextInput
  spinnerUpdate : Spinner → Msg → Spinner × List LibCmd
  trimSpace : String → String

/-- The assumption on the components: setting the empty text leaves the empty
text. -/
structure TeaLib.Lawful (T : TeaLib) : Prop where
  setValue_empty : ∀ ti, (T.textinputSetValue ti "").value = ""

/-- Go `textinput.Model.Focus`, of which the program drops the command. -/
def TextInput.Focus (ti : TextInput) : TextInput := { ti with focus := true }

/-- Go `textinput.Model.Blur`. -/
def TextInput.Blur (ti : TextInput) : TextInput := { ti with focus := false }

/-! ## The grouped viewport (`calendar.go`, `tld.go`) -/

/-- Go `CalendarView.SetSize`. -/
def CalendarView.SetSize (v : CalendarView) (width height : Int) : CalendarView :=
  { v with width := width, height := if height - 6 < 1 then 1 else height - 6 }

/-- The loop of `CalendarView.getLineForCursor` from index `i` on, where the
list holds `v.groups[i:]` and `line` the lines counted so far. -/
def CalendarView.lineLoop (cursor : Int) : List MonthGroup → Nat → Int → Int
  | [], _, line => line
  | g :: rest, i, line =>
    if (i : Int) < cursor then
      CalendarView.lineLoop cursor rest (i + 1)
        (if g.Expanded then line + 1 + (g.Domains.length : Int) else line + 1)
    else line

/-- Go `CalendarView.getLineForCursor`. -/
def CalendarView.getLineForCursor (v : CalendarView) : Int :=
  CalendarView.lineLoop v.cursor v.groups 0 0

/-- Go `CalendarView.getTotalLines`. -/
def CalendarView.getTotalLines (v : CalendarView) : Int :=
  v.groups.foldl
    (fun lines g => if g.Expanded then lines + 1 + (g.Domains.length : Int) else lines + 1) 0

/-- Go `CalendarView.adjustOffset`. -/
def CalendarView.adjustOffset (v : CalendarView) : CalendarView :=
  let cursorLine := v.getLineForCursor
  let v1 := if cursorLine < v.offset then { v with offset := cursorLine } else v
  let v2 :=
    if cursorLine ≥ v1.offset + v1.height then { v1 with offset := cursorLine - v1.height + 1 }
    else v1
  let totalLines := v2.getTotalLines
  if v2.offset > totalLines - v2.height then { v2 with offset := max 0 (totalLines - v2.height) }
  else v2

/-- The statement `v.groups[v.cursor].Expanded = !v.groups[v.cursor].Expanded`
for an index `i` inside the slice. -/
def CalendarView.toggleAt : List MonthGroup → Nat → List MonthGroup
  | [], _ => []
  | g :: gs, 0 => { g with Expanded := !g.Expanded } :: gs
  | g :: gs, i + 1 => g :: CalendarView.toggleAt gs i

/-- Go `CalendarView.Update`. The command it returns is always nil. The branch
of `Enter` is only entered by the source with `v.cursor < len(v.groups)`; a
negative cursor, which no operation produces, would make the source panic and
is left alone here. -/
def CalendarView.Update (v : CalendarView) (msg : Msg) : CalendarView :=
  match msg with
  | .KeyMsg k =>
    if key.Matches k Keys.Up then
      if v.cursor > 0 then { v with cursor := v.cursor - 1 }.adjustOffset else v
    else if key.Matches k Keys.Down then
      if v.cursor < (v.groups.length : Int) - 1 then
        { v with cursor := v.cursor + 1 }.adjustOffset
      else v
    else if key.Matches k Keys.Enter then
      if v.cursor < (v.groups.length : Int) ∧ 0 ≤ v.cursor then
        { v with groups := CalendarView.toggleAt v.groups v.cursor.toNat }.adjustOffset
      else v
    else v
  | _ => v

/-- Go `TLDView.SetSize`. -/
def TLDView.SetSize (v : TLDView) (width height : Int) : TLDView :=
  { v with width := width, height := if height - 8 < 1 then 1 else height - 8 }

/-- The loop of `TLDView.getLineForCursor` from index `i` on, where the list
holds `v.groups[i:]` and `line` the lines counted so far. -/
def TLDView.lineLoop (v : TLDView) : List TLDGroup → Nat → Int → Int
  | [], _, line => line
  | g :: rest, i, line =>
    if (i : Int) < v.cursor then
      TLDView.lineLoop v rest (i + 1)
        (if v.isExpanded g.TLD then line + 1 + (g.Domains.length : Int) else line + 1)
    else line

/-- Go `TLDView.getLineForCursor`. -/
def TLDView.getLineForCursor (v : TLDView) : Int := TLDView.lineLoop v v.groups 0 0

/-- Go `TLDView.getTotalLines`. -/
def TLDView.getTotalLines (v : TLDView) : Int :=
  v.groups.foldl
    (fun lines g =>
      if v.isExpanded g.TLD then lines + 1 + (g.Domains.length : Int) else lines + 1) 0

/-- Go `TLDView.adjustOffset`. -/
def TLDView.adjustOffset (v : TLDView) : TLDView :=
  let cursorLine := v.getLineForCursor
  let v1 := if cursorLine < v.offset then { v with offset := cursorLine } else v
  let v2 :=
    if cursorLine ≥ v1.offset + v1.height then { v1 with offset := cursorLine - v1.height + 1 }
    else v1
  let totalLines := v2.getTotalLines
  if v2.offset > totalLines - v2.height then { v2 with offset := max 0 (totalLines - v2.height) }
  else v2

/-- The TLD label `v.groups[v.cursor].TLD` for an index inside the slice. -/
def TLDView.cursorTLD (v : TLDView) : Option String :=
  (v.groups.get? v.cursor.toNat).map (fun g => g.TLD)

/-- Go `TLDView.Update`. The command it returns is always nil. As in the
calendar, a negative cursor is left alone in the branch of `Enter`. -/
def TLDView.Update (v : TLDView) (msg : Msg) : TLDView :=
  match msg with
  | .KeyMsg k =>
    if key.Matches k Keys.Up then
      if v.cursor > 0 then { v with cursor := v.cursor - 1 }.adjustOffset else v
    else if key.Matches k Keys.Down then
      if v.cursor < (v.groups.length : Int) - 1 then
        { v with cursor := v.cursor + 1 }.adjustOffset
      else v
    else if key.Matches k Keys.Enter then
      if v.cursor < (v.groups.length : Int) ∧ 0 ≤ v.cursor then
        match v.cursorTLD with
        | some tld =>
          { v with expanded := v.expanded.set tld (!v.isExpanded tld) }.adjustOffset
        | none => v
      else v
    else v
  | _ => v

/-- The number of lines a month group takes: its header, and its members when
it is expanded. -/
def MonthGroup.lines (g : MonthGroup) : Int :=
  if g.Expanded then 1 + (g.Domains.length : Int) else 1

/-- The number of lines a TLD group takes in the view `v`: its header, and its
members when its label is marked expanded. -/
def TLDView.linesOf (v : TLDView) (g : TLDGroup) : Int :=
  if v.isExpanded g.TLD then 1 + (g.Domains.length : Int) else 1

/-- The calendar of `calendarSample` (January expanded with two members, March,
June: five lines) shown in a one-line viewport, after the cursor went down to
the last group and the window then grew to a five-line viewport. -/
def staleCalendar : CalendarView :=
  ((((NewCalendarView.SetSize 80 7).SetDomains refLib calendarSample).Update
    (.KeyMsg ⟨"down"⟩)).Update (.KeyMsg ⟨"down"⟩)).SetSize 80 11

/-- The cost breakdown of `tldSample` (three collapsed groups) in a one-line
viewport with the cursor on the last group. -/
def scrolledTLD : TLDView :=
  (((NewTLDView.SetSize 80 9).SetData refLib tldSample tldSamplePricing).Update
    (.KeyMsg ⟨"down"⟩)).Update (.KeyMsg ⟨"down"⟩)

/-- The view `staleCalendar` with the cursor moved up to its second group, as
inside `Update` just before `adjustOffset` runs. -/
def movedUpCalendar : CalendarView := { staleCalendar with cursor := 1 }

/-- The cost breakdown of `tldSample` in a one-line viewport scrolled to the
top, with the cursor moved to the last group. -/
def movedDownTLD : TLDView :=
  { (NewTLDView.SetSize 80 9).SetData refLib tldSample tldSamplePricing with cursor := 2 }

/-! ## Keys of the domain list (`domains.go`) -/

/-- Go `DomainsView.SetSize`. -/
def DomainsView.SetSize (v : DomainsView) (width height : Int) : DomainsView :=
  { v with width := width, height := if height - 6 < 1 then 1 else height - 6 }

/-- Go `DomainsView.SelectedDomain`, with the domain in place of the pointer to
it. A negative cursor, which no operation produces, would make the source
panic; here it reads position 0. -/
def DomainsView.SelectedDomain (v : DomainsView) : Option Domain :=
  if v.filtered.length = 0 ∨ v.cursor ≥ (v.filtered.length : Int) then none
  else v.filtered.get? v.cursor.toNat

/-- Go `DomainsView.GetDomains`. -/
def DomainsView.GetDomains (v : DomainsView) : List Domain := v.domains

/-- Go `DomainsView.IsSearching`. -/
def DomainsView.IsSearching (v : DomainsView) : Bool := v.searching

/-- The branch of `DomainsView.Update` that moves the cursor up, the same in
and outside the search sub-mode. -/
def DomainsView.cursorUp (v : DomainsView) : DomainsView :=
  if v.cursor > 0 then
    if v.cursor - 1 < v.offset then { v with cursor := v.cursor - 1, offset := v.cursor - 1 }
    else { v with cursor := v.cursor - 1 }
  else v

/-- The branch of `DomainsView.Update` that moves the cursor down, the same in
and outside the search sub-mode. -/
def DomainsView.cursorDown (v : DomainsView) : DomainsView :=
  if v.cursor < (v.filtered.length : Int) - 1 then
    if v.cursor + 1 ≥ v.offset + v.height then
      { v with cursor := v.cursor + 1, offset := v.cursor + 1 - v.height + 1 }
    else { v with cursor := v.cursor + 1 }
  else v

/-- The end of the search branch of `DomainsView.Update`: the message goes to
the text input, then the filter and the sort are applied again. -/
def DomainsView.typeInSearch (L : GoLib) (T : TeaLib) (v : DomainsView) (msg : Msg) :
    DomainsView × List Cmd :=
  let r := T.textinputUpdate v.searchInput msg
  ((({ v with searchInput := r.1 }).applyFilter L).sortDomains L, r.2.map Cmd.lib)

/-- The branches of `DomainsView.Update` for the two sort keys: the key of the
active field flips the direction, the key of the other field selects that
field in ascending direction; then the list is sorted. -/
def DomainsView.pressSort (L : GoLib) (v : DomainsView) (f : SortField) : DomainsView :=
  (if v.sortField = f then { v with sortAscending := !v.sortAscending }
    else { v with sortField := f, sortAscending := true }).sortDomains L

/-- Go `DomainsView.Update`. -/
def DomainsView.Update (L : GoLib) (T : TeaLib) (v : DomainsView) (msg : Msg) :
    DomainsView × List Cmd :=
  if v.searching then
    match msg with
    | .KeyMsg k =>
      if k.text = "enter" ∨ k.text = "esc" then
        ({ v with searching := false, searchInput := v.searchInput.Blur }, [])
      else if k.text = "ctrl+k" ∨ k.text = "up" then (v.cursorUp, [])
      else if k.text = "ctrl+j" ∨ k.text = "down" then (v.cursorDown, [])
      else v.typeInSearch L T msg
    | _ => v.typeInSearch L T msg
  else
    match msg with
    | .KeyMsg k =>
      if key.Matches k Keys.Up then (v.cursorUp, [])
      else if key.Matches k Keys.Down then (v.cursorDown, [])
      else if key.Matches k Keys.Search then
        ({ v with searching := true, searchInput := v.searchInput.Focus }, [Cmd.Blink])
      else if key.Matches k Keys.Back then
        if v.searchInput.value ≠ "" then
          (((({ v with searchInput := T.textinputSetValue v.searchInput "" }).applyFilter
            L).sortDomains L), [])
        else (v, [])
      else if key.Matches k Keys.SortName then (v.pressSort L .SortByName, [])
      else if key.Matches k Keys.SortExp then (v.pressSort L .SortByExpiration, [])
      else (v, [])
    | _ => (v, [])

/-- A text input for the reference components: a focused input appends a key
of one character and drops its last character on `backspace`; nothing else
changes it, and it asks for no command. -/
def refTextinputUpdate (ti : TextInput) (msg : Msg) : TextInput × List LibCmd :=
  match msg with
  | .KeyMsg k =>
    if ti.focus then
      if k.text = "backspace" then
        ({ ti with value := String.mk ti.value.data.dropLast }, [])
      else if k.text.data.length = 1 then
        ({ ti with value := String.mk (ti.value.data ++ k.text.data) }, [])
      else (ti, [])
    else (ti, [])
  | _ => (ti, [])

/-- Concrete components: the text input above, `SetValue` that stores the text
as it is, a spinner that advances by one frame, and a `TrimSpace` that removes
blanks at both ends. -/
def refTea : TeaLib :=
  { textinputUpdate := refTextinputUpdate
    textinputSetValue := fun ti s => { ti with value := s }
    spinnerUpdate := fun s _ => ({ s with frame := s.frame + 1 }, [])
    trimSpace := fun s =>
      String.mk ((s.data.dropWhile (fun c => c == ' ')).reverse.dropWhile
        (fun c => c == ' ')).reverse }

/-- The states of the domain list reachable from `NewDomainsView` by `SetSize`,
`SetDomains` and `Update` on key messages, each step with a lawful runtime of
its own. -/
inductive DomainsView.Reachable : DomainsView → Prop where
  | init : DomainsView.Reachable NewDomainsView
  | setSize (v : DomainsView) (width height : Int) :
      DomainsView.Reachable v → DomainsView.Reachable (v.SetSize width height)
  | setDomains (L : GoLib) (hL : L.Lawful) (v : DomainsView) (ds : List Domain) :
      DomainsView.Reachable v → DomainsView.Reachable (v.SetDomains L ds)
  | update (L : GoLib) (hL : L.Lawful) (T : TeaLib) (hT : T.Lawful) (v : DomainsView)
      (k : KeyMsg) :
      DomainsView.Reachable v → DomainsView.Reachable (v.Update L T (.KeyMsg k)).1

/-- Three domains with distinct names and expiration dates in January, March
and June 2025. -/
def threeDomains : List Domain :=
  [mkDomain "alpha.com" "com" ⟨1736899200, 2025, 1⟩,
    mkDomain "beta.net" "net" ⟨1741564800, 2025, 3⟩,
    mkDomain "gamma.org" "org" ⟨1749081600, 2025, 6⟩]

/-- The domain list in a two-line viewport, showing `threeDomains` with the
cursor moved down to the third row. -/
def scrolledList : DomainsView :=
  ((((NewDomainsView.SetSize 80 8).SetDomains refLib threeDomains).Update refLib refTea
    (.KeyMsg ⟨"down"⟩)).1.Update refLib refTea (.KeyMsg ⟨"down"⟩)).1

/-- The view `scrolledList` after a refresh that returned a single domain. -/
def shrunkList : DomainsView :=
  scrolledList.SetDomains refLib [mkDomain "alpha.com" "com" ⟨1736899200, 2025, 1⟩]

/-- What every reachable state of the domain list satisfies: offset and cursor
are not negative, and `filtered` is no longer than `domains`. -/
def DomainsView.Inv (v : DomainsView) : Prop :=
  0 ≤ v.offset ∧ 0 ≤ v.cursor ∧ v.filtered.length ≤ v.domains.length

/-- The bound claimed for the scroll offset of the domain list. -/
def DomainsView.OffsetBound (v : DomainsView) : Prop :=
  v.offset ≤ max 0 ((v.filtered.length : Int) - v.height)

/-- The view `scrolledList` with the search text `a` typed, which matches
`alpha.com`, `beta.net` and `gamma.org`. -/
def searchingList : DomainsView :=
  { scrolledList with searchInput := ⟨"a", false⟩ }

/-! ## The remaining views (`detail.go`, `dns.go`, `help.go`, `nameservers.go`,
`availability.go`) -/

/-- Go `DetailView`. The source keeps a pointer into the list of the domain
view; the model keeps the domain read through it when it was set. -/
structure DetailView where
  domain : Option Domain
  width : Int
  height : Int
deriving DecidableEq

/-- Go `NewDetailView`. -/
def NewDetailView : DetailView := { domain := none, width := 0, height := 0 }

/-- Go `DetailView.SetDomain`. -/
def DetailView.SetDomain (v : DetailView) (d : Domain) : DetailView :=
  { v with domain := some d }

/-- Go `DetailView.SetSize`. -/
def DetailView.SetSize (v : DetailView) (width height : Int) : DetailView :=
  { v with width := width, height := height }

/-- Go `DNSView`. -/
structure DNSView where
  domain : String
  records : List DNSRecord
  cursor : Int
  offset : Int
  height : Int
  width : Int
  loading : Bool
  err : Option GoError
deriving DecidableEq

/-- Go `NewDNSView`. -/
def NewDNSView : DNSView :=
  { domain := "", records := [], cursor := 0, offset := 0, height := 0, width := 0,
    loading := false, err := none }

/-- Go `DNSView.SetDomain`. -/
def DNSView.SetDomain (v : DNSView) (domain : String) : DNSView :=
  { v with domain := domain, records := [], cursor := 0, offset := 0, loading := true,
           err := none }

/-- Go `DNSView.SetRecords`. -/
def DNSView.SetRecords (v : DNSView) (records : List DNSRecord) : DNSView :=
  { v with records := records, loading := false }

/-- Go `DNSView.SetError`. -/
def DNSView.SetError (v : DNSView) (err : GoError) : DNSView :=
  { v with err := some err, loading := false }

/-- Go `DNSView.SetSize`. -/
def DNSView.SetSize (v : DNSView) (width height : Int) : DNSView :=
  { v with width := width, height := if height - 6 < 1 then 1 else height - 6 }

/-- Go `DNSView.Update`, whose command is always nil. -/
def DNSView.Update (v : DNSView) (msg : Msg) : DNSView :=
  match msg with
  | .KeyMsg k =>
    if key.Matches k Keys.Up then
      if v.cursor > 0 then
        if v.cursor - 1 < v.offset then { v with cursor := v.cursor - 1, offset := v.cursor - 1 }
        else { v with cursor := v.cursor - 1 }
      else v
    else if key.Matches k Keys.Down then
      if v.cursor < (v.records.length : Int) - 1 then
        if v.cursor + 1 ≥ v.offset + v.height then
          { v with cursor := v.cursor + 1, offset := v.cursor + 1 - v.height + 1 }
        else { v with cursor := v.cursor + 1 }
      else v
    else v
  | _ => v

/-- Go `HelpView`. -/
structure HelpView where
  width : Int
  height : Int
deriving DecidableEq

/-- Go `NewHelpView`. -/
def NewHelpView : HelpView := { width := 0, height := 0 }

/-- Go `HelpView.SetSize`. -/
def HelpView.SetSize (_v : HelpView) (width height : Int) : HelpView :=
  { width := width, height := height }

/-- Go `AvailabilityView`. -/
structure AvailabilityView where
  input : TextInput
  results : List AvailabilityResult
  loading : Bool
  err : Option GoError
  width : Int
  height : Int
deriving DecidableEq

/-- Go `NewAvailabilityView`: the text input is focused from the start. -/
def NewAvailabilityView : AvailabilityView :=
  { input := TextInput.Focus ⟨"", false⟩, results := [], loading := false, err := none,
    width := 0, height := 0 }

/-- Go `AvailabilityView.SetSize`. -/
def AvailabilityView.SetSize (v : AvailabilityView) (width height : Int) : AvailabilityView :=
  { v with width := width, height := height }

/-- Go `AvailabilityView.SetLoading`. -/
def AvailabilityView.SetLoading (v : AvailabilityView) (loading : Bool) : AvailabilityView :=
  { v with loading := loading }

/-- Go `AvailabilityView.SetResult`: a result that is not nil goes to the
front, and the list keeps ten entries. -/
def AvailabilityView.SetResult (v : AvailabilityView) (result : Option AvailabilityResult) :
    AvailabilityView :=
  match result with
  | some r =>
    { v with loading := false, err := none,
             results := if (r :: v.results).length > 10 then (r :: v.results).take 10
                        else r :: v.results }
  | none => { v with loading := false, err := none }

/-- Go `AvailabilityView.SetError`. -/
def AvailabilityView.SetError (v : AvailabilityView) (err : GoError) : AvailabilityView :=
  { v with loading := false, err := some err }

/-- Go `AvailabilityView.GetDomain`. -/
def AvailabilityView.GetDomain (T : TeaLib) (v : AvailabilityView) : String :=
  T.trimSpace v.input.value

/-- Go `AvailabilityView.ClearInput`. -/
def AvailabilityView.ClearInput (T : TeaLib) (v : AvailabilityView) : AvailabilityView :=
  { v with input := T.textinputSetValue v.input "" }

/-- Go `AvailabilityView.IsLoading`. -/
def AvailabilityView.IsLoading (v : AvailabilityView) : Bool := v.loading

/-- Go `AvailabilityView.Focus`: the input takes the focus and the command is
`textinput.Blink`. -/
def AvailabilityView.Focus (v : AvailabilityView) : AvailabilityView × List Cmd :=
  ({ v with input := v.input.Focus }, [Cmd.Blink])

/-- Go `AvailabilityView.Update`: the message goes to the text input. -/
def AvailabilityView.Update (T : TeaLib) (v : AvailabilityView) (msg : Msg) :
    AvailabilityView × List Cmd :=
  let r := T.textinputUpdate v.input msg
  ({ v with input := r.1 }, r.2.map Cmd.lib)

/-- Go `NSViewMode`. -/
inductive NSViewMode where
  | NSViewModeView
  | NSViewModeEdit
  | NSViewModePreset
deriving DecidableEq

/-- Go `NSPreset`. -/
structure NSPreset where
  Name : String
  NS : List String
deriving DecidableEq

/-- The table `NSPresets` of the source. -/
def NSPresets : List NSPreset :=
  [ { Name := "Porkbun Default",
      NS := ["maceio.ns.porkbun.com", "curitiba.ns.porkbun.com", "salvador.ns.porkbun.com",
             "fortaleza.ns.porkbun.com"] },
    { Name := "Cloudflare", NS := ["ns1.cloudflare.com", "ns2.cloudflare.com"] },
    { Name := "Google Cloud DNS",
      NS := ["ns-cloud-a1.googledomains.com", "ns-cloud-a2.googledomains.com",
             "ns-cloud-a3.googledomains.com", "ns-cloud-a4.googledomains.com"] } ]

/-- Go `NameserversView`. -/
structure NameserversView where
  domain : String
  nameservers : List String
  inputs : List TextInput
  cursor : Int
  mode : NSViewMode
  presetIdx : Int
  loading : Bool
  saving : Bool
  err : Option GoError
  success : String
  width : Int
  height : Int
deriving DecidableEq

/-- The Go index expression `s[i]`; `none` is the run-time panic of an index
out of range. -/
def sliceAt {α : Type} (s : List α) (i : Int) : Option α :=
  if i < 0 then none else s.get? i.toNat

/-- The element `s[i]` changed in place by `f`; `none` is the run-time panic of
an index out of range. -/
def sliceModify {α : Type} (s : List α) (i : Int) (f : α → α) : Option (List α) :=
  (sliceAt s i).map (fun x => s.set i.toNat (f x))

/-- Go `NewNameserversView`: no input exists before `SetNameservers`. -/
def NewNameserversView : NameserversView :=
  { domain := "", nameservers := [], inputs := [], cursor := 0,
    mode := .NSViewModeView, presetIdx := 0, loading := false, saving := false,
    err := none, success := "", width := 0, height := 0 }

/-- Go `NameserversView.SetDomain`. -/
def NameserversView.SetDomain (v : NameserversView) (domain : String) : NameserversView :=
  { v with domain := domain, nameservers := [], loading := true, err := none, success := "",
           mode := .NSViewModeView }

/-- Go `NameserversView.initInputs`: four new inputs, the first of them with
the name servers. -/
def NameserversView.initInputs (T : TeaLib) (v : NameserversView) : NameserversView :=
  { v with
    inputs := (List.range 4).map (fun i =>
      if i < v.nameservers.length then
        T.textinputSetValue ⟨"", false⟩ (v.nameservers.getD i "")
      else ⟨"", false⟩)
    cursor := 0 }

/-- Go `NameserversView.SetNameservers`. -/
def NameserversView.SetNameservers (T : TeaLib) (v : NameserversView) (ns : List String) :
    NameserversView :=
  ({ v with nameservers := ns, loading := false }).initInputs T

/-- Go `NameserversView.SetError`. -/
def NameserversView.SetError (v : NameserversView) (err : GoError) : NameserversView :=
  { v with err := some err, loading := false, saving := false }

/-- Go `NameserversView.SetSuccess`. -/
def NameserversView.SetSuccess (v : NameserversView) (msg : String) : NameserversView :=
  { v with success := msg, saving := false }

/-- Go `NameserversView.SetSize`. -/
def NameserversView.SetSize (v : NameserversView) (width height : Int) : NameserversView :=
  { v with width := width, height := height }

/-- Go `NameserversView.GetNameservers`: the trimmed texts that are not empty. -/
def NameserversView.GetNameservers (T : TeaLib) (v : NameserversView) : List String :=
  v.inputs.filterMap (fun input =>
    if T.trimSpace input.value ≠ "" then some (T.trimSpace input.value) else none)

/-- Go `NameserversView.IsSaving`. -/
def NameserversView.IsSaving (v : NameserversView) : Bool := v.saving

/-- Go `NameserversView.StartSaving`. -/
def NameserversView.StartSaving (v : NameserversView) : NameserversView :=
  { v with saving := true, err := none, success := "" }

/-- Go `NameserversView.updateView`. -/
def NameserversView.updateView (v : NameserversView) (msg : Msg) :
    Option (NameserversView × List Cmd) :=
  match msg with
  | .KeyMsg k =>
    if k.text = "e" then
      (sliceModify v.inputs 0 TextInput.Focus).map (fun inputs =>
        ({ v with mode := .NSViewModeEdit, inputs := inputs }, [Cmd.Blink]))
    else if k.text = "p" then some ({ v with mode := .NSViewModePreset, presetIdx := 0 }, [])
    else some (v, [])
  | _ => some (v, [])

/-- The end of `NameserversView.updateEdit`: the message goes to the input
under the cursor, and the command of the input is dropped. -/
def NameserversView.typeInInput (T : TeaLib) (v : NameserversView) (msg : Msg) :
    Option (NameserversView × List Cmd) :=
  (sliceModify v.inputs v.cursor (fun ti => (T.textinputUpdate ti msg).1)).map (fun inputs =>
    ({ v with inputs := inputs }, []))

/-- The two branches of `NameserversView.updateEdit` that move to the input
`next`, after the input under the cursor lost the focus. -/
def NameserversView.moveTo (v : NameserversView) (next : Int → Int → Int) :
    Option (NameserversView × List Cmd) :=
  (sliceModify v.inputs v.cursor TextInput.Blur).bind (fun inputs =>
    (sliceModify inputs (next v.cursor inputs.length) TextInput.Focus).map (fun inputs2 =>
      ({ v with inputs := inputs2, cursor := next v.cursor inputs.length }, [Cmd.Blink])))

/-- Go `NameserversView.updateEdit`; the remainder `%` of Go is `Int.tmod`. -/
def NameserversView.updateEdit (T : TeaLib) (v : NameserversView) (msg : Msg) :
    Option (NameserversView × List Cmd) :=
  match msg with
  | .KeyMsg k =>
    if key.Matches k Keys.Back then
      (sliceModify v.inputs v.cursor TextInput.Blur).map (fun inputs =>
        ({ v with mode := .NSViewModeView, inputs := inputs }, []))
    else if key.Matches k Keys.Tab || key.Matches k Keys.Down then
      v.moveTo (fun c n => Int.tmod (c + 1) n)
    else if key.Matches k Keys.Up then
      v.moveTo (fun c n => Int.tmod (c - 1 + n) n)
    else if k.text = "ctrl+s" then some (v.StartSaving, [])
    else v.typeInInput T msg
  | _ => v.typeInInput T msg

/-- Go `NameserversView.updatePreset`. -/
def NameserversView.updatePreset (T : TeaLib) (v : NameserversView) (msg : Msg) :
    Option (NameserversView × List Cmd) :=
  match msg with
  | .KeyMsg k =>
    if key.Matches k Keys.Back then some ({ v with mode := .NSViewModeView }, [])
    else if key.Matches k Keys.Up then
      some (if v.presetIdx > 0 then { v with presetIdx := v.presetIdx - 1 } else v, [])
    else if key.Matches k Keys.Down then
      some (if v.presetIdx < (NSPresets.length : Int) - 1 then
        { v with presetIdx := v.presetIdx + 1 } else v, [])
    else if key.Matches k Keys.Enter then
      (sliceAt NSPresets v.presetIdx).bind (fun preset =>
        (sliceModify
          (v.inputs.mapIdx (fun i ti =>
            T.textinputSetValue ti (if i < preset.NS.length then preset.NS.getD i "" else "")))
          0 TextInput.Focus).map (fun inputs =>
            ({ v with inputs := inputs, mode := .NSViewModeEdit }, [Cmd.Blink])))
    else some (v, [])
  | _ => some (v, [])

/-- Go `NameserversView.Update`. -/
def NameserversView.Update (T : TeaLib) (v : NameserversView) (msg : Msg) :
    Option (NameserversView × List Cmd) :=
  match v.mode with
  | .NSViewModeEdit => v.updateEdit T msg
  | .NSViewModePreset => v.updatePreset T msg
  | .NSViewModeView => v.updateView msg

/-! ## The controller (`app.go`) -/

/-- Go `View`; the zero value is `ViewDomains`. -/
inductive View where
  | ViewDomains
  | ViewDetail
  | ViewDNS
  | ViewNameservers
  | ViewAvailability
  | ViewTLD
  | ViewCalendar
  | ViewHelp
deriving DecidableEq

/-- The file cache by what `SaveDomains` and `SavePricing` were last given. -/
structure Cache where
  domains : Option (List Domain)
  pricing : Option (GoMap TLDPricing)
deriving DecidableEq

/-- Go `App`. The field `client` is left out: only the registrar tasks use it,
and a task is a `Cmd` here. A `cache` of `none` is the nil pointer. -/
structure App where
  cache : Option Cache
  width : Int
  height : Int
  view : View
  prevView : View
  domainsView : DomainsView
  detailView : DetailView
  dnsView : DNSView
  nameserversView : NameserversView
  availabilityView : AvailabilityView
  tldView : TLDView
  calendarView : CalendarView
  helpView : HelpView
  pricing : GoMap TLDPricing
  loading : Bool
  refreshing : Bool
  demoMode : Bool
  err : Option GoError
  spinner : Spinner
deriving DecidableEq

/-- The messages the function returned by a task constructor of `app.go` can
return (`loadDomains`, `loadPricing`, `loadDNS`, `loadNameservers`,
`saveNameservers`, `checkAvailability`): the result of the task, or `errMsg`;
a failed pricing fetch returns the nil message. -/
def Cmd.mayYield : Cmd → Msg → Bool
  | .loadDomains, .domainsLoadedMsg _ => true
  | .loadDomains, .errMsg _ => true
  | .loadPricing, .pricingLoadedMsg _ => true
  | .loadPricing, .other _ => true
  | .loadDNS _, .dnsLoadedMsg _ => true
  | .loadDNS _, .errMsg _ => true
  | .loadNameservers _, .nsLoadedMsg _ => true
  | .loadNameservers _, .errMsg _ => true
  | .saveNameservers _ _, .nsSavedMsg => true
  | .saveNameservers _ _, .errMsg _ => true
  | .checkAvailability _, .availabilityResultMsg _ => true
  | .checkAvailability _, .errMsg _ => true
  | _, _ => false

/-- The commands that call the registrar. -/
def Cmd.isTask : Cmd → Bool
  | .loadDomains => true
  | .loadPricing => true
  | .loadDNS _ => true
  | .loadNameservers _ => true
  | .saveNameservers _ _ => true
  | .checkAvailability _ => true
  | _ => false

/-- Go `NewApp`. `DomainsView.SetDomains` sorts the slice it is given in place,
so the two other views are built from the sorted list. -/
def NewApp (L : GoLib) (appCache : Option Cache) (cachedDomains : List Domain)
    (cachedPricing : GoMap TLDPricing) (demoMode : Bool) : App :=
  let hasCachedDomains : Bool := decide (cachedDomains.length > 0)
  let domainsView :=
    if hasCachedDomains then NewDomainsView.SetDomains L cachedDomains else NewDomainsView
  { cache := appCache
    width := 0
    height := 0
    view := .ViewDomains
    prevView := .ViewDomains
    domainsView := domainsView
    detailView := NewDetailView
    dnsView := NewDNSView
    nameserversView := NewNameserversView
    availabilityView := NewAvailabilityView
    tldView :=
      if hasCachedDomains then NewTLDView.SetData L domainsView.domains cachedPricing
      else NewTLDView
    calendarView :=
      if hasCachedDomains then NewCalendarView.SetDomains L domainsView.domains
      else NewCalendarView
    helpView := NewHelpView
    pricing := cachedPricing
    loading := !hasCachedDomains && !demoMode
    refreshing := !demoMode
    demoMode := demoMode
    err := none
    spinner := ⟨0⟩ }

/-- Go `App.Init`. -/
def App.Init (a : App) : List Cmd :=
  if a.demoMode then [] else [Cmd.spinnerTick, Cmd.loadDomains, Cmd.loadPricing]

/-- The branch of `updateDomains` and of `updateDetail` for the DNS key. -/
def App.openDNS (a : App) : App × List Cmd :=
  if a.demoMode then (a, [])
  else match a.domainsView.SelectedDomain with
    | some d => ({ a with dnsView := a.dnsView.SetDomain d.Name, view := .ViewDNS },
        [Cmd.loadDNS d.Name])
    | none => (a, [])

/-- The branch of `updateDomains` and of `updateDetail` for the name server
key. -/
def App.openNameservers (a : App) : App × List Cmd :=
  if a.demoMode then (a, [])
  else match a.domainsView.SelectedDomain with
    | some d =>
      ({ a with nameserversView := a.nameserversView.SetDomain d.Name, view := .ViewNameservers },
        [Cmd.loadNameservers d.Name])
    | none => (a, [])

/-- Go `App.updateDomains`. -/
def App.updateDomains (L : GoLib) (T : TeaLib) (a : App) (k : KeyMsg) : App × List Cmd :=
  let forward : App × List Cmd :=
    ({ a with domainsView := (a.domainsView.Update L T (.KeyMsg k)).1 },
      (a.domainsView.Update L T (.KeyMsg k)).2)
  if !a.domainsView.IsSearching then
    if key.Matches k Keys.Enter then
      match a.domainsView.SelectedDomain with
      | some d => ({ a with detailView := a.detailView.SetDomain d, view := .ViewDetail }, [])
      | none => (a, [])
    else if key.Matches k Keys.DNS then a.openDNS
    else if key.Matches k Keys.NS then a.openNameservers
    else if key.Matches k Keys.Avail then
      if a.demoMode then (a, [])
      else ({ a with view := .ViewAvailability, availabilityView := a.availabilityView.Focus.1 },
        a.availabilityView.Focus.2)
    else if key.Matches k Keys.TLD then ({ a with view := .ViewTLD }, [])
    else if key.Matches k Keys.Calendar then ({ a with view := .ViewCalendar }, [])
    else if key.Matches k Keys.Refresh then
      if a.demoMode then (a, [])
      else ({ a with refreshing := true }, [Cmd.loadDomains, Cmd.loadPricing])
    else forward
  else forward

/-- Go `App.updateDetail`. -/
def App.updateDetail (L : GoLib) (T : TeaLib) (a : App) (k : KeyMsg) : App × List Cmd :=
  if key.Matches k Keys.Back then ({ a with view := .ViewDomains }, [])
  else if key.Matches k Keys.DNS then a.openDNS
  else if key.Matches k Keys.NS then a.openNameservers
  else if key.Matches k Keys.Up || key.Matches k Keys.Down then
    let dv := (a.domainsView.Update L T (.KeyMsg k)).1
    match dv.SelectedDomain with
    | some d => ({ a with domainsView := dv, detailView := a.detailView.SetDomain d }, [])
    | none => ({ a with domainsView := dv }, [])
  else (a, [])

/-- Go `App.updateDNS`. -/
def App.updateDNS (a : App) (k : KeyMsg) : App × List Cmd :=
  if key.Matches k Keys.Back then ({ a with view := .ViewDomains }, [])
  else ({ a with dnsView := a.dnsView.Update (.KeyMsg k) }, [])

/-- The save of `updateNameservers`: with a selected domain the command is the
save task of the name servers typed, else the command `cmd` stays. -/
def App.saveOr (T : TeaLib) (a : App) (cmd : List Cmd) : List Cmd :=
  match a.domainsView.SelectedDomain with
  | some d => [Cmd.saveNameservers d.Name (a.nameserversView.GetNameservers T)]
  | none => cmd

/-- Go `App.updateNameservers`; `none` when `NameserversView.Update` panics. -/
def App.updateNameservers (T : TeaLib) (a : App) (k : KeyMsg) : Option (App × List Cmd) :=
  if key.Matches k Keys.Back && !a.nameserversView.IsSaving then
    some ({ a with view := .ViewDomains }, [])
  else if k.text = "ctrl+s" ∧ a.nameserversView.IsSaving = true
      ∧ a.domainsView.SelectedDomain ≠ none then
    some (a, a.saveOr T [])
  else
    (a.nameserversView.Update T (.KeyMsg k)).map (fun r =>
      ({ a with nameserversView := r.1 },
        if r.1.IsSaving then ({ a with nameserversView := r.1 }).saveOr T r.2 else r.2))

/-- Go `App.updateAvailability`. -/
def App.updateAvailability (T : TeaLib) (a : App) (k : KeyMsg) : App × List Cmd :=
  if key.Matches k Keys.Back then ({ a with view := .ViewDomains }, [])
  else if key.Matches k Keys.Enter && !a.availabilityView.IsLoading then
    if a.availabilityView.GetDomain T ≠ "" then
      ({ a with availabilityView := (a.availabilityView.SetLoading true).ClearInput T },
        [Cmd.checkAvailability (a.availabilityView.GetDomain T)])
    else (a, [])
  else
    ({ a with availabilityView := (a.availabilityView.Update T (.KeyMsg k)).1 },
      (a.availabilityView.Update T (.KeyMsg k)).2)

/-- Go `App.updateTLD`. -/
def App.updateTLD (a : App) (k : KeyMsg) : App × List Cmd :=
  if key.Matches k Keys.Back then ({ a with view := .ViewDomains }, [])
  else ({ a with tldView := a.tldView.Update (.KeyMsg k) }, [])

/-- Go `App.updateCalendar`. -/
def App.updateCalendar (a : App) (k : KeyMsg) : App × List Cmd :=
  if key.Matches k Keys.Back then ({ a with view := .ViewDomains }, [])
  else ({ a with calendarView := a.calendarView.Update (.KeyMsg k) }, [])

/-- The view-specific handling at the end of the key branch of `App.Update`. -/
def App.dispatch (L : GoLib) (T : TeaLib) (a : App) (k : KeyMsg) : Option (App × List Cmd) :=
  match a.view with
  | .ViewDomains => some (a.updateDomains L T k)
  | .ViewDetail => some (a.updateDetail L T k)
  | .ViewDNS => some (a.updateDNS k)
  | .ViewNameservers => a.updateNameservers T k
  | .ViewAvailability => some (a.updateAvailability T k)
  | .ViewTLD => some (a.updateTLD k)
  | .ViewCalendar => some (a.updateCalendar k)
  | .ViewHelp =>
    some (if key.Matches k Keys.Back then { a with view := a.prevView } else a, [])

/-- The window size branch of `App.Update`. -/
def App.resize (a : App) (w h : Int) : App :=
  { a with
    width := w
    height := h
    domainsView := a.domainsView.SetSize w h
    detailView := a.detailView.SetSize w h
    dnsView := a.dnsView.SetSize w h
    nameserversView := a.nameserversView.SetSize w h
    availabilityView := a.availabilityView.SetSize w h
    tldView := a.tldView.SetSize w h
    calendarView := a.calendarView.SetSize w h
    helpView := a.helpView.SetSize w h }

/-- The branch of `App.Update` for `domainsLoadedMsg`. The three views and the
cache read the same slice, which `DomainsView.SetDomains` sorts in place when
no search text is set. -/
def App.domainsLoaded (L : GoLib) (a : App) (domains : List Domain) : App :=
  let dv := a.domainsView.SetDomains L domains
  { a with
    loading := false
    refreshing := false
    domainsView := dv
    tldView := a.tldView.SetData L dv.domains a.pricing
    calendarView := a.calendarView.SetDomains L dv.domains
    cache := a.cache.map (fun c => { c with domains := some dv.domains }) }

/-- The branch of `App.Update` for `pricingLoadedMsg`. -/
def App.pricingLoaded (L : GoLib) (a : App) (pricing : GoMap TLDPricing) : App :=
  { a with
    pricing := pricing
    tldView :=
      if a.domainsView.GetDomains.length > 0 then
        a.tldView.SetData L a.domainsView.GetDomains pricing
      else a.tldView
    cache := a.cache.map (fun c => { c with pricing := some pricing }) }

/-- The branch of `App.Update` for `errMsg`. -/
def App.failed (a : App) (err : GoError) : App :=
  let a1 := { a with err := some err, loading := false, refreshing := false }
  match a.view with
  | .ViewDNS => { a1 with dnsView := a.dnsView.SetError err }
  | .ViewNameservers => { a1 with nameserversView := a.nameserversView.SetError err }
  | .ViewAvailability => { a1 with availabilityView := a.availabilityView.SetError err }
  | _ => a1

/-- The branch of `App.Update` for a key message: the two global keys, which
leave the switch when the search sub-mode of the domain list is active, then
the view-specific handling. -/
def App.keyPressed (L : GoLib) (T : TeaLib) (a : App) (k : KeyMsg) : Option (App × List Cmd) :=
  let isSearching : Bool := decide (a.view = .ViewDomains) && a.domainsView.IsSearching
  if key.Matches k Keys.Quit then
    if isSearching then a.dispatch L T k
    else if a.view = .ViewHelp then some ({ a with view := a.prevView }, [])
    else some (a, [Cmd.Quit])
  else if key.Matches k Keys.Help then
    if isSearching then a.dispatch L T k
    else if a.view = .ViewHelp then some ({ a with view := a.prevView }, [])
    else some ({ a with prevView := a.view, view := .ViewHelp }, [])
  else a.dispatch L T k

/-- Go `App.Update`; `none` is a run-time panic. -/
def App.Update (L : GoLib) (T : TeaLib) (a : App) (msg : Msg) : Option (App × List Cmd) :=
  match msg with
  | .WindowSizeMsg w h => some (a.resize w h, [])
  | .TickMsg =>
    some ({ a with spinner := (T.spinnerUpdate a.spinner msg).1 },
      (T.spinnerUpdate a.spinner msg).2.map Cmd.lib)
  | .domainsLoadedMsg domains => some (a.domainsLoaded L domains, [])
  | .dnsLoadedMsg records => some ({ a with dnsView := a.dnsView.SetRecords records }, [])
  | .nsLoadedMsg ns =>
    some ({ a with nameserversView := a.nameserversView.SetNameservers T ns }, [])
  | .nsSavedMsg =>
    some ({ a with
            nameserversView := a.nameserversView.SetSuccess "Nameservers updated successfully!" },
      match a.domainsView.SelectedDomain with
      | some d => [Cmd.loadNameservers d.Name]
      | none => [])
  | .availabilityResultMsg result =>
    some ({ a with availabilityView := a.availabilityView.SetResult result }, [])
  | .pricingLoadedMsg pricing => some (a.pricingLoaded L pricing, [])
  | .errMsg err => some (a.failed err, [])
  | .KeyMsg k => a.keyPressed L T k
  | .other _ => some (a, [])

/-- The messages that come from the terminal: keys and window sizes. -/
def Msg.isInput : Msg → Bool
  | .KeyMsg _ => true
  | .WindowSizeMsg _ _ => true
  | _ => false

/-- The views that show data fetched from the registrar for one domain or one
query. -/
def View.needsRegistrar : View → Bool
  | .ViewDNS => true
  | .ViewNameservers => true
  | .ViewAvailability => true
  | _ => false

/-- The states of the controller reachable from `NewApp` by messages that
`App.Update` handles without a panic, with any runtime at each step. -/
inductive App.Reachable : App → Prop where
  | init (L : GoLib) (appCache : Option Cache) (cachedDomains : List Domain)
      (cachedPricing : GoMap TLDPricing) (demoMode : Bool) :
      App.Reachable (NewApp L appCache cachedDomains cachedPricing demoMode)
  | step (L : GoLib) (T : TeaLib) (a : App) (msg : Msg) (r : App × List Cmd) :
      App.Reachable a → a.Update L T msg = some r → App.Reachable r.1

/-- The states reachable from `NewApp` in demo mode by key and window size
messages. -/
inductive App.DemoReachable : App → Prop where
  | init (L : GoLib) (appCache : Option Cache) (cachedDomains : List Domain)
      (cachedPricing : GoMap TLDPricing) :
      App.DemoReachable (NewApp L appCache cachedDomains cachedPricing true)
  | step (L : GoLib) (T : TeaLib) (a : App) (msg : Msg) (r : App × List Cmd) :
      App.DemoReachable a → msg.isInput = true → a.Update L T msg = some r →
      App.DemoReachable r.1

/-- What holds in every state of a demo session: the demo flag is set, and
neither the view nor the view remembered for the help screen needs the
registrar. -/
def App.DemoInv (a : App) : Prop :=
  a.demoMode = true ∧ a.view.needsRegistrar = false ∧ a.prevView.needsRegistrar = false

/-- The state after `msg`, or the state itself when `App.Update` panics. -/
def App.after (a : App) (msg : Msg) : App :=
  ((a.Update refLib refTea msg).map Prod.fst).getD a

/-- A demo session over `threeDomains`. -/
def demoApp : App := NewApp refLib none threeDomains [] true

/-- A session with credentials that starts from the cached `threeDomains`:
the refresh of the start is in progress. -/
def cachedApp : App := NewApp refLib (some ⟨none, none⟩) threeDomains [] false

/-- The session `cachedApp` after the key `d`: the DNS view of `alpha.com`,
with the DNS fetch and the refresh of the start both in progress. -/
def dnsPending : App := cachedApp.after (.KeyMsg ⟨"d"⟩)

/-- The session `cachedApp` with the search sub-mode of the list active. -/
def searchingApp : App := cachedApp.after (.KeyMsg ⟨"/"⟩)

/-- The session `cachedApp` after the key `t`, which shows the TLD view. -/
def tldApp : App := cachedApp.after (.KeyMsg ⟨"t"⟩)

/-- The session `demoApp` after the key `t`, which shows the TLD view. -/
def demoTLD : App := demoApp.after (.KeyMsg ⟨"t"⟩)

/-! ## The status bar (`app.go`, `StatusText` of the views) -/

/-- The two lipgloss styles the status bar renders with:
`styles.ErrorStyle.Render` and `styles.StatusBarStyle.Width(w).Render`. -/
structure Styles where
  errorStyle : String → String
  statusBarStyle : Int → String → String

/-- Go `DomainsView.StatusText`. -/
def DomainsView.StatusText (v : DomainsView) : String :=
  if v.searchInput.value ≠ "" then
    String.mk (fmtNat v.filtered.length ++ '/' :: fmtNat v.domains.length ++ " domains".data)
  else String.mk (fmtNat v.domains.length ++ " domains".data)

/-- Go `DNSView.StatusText`. -/
def DNSView.StatusText (v : DNSView) : String :=
  String.mk (fmtNat v.records.length ++ " records".data)

/-- Go `NameserversView.StatusText`. -/
def NameserversView.StatusText (v : NameserversView) : String :=
  String.mk (fmtNat v.nameservers.length ++ " nameservers".data)

/-- Go `AvailabilityView.StatusText`. -/
def AvailabilityView.StatusText (_v : AvailabilityView) : String :=
  "Domain availability checker"

/-- Go `TLDView.StatusText`. -/
def TLDView.StatusText (v : TLDView) : String :=
  String.mk (fmtNat v.groups.length ++ " TLDs".data)

/-- Go `CalendarView.StatusText`. -/
def CalendarView.StatusText (v : CalendarView) : String :=
  String.mk (fmtNat v.groups.length ++ " months, ".data
    ++ fmtNat (v.groups.foldl (fun totalDomains g => totalDomains + g.Domains.length) 0)
    ++ " domains".data)

/-- Go `App.statusBar`: the status text of the current view, the refresh mark
before it while `refreshing` is set, and the global error in place of both
when `err` is not nil. -/
def App.statusBar (S : Styles) (a : App) : String :=
  let status : String :=
    match a.view with
    | .ViewDomains => a.domainsView.StatusText
    | .ViewDetail =>
      match a.domainsView.SelectedDomain with
      | some d => d.Name
      | none => ""
    | .ViewDNS => a.dnsView.StatusText
    | .ViewNameservers => a.nameserversView.StatusText
    | .ViewAvailability => a.availabilityView.StatusText
    | .ViewTLD => a.tldView.StatusText
    | .ViewCalendar => a.calendarView.StatusText
    | .ViewHelp => "Help"
  let status := if a.refreshing then "↻ " ++ status else status
  let status :=
    match a.err with
    | some e => S.errorStyle ("Error: " ++ e.text)
    | none => status
  S.statusBarStyle a.width status

/-- Styles that leave the text as it is. -/
def plainStyles : Styles := { errorStyle := fun s => s, statusBarStyle := fun _ s => s }

/-- The session `cachedApp` after the key `n`: the name server view of
`alpha.com` while its name servers are fetched. -/
def nsOpened : App := cachedApp.after (.KeyMsg ⟨"n"⟩)

/-- The session `nsOpened` after the fetch returned two name servers. -/
def nsLoaded : App := nsOpened.after (.nsLoadedMsg ["ns1.example.net", "ns2.example.net"])

/-- The session `nsLoaded` after the key `e`: the name servers are edited. -/
def nsEditing : App := nsLoaded.after (.KeyMsg ⟨"e"⟩)

/-- The session `nsEditing` after the key `ctrl+s`: the save task of the name
servers is in progress. -/
def nsSaving : App := nsEditing.after (.KeyMsg ⟨"ctrl+s"⟩)

/-! ## Credentials (`config.go`) -/

/-- Go `config.Config`. -/
structure Config where
  APIKey : String
  SecretKey : String
deriving DecidableEq

/-- What `config.Load` reads from the operating system and from the YAML
library.

* `getenv` is `os.Getenv`;
* `statOk path` says that `os.Stat(path)` returns no error;
* `userHomeDir` is `os.UserHomeDir`, `none` for its error;
* `readFile` is `os.ReadFile`, `none` for its error;
* `yamlUnmarshal` is `yaml.Unmarshal` into a zero `Config`, `none` for its
  error;
* `join` is `filepath.Join`. -/
structure Host where
  getenv : String → String
  statOk : String → Bool
  userHomeDir : Option String
  readFile : String → Option String
  yamlUnmarshal : String → Option Config
  join : List String → String

/-- Go `getConfigPath`: the file under `XDG_CONFIG_HOME` when that is set and
the file exists, else the file under `~/.config` when it exists, else the
empty path. -/
def getConfigPath (H : Host) : String :=
  if H.getenv "XDG_CONFIG_HOME" ≠ ""
      ∧ H.statOk (H.join [H.getenv "XDG_CONFIG_HOME", "porkbun-tui", "config.yaml"]) = true then
    H.join [H.getenv "XDG_CONFIG_HOME", "porkbun-tui", "config.yaml"]
  else
    match H.userHomeDir with
    | none => ""
    | some home =>
      if H.statOk (H.join [home, ".config", "porkbun-tui", "config.yaml"]) then
        H.join [home, ".config", "porkbun-tui", "config.yaml"]
      else ""

/-- Go `loadFromFile`; `none` for either error. -/
def loadFromFile (H : Host) (path : String) : Option Config :=
  (H.readFile path).bind H.yamlUnmarshal

/-- The error text of `config.Load`. -/
def missingCredentials : String :=
  "missing API credentials. Set PORKBUN_API_KEY and PORKBUN_SECRET_KEY environment variables, or create ~/.config/porkbun-tui/config.yaml"

/-- Go `config.Load`. -/
def Load (H : Host) : Except String Config :=
  let cfg : Config :=
    { APIKey := H.getenv "PORKBUN_API_KEY", SecretKey := H.getenv "PORKBUN_SECRET_KEY" }
  if cfg.APIKey ≠ "" ∧ cfg.SecretKey ≠ "" then .ok cfg
  else
    let cfg : Config :=
      if getConfigPath H ≠ "" then
        match loadFromFile H (getConfigPath H) with
        | some fileCfg =>
          { APIKey := if cfg.APIKey = "" then fileCfg.APIKey else cfg.APIKey
            SecretKey := if cfg.SecretKey = "" then fileCfg.SecretKey else cfg.SecretKey }
        | none => cfg
      else cfg
    if cfg.APIKey = "" ∨ cfg.SecretKey = "" then .error missingCredentials
    else .ok cfg

/-- The file configuration `Load` falls back to: the content of the file at
`getConfigPath`, when there is such a file and it can be read as YAML. -/
def fileConfig (H : Host) : Option Config :=
  if getConfigPath H ≠ "" then loadFromFile H (getConfigPath H) else none

/-- A host with the given two credentials in the environment, no
`XDG_CONFIG_HOME`, the home directory `/home/u`, and, when `file` is given, a
configuration file there that holds `file`. -/
def hostOf (envKey envSecret : String) (file : Option Config) : Host :=
  { getenv := fun name =>
      if name = "PORKBUN_API_KEY" then envKey
      else if name = "PORKBUN_SECRET_KEY" then envSecret
      else ""
    statOk := fun path => path = "/home/u/.config/porkbun-tui/config.yaml" && file.isSome
    userHomeDir := some "/home/u"
    readFile := fun path =>
      if path = "/home/u/.config/porkbun-tui/config.yaml" ∧ file.isSome = true then some "yaml"
      else none
    yamlUnmarshal := fun _ => file
    join := fun parts => String.intercalate "/" parts }

/-- The availability result for the domain `name`, taken and without a price. -/
def takenResult (name : String) : AvailabilityResult :=
  { Domain := name, Available := false, Price := "", Premium := false }

/-- An availability view whose history holds the ten results `d0` to `d9`. -/
def fullHistory : AvailabilityView :=
  { NewAvailabilityView with
    results := (List.range 10).map (fun i => takenResult (String.mk ('d' :: fmtNat i))) }

/-- The name server view once its inputs exist: four inputs, the cursor on one
of them, and the preset index inside `NSPresets`. -/
def NameserversView.Ready (v : NameserversView) : Prop :=
  v.inputs.length = 4 ∧ 0 ≤ v.cursor ∧ v.cursor < 4 ∧ 0 ≤ v.presetIdx ∧ v.presetIdx < 3

/-! ## The two grouped views side by side -/

/-- A calendar view and a cost breakdown show the same viewport: they have the
same cursor, offset and height, their groups have, position by position, the
same number of members and the same expansion flag (for the cost breakdown the
entry of its `expanded` map under the label of the group), and the labels of
the cost breakdown are pairwise distinct. -/
def ViewsAgree (c : CalendarView) (t : TLDView) : Prop :=
  c.cursor = t.cursor ∧ c.offset = t.offset ∧ c.height = t.height
    ∧ c.groups.map (fun g => (g.Domains.length, g.Expanded))
        = t.groups.map (fun g => (g.Domains.length, t.isExpanded g.TLD))
    ∧ (t.groups.map (fun g => g.TLD)).Nodup

/-- The states of the calendar view reachable from `NewCalendarView` by
`SetSize`, `SetDomains` and `Update`, with any runtime. -/
inductive CalendarView.Reachable : CalendarView → Prop where
  | init : CalendarView.Reachable NewCalendarView
  | setSize (v : CalendarView) (width height : Int) :
      CalendarView.Reachable v → CalendarView.Reachable (v.SetSize width height)
  | setDomains (L : GoLib) (v : CalendarView) (ds : List Domain) :
      CalendarView.Reachable v → CalendarView.Reachable (v.SetDomains L ds)
  | update (v : CalendarView) (msg : Msg) :
      CalendarView.Reachable v → CalendarView.Reachable (v.Update msg)

/-- The states of the cost breakdown reachable from `NewTLDView` by `SetSize`,
`SetData` and `Update`, with any runtime. -/
inductive TLDView.Reachable : TLDView → Prop where
  | init : TLDView.Reachable NewTLDView
  | setSize (v : TLDView) (width height : Int) :
      TLDView.Reachable v → TLDView.Reachable (v.SetSize width height)
  | setData (L : GoLib) (v : TLDView) (ds : List Domain) (pricing : GoMap TLDPricing) :
      TLDView.Reachable v → TLDView.Reachable (v.SetData L ds pricing)
  | update (v : TLDView) (msg : Msg) :
      TLDView.Reachable v → TLDView.Reachable (v.Update msg)

/-- The calendar of `calendarSample` in a one-line viewport: January with two
members, expanded, then March and June with one member each. -/
def freshCalendar : CalendarView :=
  (NewCalendarView.SetSize 80 7).SetDomains refLib calendarSample

/-- The cost breakdown of `tldSample` in a one-line viewport after the key
`enter`: `io` with two members, expanded, then `dev` and `com` with one member
each. -/
def freshTLD : TLDView :=
  ((NewTLDView.SetSize 80 9).SetData refLib tldSample tldSamplePricing).Update
    (.KeyMsg ⟨"enter"⟩)

/-- Two runtimes that differ at most in the order in which a `range` loop
visits a map: the case mapping, the three sorts, the float parser and the float
product are the same. -/
def GoLib.Agree (L L' : GoLib) : Prop :=
  L.toLowerRune = L'.toLowerRune ∧ L.pdqDomains = L'.pdqDomains
    ∧ L.pdqMonthGroups = L'.pdqMonthGroups ∧ L.pdqTLDGroups = L'.pdqTLDGroups
    ∧ L.parseFloat = L'.parseFloat ∧ L.fmul = L'.fmul

/-- The cursor of a grouped view is in place: it is not negative, and it is
below the number of groups unless it is `0`. -/
def CursorOk (cursor : Int) (groups : Nat) : Prop :=
  0 ≤ cursor ∧ (cursor < (groups : Int) ∨ cursor = 0)

end Porkbun

/-! # Verification -/

namespace Porkbun

/-! ## Insertion sort and `sort.Slice` -/

theorem insertLeft_perm {α : Type} (less : α → α → Bool) (x : α) (acc : List α) :
    (insertLeft less x acc).Perm (x :: acc) := by
  induction acc with
  | nil => exact List.Perm.refl _
  | cons p ps ih =>
    unfold insertLeft
    split
    · exact (List.Perm.cons p ih).trans (List.Perm.swap x p ps)
    · exact List.Perm.refl _

theorem foldl_insertLeft_perm {α : Type} (less : α → α → Bool) (xs acc : List α) :
    (xs.foldl (fun acc x => insertLeft less x acc) acc).Perm (xs ++ acc) := by
  induction xs generalizing acc with
  | nil => exact List.Perm.refl _
  | cons x xs ih =>
    refine (ih (insertLeft less x acc)).trans ?_
    refine (List.Perm.append_left xs (insertLeft_perm less x acc)).trans ?_
    exact List.perm_middle

theorem insertionSort_func_perm {α : Type} (less : α → α → Bool) (xs : List α) :
    (insertionSort_func less xs).Perm xs := by
  unfold insertionSort_func
  refine (List.reverse_perm _).trans ?_
  simpa using foldl_insertLeft_perm less xs []

theorem insertLeft_head {α : Type} (less : α → α → Bool) (x : α) (acc : List α) :
    ∀ y ∈ (insertLeft less x acc).head?, y = x ∨ (y ∈ acc.head? ∧ less x y = true) := by
  intro y hy
  cases acc with
  | nil => left; simpa [insertLeft, eq_comm] using hy
  | cons p ps =>
    unfold insertLeft at hy
    split at hy
    · rename_i h
      right
      simp only [List.head?_cons, Option.mem_def, Option.some.injEq] at hy ⊢
      subst hy
      exact ⟨rfl, h⟩
    · left; simpa [eq_comm] using hy

theorem insertLeft_revOrdered {α : Type} (less : α → α → Bool) (x : α) (acc : List α)
    (h : RevOrdered less acc) : RevOrdered less (insertLeft less x acc) := by
  induction acc with
  | nil => simp [insertLeft, RevOrdered]
  | cons p ps ih =>
    unfold RevOrdered at h ih ⊢
    rw [List.chain'_cons'] at h
    unfold insertLeft
    split
    · rename_i hlt
      rw [List.chain'_cons']
      refine ⟨?_, ih h.2⟩
      intro y hy
      rcases insertLeft_head less x ps y hy with rfl | ⟨hy', _⟩
      · exact Or.inl hlt
      · exact h.1 y hy'
    · rename_i hlt
      rw [List.chain'_cons']
      refine ⟨?_, List.chain'_cons'.2 h⟩
      intro y hy
      simp only [List.head?_cons, Option.mem_def, Option.some.injEq] at hy
      subst hy
      right
      simpa using hlt

theorem foldl_insertLeft_revOrdered {α : Type} (less : α → α → Bool) (xs acc : List α)
    (h : RevOrdered less acc) :
    RevOrdered less (xs.foldl (fun acc x => insertLeft less x acc) acc) := by
  induction xs generalizing acc with
  | nil => exact h
  | cons x xs ih => exact ih _ (insertLeft_revOrdered less x acc h)

theorem insertionSort_func_ordered {α : Type} (less : α → α → Bool) (xs : List α) :
    Ordered less (insertionSort_func less xs) := by
  unfold Ordered insertionSort_func
  rw [List.chain'_reverse]
  exact foldl_insertLeft_revOrdered less xs [] (by simp [RevOrdered])

theorem insertionSort_func_pdqSpec {α : Type} :
    PdqSpec (insertionSort_func : (α → α → Bool) → List α → List α) :=
  ⟨insertionSort_func_perm, fun less xs _ _ => insertionSort_func_ordered less xs⟩

theorem sort_Slice_perm {α : Type} {pdq : (α → α → Bool) → List α → List α}
    (hp : PdqSpec pdq) (less : α → α → Bool) (xs : List α) :
    (sort.Slice pdq less xs).Perm xs := by
  unfold sort.Slice
  split
  · exact insertionSort_func_perm less xs
  · exact hp.perm less xs

theorem sort_Slice_ordered {α : Type} {pdq : (α → α → Bool) → List α → List α}
    (hp : PdqSpec pdq) (less : α → α → Bool) (xs : List α)
    (ht : ∀ a ∈ xs, ∀ b ∈ xs, ∀ c ∈ xs, less a b = true → less b c = true → less a c = true)
    (hn : ∀ a ∈ xs, ∀ b ∈ xs, ∀ c ∈ xs,
      less a b = false → less b c = false → less a c = false) :
    Ordered less (sort.Slice pdq less xs) := by
  unfold sort.Slice
  split
  · exact insertionSort_func_ordered less xs
  · exact hp.ordered less xs ht hn

theorem sort_Slice_mem {α : Type} {pdq : (α → α → Bool) → List α → List α}
    (hp : PdqSpec pdq) (less : α → α → Bool) (xs : List α) (a : α) :
    a ∈ sort.Slice pdq less xs ↔ a ∈ xs :=
  (sort_Slice_perm hp less xs).mem_iff

/-- Neighbours in order for a transitive relation are pairwise in order. -/
theorem Ordered.pairwise {α : Type} {less : α → α → Bool} {l : List α} (h : Ordered less l)
    (T : α → α → Prop) (himp : ∀ a b, (less a b = true ∨ less b a = false) → T a b)
    (htrans : ∀ a b c, T a b → T b c → T a c) : l.Pairwise T := by
  haveI : IsTrans α T := ⟨htrans⟩
  exact List.chain'_iff_pairwise.1 (List.Chain'.imp himp h)

theorem refLib_lawful : refLib.Lawful :=
  ⟨insertionSort_func_pdqSpec, insertionSort_func_pdqSpec, insertionSort_func_pdqSpec,
    fun m => List.Perm.refl m, fun m => List.Perm.refl m⟩

theorem refLibRev_lawful : refLibRev.Lawful :=
  ⟨insertionSort_func_pdqSpec, insertionSort_func_pdqSpec, insertionSort_func_pdqSpec,
    fun m => List.reverse_perm m, fun m => List.reverse_perm m⟩

/-! ## The filter of the domain list -/

theorem strings_Contains_iff (s substr : String) :
    strings.Contains s substr = true ↔ substr.data <:+: s.data := by
  unfold strings.Contains
  rw [List.any_eq_true, List.infix_iff_prefix_suffix]
  constructor
  · rintro ⟨t, ht, hp⟩
    exact ⟨t, List.isPrefixOf_iff_prefix.1 hp, (List.mem_tails _ _).1 ht⟩
  · rintro ⟨t, hp, ht⟩
    exact ⟨t, (List.mem_tails _ _).2 ht, List.isPrefixOf_iff_prefix.2 hp⟩

theorem foldl_append_if_eq_filter {α : Type} (p : α → Bool) (xs acc : List α) :
    xs.foldl (fun acc d => if p d then acc ++ [d] else acc) acc = acc ++ xs.filter p := by
  induction xs generalizing acc with
  | nil => simp
  | cons x xs ih =>
    rw [List.foldl_cons, ih]
    by_cases h : p x = true <;> simp [h]

theorem applyFilter_filtered_eq (L : GoLib) (v : DomainsView) :
    (v.applyFilter L).filtered =
      v.domains.filter (fun d =>
        strings.Contains (strings.ToLower L d.Name) (strings.ToLower L v.searchInput.value)) := by
  unfold DomainsView.applyFilter
  by_cases h : strings.ToLower L v.searchInput.value = ""
  · simp only [h, if_true]
    symm
    rw [List.filter_eq_self]
    intro d _
    rw [strings_Contains_iff]
    exact List.nil_infix
  · simp only [h, if_false]
    rw [foldl_append_if_eq_filter]
    simp

/-- C1. `DomainsView.applyFilter` leaves `filtered` equal to the domains of
`domains` whose lower-cased name has the lower-cased search text as a
contiguous block, in their order and multiplicity in `domains` (a filter of
the list, hence a subsequence of it); with an empty search text `filtered` is
all of `domains`. -/
theorem applyFilter_spec (L : GoLib) (v : DomainsView) :
    (v.applyFilter L).filtered =
        v.domains.filter (fun d =>
          decide ((strings.ToLower L v.searchInput.value).data <:+:
            (strings.ToLower L d.Name).data))
      ∧ List.Sublist (v.applyFilter L).filtered v.domains
      ∧ ∀ focus : Bool,
          ({ v with searchInput := ⟨"", focus⟩ }.applyFilter L).filtered = v.domains := by
  have key : (v.applyFilter L).filtered =
      v.domains.filter (fun d =>
        decide ((strings.ToLower L v.searchInput.value).data <:+:
          (strings.ToLower L d.Name).data)) := by
    rw [applyFilter_filtered_eq]
    congr 1
    funext d
    rw [Bool.eq_iff_iff, strings_Contains_iff]
    simp
  refine ⟨key, ?_, ?_⟩
  · rw [key]
    exact List.filter_sublist _
  · intro focus
    simp [DomainsView.applyFilter, strings.ToLower]

/-! ## Sorting the domain list -/

theorem strictWeak_of_key {α κ : Type} [LinearOrder κ] (key : α → κ) :
    StrictWeak (fun a b => decide (key a < key b)) := by
  refine ⟨?_, ?_, ?_⟩
  · intro a b h
    simp only [decide_eq_true_eq, decide_eq_false_iff_not, not_lt] at h ⊢
    exact le_of_lt h
  · intro a b c h1 h2
    simp only [decide_eq_true_eq] at h1 h2 ⊢
    exact lt_trans h1 h2
  · intro a b c h1 h2
    simp only [decide_eq_false_iff_not, not_lt] at h1 h2 ⊢
    exact le_trans h2 h1

theorem fieldLess_strictWeak (f : SortField) : StrictWeak (fieldLess f) := by
  cases f
  · exact strictWeak_of_key (fun d : Domain => d.Name.data)
  · exact strictWeak_of_key (fun d : Domain => d.ExpireDate.instant)

theorem sortLess_asc (v : DomainsView) (h : v.sortAscending = true) :
    v.sortLess = fieldLess v.sortField := by
  funext a b
  simp [DomainsView.sortLess, h]

theorem sortLess_desc (v : DomainsView) (h : v.sortAscending = false) :
    v.sortLess = fun a b => !fieldLess v.sortField a b := by
  funext a b
  simp [DomainsView.sortLess, h]

/-- A strict weak order and its negation both meet the requirement of
`sort.Interface.Less`. -/
theorem sort_Slice_pairwise_asc {α : Type} {pdq : (α → α → Bool) → List α → List α}
    (hp : PdqSpec pdq) {lt : α → α → Bool} (hlt : StrictWeak lt) (xs : List α) :
    (sort.Slice pdq lt xs).Pairwise (fun a b => lt b a = false) := by
  refine (sort_Slice_ordered hp lt xs (fun a _ b _ c _ => hlt.trans a b c)
    (fun a _ b _ c _ => hlt.negtrans a b c)).pairwise _ ?_ ?_
  · rintro a b (h | h)
    · exact hlt.asymm a b h
    · exact h
  · intro a b c h1 h2
    exact hlt.negtrans c b a h2 h1

theorem sort_Slice_pairwise_desc {α : Type} {pdq : (α → α → Bool) → List α → List α}
    (hp : PdqSpec pdq) {lt : α → α → Bool} (hlt : StrictWeak lt) (xs : List α) :
    (sort.Slice pdq (fun a b => !lt a b) xs).Pairwise (fun a b => lt a b = false) := by
  refine (sort_Slice_ordered hp (fun a b => !lt a b) xs ?_ ?_).pairwise _ ?_ ?_
  · intro a _ b _ c _ h1 h2
    simp only [Bool.not_eq_true'] at h1 h2 ⊢
    exact hlt.negtrans a b c h1 h2
  · intro a _ b _ c _ h1 h2
    simp only [Bool.not_eq_false'] at h1 h2 ⊢
    exact hlt.trans a b c h1 h2
  · rintro a b (h | h)
    · simpa using h
    · simp only [Bool.not_eq_false'] at h
      exact hlt.asymm b a h
  · intro a b c h1 h2
    exact hlt.negtrans a b c h1 h2

/-- C2. `DomainsView.sortDomains` leaves `filtered` a permutation of its
previous content. Sorted ascending, no later entry is less than an earlier one
in the sort field (non-decreasing order, for every pair and so for every pair
of neighbours); sorted descending, no earlier entry is less than a later one
(non-increasing order). A freshly constructed view shows, after `SetDomains`,
a permutation of the domains it was given with the expiration instants in
non-decreasing order, earliest first. -/
theorem sortDomains_spec (L : GoLib) (hL : L.Lawful) (v : DomainsView) (ds : List Domain) :
    (v.sortDomains L).filtered.Perm v.filtered
      ∧ (v.sortDomains L).filtered.Pairwise (fun a b =>
          (if v.sortAscending then fieldLess v.sortField b a
            else fieldLess v.sortField a b) = false)
      ∧ (NewDomainsView.SetDomains L ds).filtered.Perm ds
      ∧ (NewDomainsView.SetDomains L ds).filtered.Pairwise
          (fun a b => a.ExpireDate.instant ≤ b.ExpireDate.instant) := by
  refine ⟨sort_Slice_perm hL.pdqDomains _ _, ?_, ?_, ?_⟩
  · show (sort.Slice L.pdqDomains v.sortLess v.filtered).Pairwise _
    cases h : v.sortAscending
    · rw [sortLess_desc v h]
      simpa using sort_Slice_pairwise_desc hL.pdqDomains (fieldLess_strictWeak v.sortField) _
    · rw [sortLess_asc v h]
      simpa using sort_Slice_pairwise_asc hL.pdqDomains (fieldLess_strictWeak v.sortField) _
  · exact sort_Slice_perm hL.pdqDomains _ _
  · have h := sort_Slice_pairwise_asc hL.pdqDomains
      (fieldLess_strictWeak .SortByExpiration) ds
    refine List.Pairwise.imp ?_ h
    intro a b hab
    simpa [fieldLess, Time.Before] using hab

/-- C2 at a concrete input: three domains sorted by name, descending, and the
same three handed to a fresh view. -/
theorem sortDomains_spec_witness :
    refLib.Lawful ∧
    (({ NewDomainsView with
          filtered := [mkDomain "b.com" "com" ⟨2, 2025, 1⟩, mkDomain "c.com" "com" ⟨1, 2025, 1⟩,
            mkDomain "a.com" "com" ⟨3, 2025, 1⟩]
          sortField := .SortByName, sortAscending := false } : DomainsView).sortDomains
        refLib).filtered.map (fun d => d.Name) = ["c.com", "b.com", "a.com"] ∧
    (NewDomainsView.SetDomains refLib
        [mkDomain "b.com" "com" ⟨2, 2025, 1⟩, mkDomain "c.com" "com" ⟨1, 2025, 1⟩,
          mkDomain "a.com" "com" ⟨3, 2025, 1⟩]).filtered.Pairwise
      (fun a b => a.ExpireDate.instant ≤ b.ExpireDate.instant) :=
  ⟨refLib_lawful, by decide,
    (sortDomains_spec refLib refLib_lawful NewDomainsView
      [mkDomain "b.com" "com" ⟨2, 2025, 1⟩, mkDomain "c.com" "com" ⟨1, 2025, 1⟩,
        mkDomain "a.com" "com" ⟨3, 2025, 1⟩]).2.2.2⟩

/-! ## Equal sort keys -/

theorem insertLeft_filter_asc {α κ : Type} [LinearOrder κ] (key : α → κ) (k : κ) (x : α)
    (acc : List α) :
    (insertLeft (fun a b => decide (key a < key b)) x acc).filter (fun a => decide (key a = k)) =
      if key x = k then x :: acc.filter (fun a => decide (key a = k))
      else acc.filter (fun a => decide (key a = k)) := by
  induction acc with
  | nil => by_cases hx : key x = k <;> simp [insertLeft, hx]
  | cons p ps ih =>
    unfold insertLeft
    by_cases hlt : key x < key p
    · simp only [hlt, decide_True, if_true, List.filter_cons, ih]
      by_cases hx : key x = k
      · have hp : key p ≠ k := fun h => by rw [hx, h] at hlt; exact lt_irrefl _ hlt
        simp [hx, hp]
      · by_cases hp : key p = k <;> simp [hx, hp]
    · simp only [hlt, decide_False, Bool.false_eq_true, if_false]
      by_cases hx : key x = k <;> simp [hx, List.filter_cons]

theorem foldl_insertLeft_filter_asc {α κ : Type} [LinearOrder κ] (key : α → κ) (k : κ)
    (xs acc : List α) :
    (xs.foldl (fun acc x => insertLeft (fun a b => decide (key a < key b)) x acc) acc).filter
        (fun a => decide (key a = k)) =
      (xs.filter (fun a => decide (key a = k))).reverse ++
        acc.filter (fun a => decide (key a = k)) := by
  induction xs generalizing acc with
  | nil => simp
  | cons x xs ih =>
    rw [List.foldl_cons, ih, insertLeft_filter_asc]
    by_cases hx : key x = k <;> simp [hx]

theorem insertionSort_func_filter_asc {α κ : Type} [LinearOrder κ] (key : α → κ) (k : κ)
    (xs : List α) :
    (insertionSort_func (fun a b => decide (key a < key b)) xs).filter
        (fun a => decide (key a = k)) = xs.filter (fun a => decide (key a = k)) := by
  unfold insertionSort_func
  rw [List.filter_reverse, foldl_insertLeft_filter_asc]
  simp

theorem insertLeft_filter_desc {α κ : Type} [LinearOrder κ] (key : α → κ) (k : κ) (x : α)
    (acc : List α) (hs : acc.Pairwise (fun u w => key u ≤ key w)) :
    (insertLeft (fun a b => !decide (key a < key b)) x acc).filter
        (fun a => decide (key a = k)) =
      if key x = k then acc.filter (fun a => decide (key a = k)) ++ [x]
      else acc.filter (fun a => decide (key a = k)) := by
  induction acc with
  | nil => by_cases hx : key x = k <;> simp [insertLeft, hx]
  | cons p ps ih =>
    rw [List.pairwise_cons] at hs
    unfold insertLeft
    by_cases hlt : key x < key p
    · simp only [hlt, decide_True, Bool.not_true, Bool.false_eq_true, if_false,
        List.filter_cons]
      by_cases hx : key x = k
      · have hp : key p ≠ k := fun h => by rw [hx, h] at hlt; exact lt_irrefl _ hlt
        have hps : ps.filter (fun a => decide (key a = k)) = [] := by
          rw [List.filter_eq_nil_iff]
          intro a ha hk
          simp only [decide_eq_true_eq] at hk
          have h1 := hs.1 a ha
          rw [hk, ← hx] at h1
          exact absurd (lt_of_lt_of_le hlt h1) (lt_irrefl _)
        simp [hx, hp, hps]
      · by_cases hp : key p = k <;> simp [hx, hp]
    · simp only [hlt, decide_False, Bool.not_false, if_true, List.filter_cons, ih hs.2]
      by_cases hx : key x = k <;> by_cases hp : key p = k <;> simp [hx, hp]

theorem insertLeft_sorted_desc {α κ : Type} [LinearOrder κ] (key : α → κ) (x : α)
    (acc : List α) (hs : acc.Pairwise (fun u w => key u ≤ key w)) :
    (insertLeft (fun a b => !decide (key a < key b)) x acc).Pairwise
      (fun u w => key u ≤ key w) := by
  induction acc with
  | nil => simp [insertLeft]
  | cons p ps ih =>
    rw [List.pairwise_cons] at hs
    unfold insertLeft
    by_cases hlt : key x < key p
    · simp only [hlt, decide_True, Bool.not_true, Bool.false_eq_true, if_false]
      rw [List.pairwise_cons]
      refine ⟨?_, List.pairwise_cons.2 hs⟩
      intro a ha
      rcases List.mem_cons.1 ha with rfl | ha
      · exact le_of_lt hlt
      · exact le_trans (le_of_lt hlt) (hs.1 a ha)
    · simp only [hlt, decide_False, Bool.not_false, if_true]
      rw [List.pairwise_cons]
      refine ⟨?_, ih hs.2⟩
      intro a ha
      rcases List.mem_cons.1 ((insertLeft_perm _ x ps).mem_iff.1 ha) with rfl | ha
      · exact not_lt.1 hlt
      · exact hs.1 a ha

theorem foldl_insertLeft_filter_desc {α κ : Type} [LinearOrder κ] (key : α → κ) (k : κ)
    (xs acc : List α) (hs : acc.Pairwise (fun u w => key u ≤ key w)) :
    (xs.foldl (fun acc x => insertLeft (fun a b => !decide (key a < key b)) x acc) acc).filter
        (fun a => decide (key a = k)) =
      acc.filter (fun a => decide (key a = k)) ++ xs.filter (fun a => decide (key a = k)) := by
  induction xs generalizing acc with
  | nil => simp
  | cons x xs ih =>
    rw [List.foldl_cons, ih _ (insertLeft_sorted_desc key x acc hs),
      insertLeft_filter_desc key k x acc hs]
    by_cases hx : key x = k <;> simp [hx]

theorem insertionSort_func_filter_desc {α κ : Type} [LinearOrder κ] (key : α → κ) (k : κ)
    (xs : List α) :
    (insertionSort_func (fun a b => !decide (key a < key b)) xs).filter
        (fun a => decide (key a = k)) = (xs.filter (fun a => decide (key a = k))).reverse := by
  unfold insertionSort_func
  rw [List.filter_reverse, foldl_insertLeft_filter_desc key k xs [] List.Pairwise.nil]
  simp

theorem sameKey_name (d0 : Domain) :
    (fun a => sameKey .SortByName a d0) =
      fun a => decide ((fun d : Domain => d.Name.data) a = d0.Name.data) := by
  funext a
  simp [sameKey, String.ext_iff]

theorem sameKey_expiration (d0 : Domain) :
    (fun a => sameKey .SortByExpiration a d0) =
      fun a => decide ((fun d : Domain => d.ExpireDate.instant) a = d0.ExpireDate.instant) := by
  funext a
  simp [sameKey]

/-- C3, as stated, fails: sorting by expiration date in descending order two
domains that expire at the same instant exchanges them (the closure answers
`true` for the pair in either order, and the insertion sort swaps on `true`).
The entries with the key of `a.com` are `a.com, b.com` before the sort and
`b.com, a.com` after it. -/
theorem sortDomains_not_stable :
    (tieView.sortDomains refLib).filtered.map (fun d => d.Name) = ["b.com", "a.com"]
      ∧ (tieView.sortDomains refLib).filtered.filter
          (fun a => sameKey tieView.sortField a (mkDomain "a.com" "com" ⟨1736899200, 2025, 1⟩))
        ≠ tieView.filtered.filter
          (fun a => sameKey tieView.sortField a (mkDomain "a.com" "com" ⟨1736899200, 2025, 1⟩)) := by
  decide

/-- C3, amended. On a list of at most twelve domains, where `sort.Slice` is an
insertion sort, `DomainsView.sortDomains` in ascending direction keeps the
domains that share a sort key (the same name, or the same expiration
instant) in the relative order they had before; in descending direction it
leaves them in the reverse of that order. -/
theorem sortDomains_tie_order (L : GoLib) (v : DomainsView) (d0 : Domain)
    (hlen : v.filtered.length ≤ 12) :
    (v.sortDomains L).filtered.filter (fun a => sameKey v.sortField a d0) =
      if v.sortAscending then v.filtered.filter (fun a => sameKey v.sortField a d0)
      else (v.filtered.filter (fun a => sameKey v.sortField a d0)).reverse := by
  have hs : (v.sortDomains L).filtered = insertionSort_func v.sortLess v.filtered := by
    show sort.Slice L.pdqDomains v.sortLess v.filtered = _
    unfold sort.Slice
    rw [if_pos (by simpa [maxInsertion] using hlen)]
  rw [hs]
  cases h : v.sortAscending
  · rw [sortLess_desc v h]
    simp only [Bool.false_eq_true, if_false]
    cases v.sortField
    · rw [sameKey_name]
      convert insertionSort_func_filter_desc (fun d : Domain => d.Name.data) d0.Name.data
        v.filtered
    · rw [sameKey_expiration]
      exact insertionSort_func_filter_desc (fun d : Domain => d.ExpireDate.instant) _ _
  · rw [sortLess_asc v h]
    simp only [if_true]
    cases v.sortField
    · rw [sameKey_name]
      convert insertionSort_func_filter_asc (fun d : Domain => d.Name.data) d0.Name.data
        v.filtered
    · rw [sameKey_expiration]
      exact insertionSort_func_filter_asc (fun d : Domain => d.ExpireDate.instant) _ _

/-- C3, amended, at a concrete input: the two tied domains of `tieView`. -/
theorem sortDomains_tie_order_witness :
    tieView.filtered.length ≤ 12 ∧
    (tieView.sortDomains refLib).filtered.filter
        (fun a => sameKey tieView.sortField a (mkDomain "a.com" "com" ⟨1736899200, 2025, 1⟩)) =
      if tieView.sortAscending then
        tieView.filtered.filter
          (fun a => sameKey tieView.sortField a (mkDomain "a.com" "com" ⟨1736899200, 2025, 1⟩))
      else
        (tieView.filtered.filter (fun a =>
          sameKey tieView.sortField a (mkDomain "a.com" "com" ⟨1736899200, 2025, 1⟩))).reverse :=
  ⟨by decide, sortDomains_tie_order refLib tieView _ (by decide)⟩

/-! ## The year-month key is injective -/

theorem digitVal_digitChar (d : Nat) (h : d < 10) : digitVal (digitChar d) = d := by
  interval_cases d <;> rfl

theorem IsDigit.ne_dash {c : Char} (h : IsDigit c) : c ≠ '-' := by
  obtain ⟨d, hd, rfl⟩ := h
  interval_cases d <;> decide

theorem parseDigits_append_singleton (l : List Char) (c : Char) :
    parseDigits (l ++ [c]) = 10 * parseDigits l + digitVal c := by
  simp [parseDigits, List.foldl_append]

theorem decimalDigits_isDigit (fuel n : Nat) : ∀ c ∈ decimalDigits fuel n, IsDigit c := by
  induction fuel generalizing n with
  | zero => intro c hc; simp [decimalDigits] at hc
  | succ fuel ih =>
    intro c hc
    unfold decimalDigits at hc
    split at hc
    · rename_i h
      rw [List.mem_singleton] at hc
      exact ⟨n, h, hc⟩
    · rcases List.mem_append.1 hc with hc | hc
      · exact ih _ c hc
      · rw [List.mem_singleton] at hc
        exact ⟨n % 10, Nat.mod_lt _ (by norm_num), hc⟩

theorem parseDigits_decimalDigits (fuel n : Nat) (h : n < fuel) :
    parseDigits (decimalDigits fuel n) = n := by
  induction fuel generalizing n with
  | zero => omega
  | succ fuel ih =>
    unfold decimalDigits
    split
    · rename_i hn
      simp [parseDigits, digitVal_digitChar n hn]
    · rw [parseDigits_append_singleton, ih (n / 10) (by omega),
        digitVal_digitChar _ (Nat.mod_lt _ (by norm_num))]
      omega

theorem decimalDigits_ne_nil (fuel n : Nat) : decimalDigits (fuel + 1) n ≠ [] := by
  unfold decimalDigits
  split <;> simp

theorem parseDigits_fmtNat (n : Nat) : parseDigits (fmtNat n) = n :=
  parseDigits_decimalDigits (n + 1) n (Nat.lt_succ_self n)

theorem fmtNat_isDigit (n : Nat) : ∀ c ∈ fmtNat n, IsDigit c := decimalDigits_isDigit _ _

theorem fmtNat_injective {m n : Nat} (h : fmtNat m = fmtNat n) : m = n := by
  rw [← parseDigits_fmtNat m, ← parseDigits_fmtNat n, h]

theorem fmtNat_head_ne_dash (n : Nat) (l : List Char) : fmtNat n ≠ '-' :: l := by
  intro h
  have hm : '-' ∈ fmtNat n := by rw [h]; exact List.mem_cons_self _ _
  exact (fmtNat_isDigit n _ hm).ne_dash rfl

theorem fmtInt_injective {i j : Int} (h : fmtInt i = fmtInt j) : i = j := by
  unfold fmtInt at h
  by_cases hi : i < 0 <;> by_cases hj : j < 0
  · rw [if_pos hi, if_pos hj] at h
    have := fmtNat_injective (List.cons.inj h).2
    omega
  · rw [if_pos hi, if_neg hj] at h
    exact absurd h.symm (fmtNat_head_ne_dash _ _)
  · rw [if_neg hi, if_pos hj] at h
    exact absurd h (fmtNat_head_ne_dash _ _)
  · rw [if_neg hi, if_neg hj] at h
    have := fmtNat_injective h
    omega

theorem fmtPad2_isDigit (m : Nat) : ∀ c ∈ fmtPad2 m, IsDigit c := by
  unfold fmtPad2
  split
  · rename_i h
    intro c hc
    rcases List.mem_cons.1 hc with rfl | hc
    · exact ⟨0, by norm_num, rfl⟩
    · rw [List.mem_singleton] at hc
      exact ⟨m, h, hc⟩
  · exact fmtNat_isDigit m

theorem parseDigits_fmtPad2 (m : Nat) : parseDigits (fmtPad2 m) = m := by
  unfold fmtPad2
  split
  · rename_i h
    have h0 : digitVal '0' = 0 := rfl
    simp [parseDigits, digitVal_digitChar m h, h0]
  · exact parseDigits_fmtNat m

/-- Two lists that agree and are cut at the last occurrence of `a` agree on
both sides of the cut. -/
theorem append_cons_cut {α : Type} (a : α) :
    ∀ (l₁ l₂ r₁ r₂ : List α), a ∉ r₁ → a ∉ r₂ → l₁ ++ a :: r₁ = l₂ ++ a :: r₂ →
      l₁ = l₂ ∧ r₁ = r₂ := by
  intro l₁
  induction l₁ with
  | nil =>
    intro l₂ r₁ r₂ h1 h2 h
    cases l₂ with
    | nil => exact ⟨rfl, (List.cons.inj h).2⟩
    | cons b l₂ =>
      have h' := List.cons.inj h
      exfalso
      apply h1
      rw [h'.2]
      exact List.mem_append_right _ (List.mem_cons_self _ _)
  | cons c l₁ ih =>
    intro l₂ r₁ r₂ h1 h2 h
    cases l₂ with
    | nil =>
      have h' := List.cons.inj h
      exfalso
      apply h2
      rw [← h'.2]
      exact List.mem_append_right _ (List.mem_cons_self _ _)
    | cons b l₂ =>
      have h' := List.cons.inj h
      obtain ⟨e1, e2⟩ := ih l₂ r₁ r₂ h1 h2 h'.2
      exact ⟨by rw [h'.1, e1], e2⟩

theorem monthKey_injective {y y' : Int} {m m' : Nat} (h : monthKey y m = monthKey y' m') :
    y = y' ∧ m = m' := by
  unfold monthKey at h
  have h' : fmtInt y ++ '-' :: fmtPad2 m = fmtInt y' ++ '-' :: fmtPad2 m' :=
    congrArg String.data h
  obtain ⟨e1, e2⟩ := append_cons_cut '-' _ _ _ _
    (fun hm => (fmtPad2_isDigit m _ hm).ne_dash rfl)
    (fun hm => (fmtPad2_isDigit m' _ hm).ne_dash rfl) h'
  refine ⟨fmtInt_injective e1, ?_⟩
  rw [← parseDigits_fmtPad2 m, ← parseDigits_fmtPad2 m', e2]

/-! ## Go maps -/

theorem GoMap.get?_eq_none {V : Type} (m : GoMap V) (k : String) :
    GoMap.get? m k = none ↔ k ∉ m.map Prod.fst := by
  induction m with
  | nil => simp [GoMap.get?]
  | cons e m ih =>
    obtain ⟨k', y⟩ := e
    unfold GoMap.get?
    by_cases h : k' = k
    · simp [h]
    · simp only [h, if_false, ih, List.map_cons, List.mem_cons, not_or]
      exact ⟨fun hm => ⟨fun e => h e.symm, hm⟩, fun hm => hm.2⟩

theorem GoMap.set_of_get?_none {V : Type} (m : GoMap V) (k : String) (x : V)
    (h : GoMap.get? m k = none) : GoMap.set m k x = m ++ [(k, x)] := by
  induction m with
  | nil => rfl
  | cons e m ih =>
    obtain ⟨k', y⟩ := e
    unfold GoMap.get? at h
    unfold GoMap.set
    by_cases hk : k' = k
    · simp [hk] at h
    · simp only [hk, if_false] at h ⊢
      rw [ih h]
      rfl

theorem GoMap.set_of_get?_some {V : Type} (m : GoMap V) (k : String) (x y : V)
    (h : GoMap.get? m k = some y) :
    ∃ l₁ l₂, m = l₁ ++ (k, y) :: l₂ ∧ GoMap.set m k x = l₁ ++ (k, x) :: l₂ := by
  induction m with
  | nil => simp [GoMap.get?] at h
  | cons e m ih =>
    obtain ⟨k', z⟩ := e
    unfold GoMap.get? at h
    unfold GoMap.set
    by_cases hk : k' = k
    · simp only [hk, if_true, Option.some.injEq] at h ⊢
      subst h
      exact ⟨[], m, rfl, rfl⟩
    · simp only [hk, if_false] at h ⊢
      obtain ⟨l₁, l₂, e1, e2⟩ := ih h
      exact ⟨(k', z) :: l₁, l₂, by rw [e1]; rfl, by rw [e2]; rfl⟩

/-! ## Month grouping -/

theorem calendar_addDomain_of_none (m : GoMap MonthGroup) (d : Domain)
    (h : GoMap.get? m (monthKey d.ExpireDate.Year d.ExpireDate.Month) = none) :
    CalendarView.addDomain m d =
      m ++ [(monthKey d.ExpireDate.Year d.ExpireDate.Month,
        { Year := d.ExpireDate.Year, Month := d.ExpireDate.Month, Domains := [d],
          Expanded := false })] := by
  simp only [CalendarView.addDomain, h]
  exact GoMap.set_of_get?_none m _ _ h

theorem calendar_addDomain_of_some (m : GoMap MonthGroup) (d : Domain) (g : MonthGroup)
    (h : GoMap.get? m (monthKey d.ExpireDate.Year d.ExpireDate.Month) = some g) :
    CalendarView.addDomain m d =
      GoMap.set m (monthKey d.ExpireDate.Year d.ExpireDate.Month)
        { g with Domains := g.Domains ++ [d] } := by
  simp only [CalendarView.addDomain, h]

theorem monthMapInv_addDomain (m : GoMap MonthGroup) (ds : List Domain) (d : Domain)
    (h : MonthMapInv m ds) : MonthMapInv (CalendarView.addDomain m d) (ds ++ [d]) := by
  obtain ⟨hk, he, hp⟩ := h
  cases hg : GoMap.get? m (monthKey d.ExpireDate.Year d.ExpireDate.Month) with
  | none =>
    rw [calendar_addDomain_of_none m d hg]
    refine ⟨?_, ?_, ?_⟩
    · rw [List.map_append, List.nodup_append]
      refine ⟨hk, by simp, ?_⟩
      intro a ha hb
      simp only [List.map_cons, List.map_nil, List.mem_singleton] at hb
      subst hb
      exact (GoMap.get?_eq_none m _).1 hg ha
    · intro e hm
      rcases List.mem_append.1 hm with hm | hm
      · exact he e hm
      · rw [List.mem_singleton] at hm
        subst hm
        refine ⟨rfl, rfl, by simp, ?_⟩
        intro d' hd'
        simp only [List.mem_singleton] at hd'
        subst hd'
        exact ⟨rfl, rfl⟩
    · rw [List.flatMap_append]
      simpa using List.Perm.append_right [d] hp
  | some g =>
    rw [calendar_addDomain_of_some m d g hg]
    obtain ⟨l₁, l₂, e1, e2⟩ := GoMap.set_of_get?_some m _
      { g with Domains := g.Domains ++ [d] } g hg
    rw [e2]
    subst e1
    have hg' := he (monthKey d.ExpireDate.Year d.ExpireDate.Month, g) (by simp)
    obtain ⟨hkey, hexp, _, hmem⟩ := hg'
    simp only at hkey hexp hmem
    obtain ⟨hy, hmo⟩ := monthKey_injective hkey
    refine ⟨?_, ?_, ?_⟩
    · simpa using hk
    · intro e hm
      rcases List.mem_append.1 hm with hm | hm
      · exact he e (List.mem_append_left _ hm)
      · rcases List.mem_cons.1 hm with hm | hm
        · subst hm
          refine ⟨hkey, hexp, by simp, ?_⟩
          intro d' hd'
          rcases List.mem_append.1 hd' with hd' | hd'
          · exact hmem d' hd'
          · rw [List.mem_singleton] at hd'
            subst hd'
            exact ⟨hy, hmo⟩
        · exact he e (List.mem_append_right _ (List.mem_cons_of_mem _ hm))
    · simp only [List.flatMap_append, List.flatMap_cons] at hp ⊢
      have h1 : (l₁.flatMap (fun e : String × MonthGroup => e.2.Domains) ++
            ((g.Domains ++ [d]) ++ l₂.flatMap (fun e => e.2.Domains))).Perm
          ((l₁.flatMap (fun e : String × MonthGroup => e.2.Domains) ++
            (g.Domains ++ l₂.flatMap (fun e => e.2.Domains))) ++ [d]) := by
        rw [List.append_assoc, List.append_assoc, List.append_assoc]
        refine List.Perm.append_left _ (List.Perm.append_left _ ?_)
        exact List.perm_append_comm
      exact h1.trans (List.Perm.append_right [d] hp)

theorem monthMapInv_foldl (ds : List Domain) :
    MonthMapInv (ds.foldl CalendarView.addDomain []) ds := by
  induction ds using List.reverseRecOn with
  | nil => exact ⟨List.nodup_nil, fun e he => by simp at he, List.Perm.refl _⟩
  | append_singleton ds d ih =>
    rw [List.foldl_append]
    exact monthMapInv_addDomain _ ds d ih

theorem groupLess_strictWeak : StrictWeak CalendarView.groupLess := by
  refine ⟨?_, ?_, ?_⟩
  · intro a b h
    unfold CalendarView.groupLess at h ⊢
    split_ifs at h ⊢ <;> simp only [decide_eq_true_eq, decide_eq_false_iff_not] at h ⊢ <;> omega
  · intro a b c h1 h2
    unfold CalendarView.groupLess at h1 h2 ⊢
    split_ifs at h1 h2 ⊢ <;>
      simp only [decide_eq_true_eq, decide_eq_false_iff_not] at h1 h2 ⊢ <;> omega
  · intro a b c h1 h2
    unfold CalendarView.groupLess at h1 h2 ⊢
    split_ifs at h1 h2 ⊢ <;>
      simp only [decide_eq_true_eq, decide_eq_false_iff_not] at h1 h2 ⊢ <;> omega

theorem before_strictWeak :
    StrictWeak (fun a b : Domain => a.ExpireDate.Before b.ExpireDate) :=
  strictWeak_of_key (fun d : Domain => d.ExpireDate.instant)

theorem calendar_buildGroups_perm (L : GoLib) (hL : L.Lawful) (ds : List Domain) :
    (CalendarView.buildGroups L ds).Perm (CalendarView.unsortedGroups L ds) :=
  sort_Slice_perm hL.pdqMonthGroups _ _

theorem calendar_unsortedGroups_mem (L : GoLib) (hL : L.Lawful) (ds : List Domain)
    (g : MonthGroup) (hg : g ∈ CalendarView.unsortedGroups L ds) :
    g.Expanded = false ∧ g.Domains ≠ [] ∧
      (∀ d ∈ g.Domains, d.ExpireDate.Year = g.Year ∧ d.ExpireDate.Month = g.Month) ∧
      g.Domains.Pairwise (fun a b => a.ExpireDate.instant ≤ b.ExpireDate.instant) := by
  unfold CalendarView.unsortedGroups at hg
  obtain ⟨e, he, rfl⟩ := List.mem_map.1 hg
  have hm : e ∈ ds.foldl CalendarView.addDomain [] := (hL.rangeMonths _).mem_iff.1 he
  obtain ⟨_, hexp, hne, hmem⟩ := (monthMapInv_foldl ds).2.1 e hm
  have hperm := sort_Slice_perm hL.pdqDomains
    (fun a b : Domain => a.ExpireDate.Before b.ExpireDate) e.2.Domains
  refine ⟨hexp, ?_, ?_, ?_⟩
  · intro h0
    simp only at h0
    rw [h0] at hperm
    exact hne hperm.symm.eq_nil
  · intro d hd
    exact hmem d (hperm.mem_iff.1 hd)
  · have h := sort_Slice_pairwise_asc hL.pdqDomains before_strictWeak e.2.Domains
    refine List.Pairwise.imp ?_ h
    intro a b hab
    simpa [Time.Before] using hab

theorem calendar_unsortedGroups_flatMap (L : GoLib) (hL : L.Lawful) (ds : List Domain) :
    ((CalendarView.unsortedGroups L ds).flatMap (fun g => g.Domains)).Perm ds := by
  unfold CalendarView.unsortedGroups
  rw [List.flatMap_map]
  refine (List.Perm.flatMap_left _ (g := fun e => e.2.Domains) ?_).trans ?_
  · intro e _
    exact sort_Slice_perm hL.pdqDomains _ _
  · exact (List.Perm.flatMap_right _ (hL.rangeMonths _)).trans (monthMapInv_foldl ds).2.2

theorem calendar_unsortedGroups_nodup (L : GoLib) (hL : L.Lawful) (ds : List Domain) :
    ((CalendarView.unsortedGroups L ds).map MonthGroup.ym).Nodup := by
  have hinv := monthMapInv_foldl ds
  have h1 : ((ds.foldl CalendarView.addDomain []).map (fun e => e.2.ym)).Nodup := by
    apply List.Nodup.of_map (fun p : Int × Nat => monthKey p.1 p.2)
    rw [List.map_map]
    have : (ds.foldl CalendarView.addDomain []).map
        ((fun p : Int × Nat => monthKey p.1 p.2) ∘ fun e => e.2.ym) =
        (ds.foldl CalendarView.addDomain []).map Prod.fst := by
      apply List.map_congr_left
      intro e he
      exact (hinv.2.1 e he).1.symm
    rw [this]
    exact hinv.1
  unfold CalendarView.unsortedGroups
  rw [List.map_map]
  exact (((hL.rangeMonths _).map _).nodup_iff).2 h1

theorem calendar_buildGroups_sorted (L : GoLib) (hL : L.Lawful) (ds : List Domain) :
    (CalendarView.buildGroups L ds).Pairwise (fun a b => ymLess a.ym b.ym) := by
  have h1 : (CalendarView.buildGroups L ds).Pairwise
      (fun a b => CalendarView.groupLess b a = false) :=
    sort_Slice_pairwise_asc hL.pdqMonthGroups groupLess_strictWeak _
  have h2 : (CalendarView.buildGroups L ds).Pairwise (fun a b => a.ym ≠ b.ym) := by
    have := (((calendar_buildGroups_perm L hL ds).map MonthGroup.ym).nodup_iff).2
      (calendar_unsortedGroups_nodup L hL ds)
    exact List.pairwise_map.1 this
  refine List.Pairwise.imp ?_ (h1.and h2)
  rintro a b ⟨hab, hne⟩
  unfold CalendarView.groupLess at hab
  unfold ymLess
  simp only [MonthGroup.ym, ne_eq, Prod.mk.injEq, not_and] at hne ⊢
  split_ifs at hab with hy <;> simp only [decide_eq_false_iff_not] at hab
  · left; omega
  · right
    simp only [ne_eq, not_not] at hy
    have := hne hy.symm
    omega

theorem calendar_expandFirst_flatMap (gs : List MonthGroup) :
    (CalendarView.expandFirst gs).flatMap (fun g => g.Domains) =
      gs.flatMap (fun g => g.Domains) := by
  cases gs <;> rfl

theorem calendar_expandFirst_map_ym (gs : List MonthGroup) :
    (CalendarView.expandFirst gs).map MonthGroup.ym = gs.map MonthGroup.ym := by
  cases gs <;> rfl

theorem calendar_expandFirst_mem (gs : List MonthGroup) (g : MonthGroup)
    (hg : g ∈ CalendarView.expandFirst gs) :
    ∃ g' ∈ gs, g.Year = g'.Year ∧ g.Month = g'.Month ∧ g.Domains = g'.Domains := by
  cases gs with
  | nil => simp [CalendarView.expandFirst] at hg
  | cons a as =>
    rcases List.mem_cons.1 hg with rfl | h
    · exact ⟨a, List.mem_cons_self _ _, rfl, rfl, rfl⟩
    · exact ⟨g, List.mem_cons_of_mem _ h, rfl, rfl, rfl⟩

theorem calendar_buildGroups_mem (L : GoLib) (hL : L.Lawful) (ds : List Domain)
    (g : MonthGroup) (hg : g ∈ CalendarView.buildGroups L ds) :
    g.Expanded = false ∧ g.Domains ≠ [] ∧
      (∀ d ∈ g.Domains, d.ExpireDate.Year = g.Year ∧ d.ExpireDate.Month = g.Month) ∧
      g.Domains.Pairwise (fun a b => a.ExpireDate.instant ≤ b.ExpireDate.instant) :=
  calendar_unsortedGroups_mem L hL ds g
    ((calendar_buildGroups_perm L hL ds).mem_iff.1 hg)

theorem calendar_buildGroups_flatMap (L : GoLib) (hL : L.Lawful) (ds : List Domain) :
    ((CalendarView.buildGroups L ds).flatMap (fun g => g.Domains)).Perm ds :=
  (List.Perm.flatMap_right _ (calendar_buildGroups_perm L hL ds)).trans
    (calendar_unsortedGroups_flatMap L hL ds)

/-- C4. The month groups built by `CalendarView.SetDomains` partition the
input: the members of all groups together are a permutation of the input list
(the same multiset), no two groups have the same year and month, every member
expires in the year and month of its group, and no group is empty. -/
theorem calendar_partition (L : GoLib) (hL : L.Lawful) (v : CalendarView) (ds : List Domain) :
    ((v.SetDomains L ds).groups.flatMap (fun g => g.Domains)).Perm ds
      ∧ ((v.SetDomains L ds).groups.map MonthGroup.ym).Nodup
      ∧ ∀ g ∈ (v.SetDomains L ds).groups, g.Domains ≠ [] ∧
          ∀ d ∈ g.Domains, d.ExpireDate.Year = g.Year ∧ d.ExpireDate.Month = g.Month := by
  refine ⟨?_, ?_, ?_⟩
  · show ((CalendarView.expandFirst (CalendarView.buildGroups L ds)).flatMap _).Perm ds
    rw [calendar_expandFirst_flatMap]
    exact calendar_buildGroups_flatMap L hL ds
  · show ((CalendarView.expandFirst (CalendarView.buildGroups L ds)).map _).Nodup
    rw [calendar_expandFirst_map_ym]
    exact (((calendar_buildGroups_perm L hL ds).map MonthGroup.ym).nodup_iff).2
      (calendar_unsortedGroups_nodup L hL ds)
  · intro g hg
    obtain ⟨g', hg', hy, hm, hd⟩ := calendar_expandFirst_mem _ g hg
    obtain ⟨_, hne, hmem, _⟩ := calendar_buildGroups_mem L hL ds g' hg'
    rw [hy, hm, hd]
    exact ⟨hne, hmem⟩

/-- C4 at a concrete input: `calendarSample`, with the map visited in reverse
insertion order. -/
theorem calendar_partition_witness :
    refLibRev.Lawful ∧
    ((NewCalendarView.SetDomains refLibRev calendarSample).groups.flatMap
        (fun g => g.Domains)).Perm calendarSample
      ∧ ((NewCalendarView.SetDomains refLibRev calendarSample).groups.map MonthGroup.ym).Nodup
      ∧ ∀ g ∈ (NewCalendarView.SetDomains refLibRev calendarSample).groups, g.Domains ≠ [] ∧
          ∀ d ∈ g.Domains, d.ExpireDate.Year = g.Year ∧ d.ExpireDate.Month = g.Month :=
  ⟨refLibRev_lawful, calendar_partition refLibRev refLibRev_lawful NewCalendarView calendarSample⟩

/-- C5. The groups produced by `CalendarView.SetDomains` are in strictly
ascending order of (year, month), whatever the order in which the `range` loop
visits the intermediate map, and inside each group the members are in
non-decreasing order of expiration instant. -/
theorem calendar_order (L : GoLib) (hL : L.Lawful) (v : CalendarView) (ds : List Domain) :
    (v.SetDomains L ds).groups.Pairwise
        (fun a b => a.Year < b.Year ∨ (a.Year = b.Year ∧ a.Month < b.Month))
      ∧ ∀ g ∈ (v.SetDomains L ds).groups,
          g.Domains.Pairwise (fun a b => a.ExpireDate.instant ≤ b.ExpireDate.instant) := by
  refine ⟨?_, ?_⟩
  · have h : ((v.SetDomains L ds).groups.map MonthGroup.ym).Pairwise ymLess := by
      show ((CalendarView.expandFirst (CalendarView.buildGroups L ds)).map _).Pairwise _
      rw [calendar_expandFirst_map_ym]
      exact List.pairwise_map.2 (calendar_buildGroups_sorted L hL ds)
    exact List.pairwise_map.1 h
  · intro g hg
    obtain ⟨g', hg', _, _, hd⟩ := calendar_expandFirst_mem _ g hg
    rw [hd]
    exact (calendar_buildGroups_mem L hL ds g' hg').2.2.2

/-- C5 at a concrete input: `calendarSample` gives January (two domains, the
15th before the 20th), March, June. -/
theorem calendar_order_witness :
    refLibRev.Lawful ∧
    (NewCalendarView.SetDomains refLibRev calendarSample).groups.map
        (fun g => (g.Year, g.Month, g.Domains.map (fun d => d.Name))) =
      [(2025, 1, ["jan1.com", "jan2.com"]), (2025, 3, ["mar1.com"]), (2025, 6, ["jun1.com"])] ∧
    (NewCalendarView.SetDomains refLibRev calendarSample).groups.Pairwise
        (fun a b => a.Year < b.Year ∨ (a.Year = b.Year ∧ a.Month < b.Month)) :=
  ⟨refLibRev_lawful, by decide,
    (calendar_order refLibRev refLibRev_lawful NewCalendarView calendarSample).1⟩

/-- C6. After `CalendarView.SetDomains` with a non-empty domain list there is
at least one group, the first group is expanded and every other group is
collapsed, and the cursor and the scroll offset are `0`, whatever the view
held before the call. -/
theorem calendar_expansion (L : GoLib) (hL : L.Lawful) (v : CalendarView) (ds : List Domain)
    (hne : ds ≠ []) :
    (v.SetDomains L ds).groups ≠ []
      ∧ (v.SetDomains L ds).groups.map (fun g => g.Expanded) =
          true :: List.replicate ((v.SetDomains L ds).groups.length - 1) false
      ∧ (v.SetDomains L ds).cursor = 0
      ∧ (v.SetDomains L ds).offset = 0 := by
  have hgs : (v.SetDomains L ds).groups =
      CalendarView.expandFirst (CalendarView.buildGroups L ds) := rfl
  have hall : ∀ g ∈ CalendarView.buildGroups L ds, g.Expanded = false :=
    fun g hg => (calendar_buildGroups_mem L hL ds g hg).1
  have hflat := calendar_buildGroups_flatMap L hL ds
  rw [hgs]
  cases hb : CalendarView.buildGroups L ds with
  | nil =>
    rw [hb] at hflat
    exact absurd hflat.symm.eq_nil hne
  | cons a as =>
    rw [hb] at hall
    refine ⟨by simp [CalendarView.expandFirst], ?_, rfl, rfl⟩
    simp only [CalendarView.expandFirst, List.map_cons, List.length_cons, Nat.add_sub_cancel,
      List.cons.injEq, true_and]
    rw [List.eq_replicate_iff]
    refine ⟨by simp, ?_⟩
    intro b hb'
    obtain ⟨g, hg, rfl⟩ := List.mem_map.1 hb'
    exact hall g (List.mem_cons_of_mem _ hg)

/-- C6 at a concrete input: `calendarSample` handed to a view that was scrolled
and had another group expanded. -/
theorem calendar_expansion_witness :
    refLib.Lawful ∧ calendarSample ≠ [] ∧
    (usedCalendar.SetDomains refLib calendarSample).groups ≠ []
      ∧ (usedCalendar.SetDomains refLib calendarSample).groups.map (fun g => g.Expanded) =
          true :: List.replicate
            ((usedCalendar.SetDomains refLib calendarSample).groups.length - 1) false
      ∧ (usedCalendar.SetDomains refLib calendarSample).cursor = 0
      ∧ (usedCalendar.SetDomains refLib calendarSample).offset = 0 :=
  ⟨refLib_lawful, by decide,
    calendar_expansion refLib refLib_lawful usedCalendar calendarSample (by decide)⟩

/-! ## Grouping by top-level domain -/

theorem tld_addDomain_of_none (m : GoMap (List Domain)) (d : Domain)
    (h : GoMap.get? m d.TLD = none) : TLDView.addDomain m d = m ++ [(d.TLD, [d])] := by
  simp only [TLDView.addDomain, h]
  exact GoMap.set_of_get?_none m _ _ h

theorem tldMapInv_addDomain (m : GoMap (List Domain)) (ds : List Domain) (d : Domain)
    (h : TLDMapInv m ds) : TLDMapInv (TLDView.addDomain m d) (ds ++ [d]) := by
  obtain ⟨hk, he, hc, hp⟩ := h
  cases hg : GoMap.get? m d.TLD with
  | none =>
    rw [tld_addDomain_of_none m d hg]
    have hnot : d.TLD ∉ m.map Prod.fst := (GoMap.get?_eq_none m _).1 hg
    refine ⟨?_, ?_, ?_, ?_⟩
    · rw [List.map_append, List.nodup_append]
      refine ⟨hk, by simp, ?_⟩
      intro a ha hb
      simp only [List.map_cons, List.map_nil, List.mem_singleton] at hb
      subst hb
      exact hnot ha
    · intro e hm
      rcases List.mem_append.1 hm with hm | hm
      · have hne : d.TLD ≠ e.1 := fun h' => hnot (h' ▸ List.mem_map_of_mem Prod.fst hm)
        refine ⟨?_, (he e hm).2⟩
        rw [List.filter_append, (he e hm).1.symm]
        simp [hne]
      · rw [List.mem_singleton] at hm
        subst hm
        refine ⟨?_, by simp⟩
        have h0 : ds.filter (fun d' => decide (d'.TLD = d.TLD)) = [] := by
          rw [List.filter_eq_nil_iff]
          intro d' hd' ht
          simp only [decide_eq_true_eq] at ht
          exact hnot (ht ▸ hc d' hd')
        rw [List.filter_append, h0]
        simp
    · intro d' hd'
      rw [List.map_append]
      rcases List.mem_append.1 hd' with hd' | hd'
      · exact List.mem_append_left _ (hc d' hd')
      · rw [List.mem_singleton] at hd'
        subst hd'
        exact List.mem_append_right _ (by simp)
    · rw [List.flatMap_append]
      simpa using List.Perm.append_right [d] hp
  | some l =>
    have hadd : TLDView.addDomain m d = GoMap.set m d.TLD (l ++ [d]) := by
      simp only [TLDView.addDomain, hg, Option.getD_some]
    rw [hadd]
    obtain ⟨l₁, l₂, e1, e2⟩ := GoMap.set_of_get?_some m _ (l ++ [d]) l hg
    rw [e2]
    subst e1
    have hmid := he (d.TLD, l) (by simp)
    simp only at hmid
    have hk' : d.TLD ∉ (l₁ ++ l₂).map Prod.fst := by
      have := List.nodup_middle.1 (by simpa using hk :
        (l₁.map Prod.fst ++ d.TLD :: l₂.map Prod.fst).Nodup)
      rw [List.map_append]
      exact (List.nodup_cons.1 this).1
    have hother : ∀ e ∈ l₁ ++ l₂, d.TLD ≠ e.1 :=
      fun e hm h' => hk' (h' ▸ List.mem_map_of_mem Prod.fst hm)
    refine ⟨?_, ?_, ?_, ?_⟩
    · simpa using hk
    · intro e hm
      rcases List.mem_append.1 hm with hm | hm
      · have hne := hother e (List.mem_append_left _ hm)
        have hold := he e (List.mem_append_left _ hm)
        refine ⟨?_, hold.2⟩
        rw [List.filter_append, hold.1.symm]
        simp [hne]
      · rcases List.mem_cons.1 hm with hm | hm
        · subst hm
          refine ⟨?_, by simp⟩
          rw [List.filter_append, ← hmid.1]
          simp
        · have hne := hother e (List.mem_append_right _ hm)
          have hold := he e (List.mem_append_right _ (List.mem_cons_of_mem _ hm))
          refine ⟨?_, hold.2⟩
          rw [List.filter_append, hold.1.symm]
          simp [hne]
    · intro d' hd'
      rcases List.mem_append.1 hd' with hd' | hd'
      · simpa using hc d' hd'
      · rw [List.mem_singleton] at hd'
        subst hd'
        simp
    · simp only [List.flatMap_append, List.flatMap_cons] at hp ⊢
      have h1 : (l₁.flatMap (fun e : String × List Domain => e.2) ++
            ((l ++ [d]) ++ l₂.flatMap (fun e => e.2))).Perm
          ((l₁.flatMap (fun e : String × List Domain => e.2) ++
            (l ++ l₂.flatMap (fun e => e.2))) ++ [d]) := by
        rw [List.append_assoc, List.append_assoc, List.append_assoc]
        refine List.Perm.append_left _ (List.Perm.append_left _ ?_)
        exact List.perm_append_comm
      exact h1.trans (List.Perm.append_right [d] hp)

theorem tldMapInv_foldl (ds : List Domain) : TLDMapInv (ds.foldl TLDView.addDomain []) ds := by
  induction ds using List.reverseRecOn with
  | nil =>
    exact ⟨List.nodup_nil, fun e he => by simp at he, fun d hd => by simp at hd,
      List.Perm.refl _⟩
  | append_singleton ds d ih =>
    rw [List.foldl_append]
    exact tldMapInv_addDomain _ ds d ih

theorem tld_buildGroups_perm (L : GoLib) (hL : L.Lawful) (ds : List Domain)
    (pricing : GoMap TLDPricing) :
    (TLDView.buildGroups L ds pricing).Perm (TLDView.unsortedGroups L ds pricing) :=
  sort_Slice_perm hL.pdqTLDGroups _ _

theorem tld_buildGroups_mem (L : GoLib) (hL : L.Lawful) (ds : List Domain)
    (pricing : GoMap TLDPricing) (g : TLDGroup) (hg : g ∈ TLDView.buildGroups L ds pricing) :
    ∃ e ∈ ds.foldl TLDView.addDomain [], g = TLDView.mkGroup L pricing e.1 e.2 := by
  have h := (tld_buildGroups_perm L hL ds pricing).mem_iff.1 hg
  unfold TLDView.unsortedGroups at h
  obtain ⟨e, he, rfl⟩ := List.mem_map.1 h
  exact ⟨e, (hL.rangeTLDs _).mem_iff.1 he, rfl⟩

theorem tld_buildGroups_labels (L : GoLib) (hL : L.Lawful) (ds : List Domain)
    (pricing : GoMap TLDPricing) :
    ((TLDView.buildGroups L ds pricing).map (fun g => g.TLD)).Perm
      ((ds.foldl TLDView.addDomain []).map Prod.fst) := by
  refine ((tld_buildGroups_perm L hL ds pricing).map _).trans ?_
  unfold TLDView.unsortedGroups
  rw [List.map_map]
  exact (hL.rangeTLDs _).map _

theorem tld_buildGroups_flatMap (L : GoLib) (hL : L.Lawful) (ds : List Domain)
    (pricing : GoMap TLDPricing) :
    ((TLDView.buildGroups L ds pricing).flatMap (fun g => g.Domains)).Perm ds := by
  refine (List.Perm.flatMap_right _ (tld_buildGroups_perm L hL ds pricing)).trans ?_
  unfold TLDView.unsortedGroups
  rw [List.flatMap_map]
  exact (List.Perm.flatMap_right _ (hL.rangeTLDs _)).trans (tldMapInv_foldl ds).2.2.2

/-- C7. The groups built by `TLDView.SetData` partition the input: the group
labels are pairwise distinct, there are as many groups as distinct labels in
the input, the members of a group are exactly the input domains carrying its
label (in input order), so every input domain is a member of the group with
its label and of no group with another label, and the members of all groups
together are a permutation of the input list. -/
theorem tld_partition (L : GoLib) (hL : L.Lawful) (v : TLDView) (ds : List Domain)
    (pricing : GoMap TLDPricing) :
    ((v.SetData L ds pricing).groups.map (fun g => g.TLD)).Nodup
      ∧ (v.SetData L ds pricing).groups.length = ((ds.map (fun d => d.TLD)).dedup).length
      ∧ (∀ g ∈ (v.SetData L ds pricing).groups,
          g.Domains = ds.filter (fun d => decide (d.TLD = g.TLD)))
      ∧ (∀ d ∈ ds, ∃ g ∈ (v.SetData L ds pricing).groups, g.TLD = d.TLD ∧ d ∈ g.Domains)
      ∧ (∀ g ∈ (v.SetData L ds pricing).groups, ∀ d ∈ g.Domains, d.TLD = g.TLD)
      ∧ ((v.SetData L ds pricing).groups.flatMap (fun g => g.Domains)).Perm ds := by
  obtain ⟨hk, he, hc, _⟩ := tldMapInv_foldl ds
  have hlab := tld_buildGroups_labels L hL ds pricing
  have hgrp : ∀ g ∈ TLDView.buildGroups L ds pricing,
      g.Domains = ds.filter (fun d => decide (d.TLD = g.TLD)) := by
    intro g hg
    obtain ⟨e, hm, rfl⟩ := tld_buildGroups_mem L hL ds pricing g hg
    exact (he e hm).1
  have hnd : ((TLDView.buildGroups L ds pricing).map (fun g => g.TLD)).Nodup :=
    (hlab.nodup_iff).2 hk
  refine ⟨hnd, ?_, hgrp, ?_, ?_, tld_buildGroups_flatMap L hL ds pricing⟩
  · show (TLDView.buildGroups L ds pricing).length = _
    rw [← List.length_map (TLDView.buildGroups L ds pricing) (fun g => g.TLD)]
    apply List.Perm.length_eq
    rw [List.perm_ext_iff_of_nodup hnd (List.nodup_dedup _)]
    intro k
    rw [hlab.mem_iff, List.mem_dedup]
    constructor
    · intro hkm
      obtain ⟨e, hm, rfl⟩ := List.mem_map.1 hkm
      obtain ⟨hf, hne⟩ := he e hm
      obtain ⟨d, hd⟩ := List.exists_mem_of_ne_nil _ hne
      rw [hf, List.mem_filter] at hd
      exact List.mem_map.2 ⟨d, hd.1, by simpa using hd.2⟩
    · intro hkm
      obtain ⟨d, hd, rfl⟩ := List.mem_map.1 hkm
      exact hc d hd
  · intro d hd
    have hmem : d.TLD ∈ (TLDView.buildGroups L ds pricing).map (fun g => g.TLD) :=
      hlab.mem_iff.2 (hc d hd)
    obtain ⟨g, hg, hgt⟩ := List.mem_map.1 hmem
    refine ⟨g, hg, hgt, ?_⟩
    rw [hgrp g hg, List.mem_filter]
    exact ⟨hd, by simp [hgt]⟩
  · intro g hg d hd
    rw [hgrp g hg, List.mem_filter] at hd
    simpa using hd.2

/-- C7 at a concrete input: `tldSample` gives the three groups `io`, `dev`,
`com`. -/
theorem tld_partition_witness :
    refLibRev.Lawful ∧
    (NewTLDView.SetData refLibRev tldSample tldSamplePricing).groups.map
        (fun g => (g.TLD, g.Domains.map (fun d => d.Name))) =
      [("io", ["b.io", "c.io"]), ("dev", ["d.dev"]), ("com", ["a.com"])] ∧
    ((NewTLDView.SetData refLibRev tldSample tldSamplePricing).groups.map
      (fun g => g.TLD)).Nodup :=
  ⟨refLibRev_lawful, by decide,
    (tld_partition refLibRev refLibRev_lawful NewTLDView tldSample tldSamplePricing).1⟩

/-! ## Costs of the groups -/

theorem insertionSort_func_singleton {α : Type} (less : α → α → Bool) (x : α) :
    insertionSort_func less [x] = [x] := rfl

theorem tld_buildGroups_threeCom (L : GoLib) (hL : L.Lawful) (pricing : GoMap TLDPricing) :
    TLDView.buildGroups L threeCom pricing = [TLDView.mkGroup L pricing "com" threeCom] := by
  have hm : threeCom.foldl TLDView.addDomain [] = [("com", threeCom)] := by decide
  unfold TLDView.buildGroups
  simp only [hm]
  rw [List.perm_singleton.1 (hL.rangeTLDs [("com", threeCom)])]
  simp [sort.Slice, maxInsertion, insertionSort_func_singleton]

/-- C8. In every group produced by `TLDView.SetData` the renewal price is the
value `strconv.ParseFloat` gives for the `Renewal` text of the pricing entry of
the group label, and `0` when the pricing map has no entry for the label (so
always `0` for a nil map), and the total cost is the float product of the
renewal price and the number of members. With `ParseFloat("10.00") = 10` and
`10 * 3 = 30` in float arithmetic, three `com` domains at renewal `10.00` give
the single group `com` with renewal price `10` and total cost `30`. -/
theorem tld_costs (L : GoLib) (hL : L.Lawful) (v : TLDView) (ds : List Domain)
    (pricing : GoMap TLDPricing) :
    (∀ g ∈ (v.SetData L ds pricing).groups,
        g.RenewalPrice =
            (match pricing.get? g.TLD with
              | some p => L.parseFloat p.Renewal
              | none => F64.zero)
          ∧ g.TotalCost = L.fmul g.RenewalPrice (F64.ofLen g.Domains.length))
      ∧ (∀ g ∈ (v.SetData L ds []).groups, g.RenewalPrice = F64.zero)
      ∧ (L.parseFloat "10.00" = .fin 10 → L.fmul (.fin 10) (.fin 3) = .fin 30 →
          (v.SetData L threeCom [("com", ⟨"com", "", "10.00", ""⟩)]).groups.map
              (fun g => (g.TLD, g.Domains.length, g.RenewalPrice, g.TotalCost)) =
            [("com", 3, .fin 10, .fin 30)]) := by
  refine ⟨?_, ?_, ?_⟩
  · intro g hg
    obtain ⟨e, _, rfl⟩ := tld_buildGroups_mem L hL ds pricing g hg
    exact ⟨rfl, rfl⟩
  · intro g hg
    obtain ⟨e, _, rfl⟩ := tld_buildGroups_mem L hL ds [] g hg
    rfl
  · intro hparse hmul
    show (TLDView.buildGroups L threeCom _).map _ = _
    rw [tld_buildGroups_threeCom L hL]
    have h3 : F64.ofLen threeCom.length = .fin 3 := by
      simp [F64.ofLen, threeCom]
    simp only [List.map_cons, List.map_nil, TLDView.mkGroup, GoMap.get?, if_true, hparse, h3,
      hmul]
    rfl

/-- C8 at a concrete input: the reference runtime, whose `parseFloat` and
`fmul` give `10` for `"10.00"` and `30` for `10 * 3`. -/
theorem tld_costs_witness :
    refLib.Lawful ∧ refLib.parseFloat "10.00" = .fin 10 ∧
    refLib.fmul (.fin 10) (.fin 3) = .fin 30 ∧
    (NewTLDView.SetData refLib threeCom [("com", ⟨"com", "", "10.00", ""⟩)]).groups.map
        (fun g => (g.TLD, g.Domains.length, g.RenewalPrice, g.TotalCost)) =
      [("com", 3, .fin 10, .fin 30)] :=
  ⟨refLib_lawful, by decide, by decide,
    (tld_costs refLib refLib_lawful NewTLDView [] []).2.2 (by decide) (by decide)⟩

/-! ## Order of the groups by total cost -/

theorem F64.gt_trans {a b c : F64} (ha : a ≠ .nan) (hb : b ≠ .nan) (hc : c ≠ .nan)
    (h1 : F64.gt a b = true) (h2 : F64.gt b c = true) : F64.gt a c = true := by
  cases a <;> cases b <;> cases c <;> simp_all [F64.gt]
  exact lt_trans h2 h1

theorem F64.gt_negtrans {a b c : F64} (ha : a ≠ .nan) (hb : b ≠ .nan) (hc : c ≠ .nan)
    (h1 : F64.gt a b = false) (h2 : F64.gt b c = false) : F64.gt a c = false := by
  cases a <;> cases b <;> cases c <;> simp_all [F64.gt]
  exact le_trans h1 h2

theorem F64.ge_of_not_gt {a b : F64} (ha : a ≠ .nan) (hb : b ≠ .nan)
    (h : F64.gt a b = true ∨ F64.gt b a = false) : F64.ge a b = true := by
  cases a <;> cases b <;> simp_all [F64.gt, F64.ge]
  rcases h with h | h
  · exact le_of_lt h
  · exact h

theorem F64.ge_trans {a b c : F64} (ha : a ≠ .nan) (hb : b ≠ .nan) (hc : c ≠ .nan)
    (h1 : F64.ge a b = true) (h2 : F64.ge b c = true) : F64.ge a c = true := by
  cases a <;> cases b <;> cases c <;> simp_all [F64.ge]
  exact le_trans h2 h1

/-- Neighbours related by `R` are pairwise related by `T` when, on the members
of the list, `R` implies `T` and `T` is transitive. -/
theorem pairwise_of_chain_on {α : Type} (R T : α → α → Prop) :
    ∀ l : List α, (∀ a ∈ l, ∀ b ∈ l, R a b → T a b) →
      (∀ a ∈ l, ∀ b ∈ l, ∀ c ∈ l, T a b → T b c → T a c) →
      List.Chain' R l → l.Pairwise T := by
  intro l
  induction l with
  | nil => intro _ _ _; exact List.Pairwise.nil
  | cons a l ih =>
    intro himp htr hch
    rw [List.chain'_cons'] at hch
    have hl : l.Pairwise T :=
      ih (fun x hx y hy => himp x (List.mem_cons_of_mem _ hx) y (List.mem_cons_of_mem _ hy))
        (fun x hx y hy z hz => htr x (List.mem_cons_of_mem _ hx) y (List.mem_cons_of_mem _ hy)
          z (List.mem_cons_of_mem _ hz)) hch.2
    refine List.pairwise_cons.2 ⟨?_, hl⟩
    cases l with
    | nil => intro b hb; simp at hb
    | cons b0 l' =>
      have h0 : T a b0 :=
        himp a (List.mem_cons_self _ _) b0 (List.mem_cons_of_mem _ (List.mem_cons_self _ _))
          (hch.1 b0 (by simp))
      intro b hb
      rcases List.mem_cons.1 hb with rfl | hb'
      · exact h0
      · exact htr a (List.mem_cons_self _ _) b0 (List.mem_cons_of_mem _ (List.mem_cons_self _ _))
          b (List.mem_cons_of_mem _ hb) h0 ((List.pairwise_cons.1 hl).1 b hb')

/-- C9, as stated, fails: with the renewal text `NaN` for `com` and `1` for
`net`, the group `com` has total cost NaN and the group `net` total cost `1`;
no comparison with NaN holds, so `sort.Slice` keeps the two groups in the order
of the `range` loop, and whichever comes first, `groups[0].TotalCost >=
groups[1].TotalCost` is false. -/
theorem tld_order_fails_on_nan :
    (NewTLDView.SetData refLib twoLabels nanPricing).groups.map
        (fun g => (g.TLD, g.TotalCost)) = [("com", .nan), ("net", .fin 1)]
      ∧ ¬ (NewTLDView.SetData refLib twoLabels nanPricing).groups.Pairwise
          (fun a b => F64.ge a.TotalCost b.TotalCost = true)
      ∧ (NewTLDView.SetData refLibRev twoLabels nanPricing).groups.map
        (fun g => (g.TLD, g.TotalCost)) = [("net", .fin 1), ("com", .nan)]
      ∧ ¬ (NewTLDView.SetData refLibRev twoLabels nanPricing).groups.Pairwise
          (fun a b => F64.ge a.TotalCost b.TotalCost = true) := by
  decide

/-- C9, amended. When no group's total cost is NaN, the groups produced by
`TLDView.SetData` are in non-increasing order of total cost: for every two
positions `i < j`, `groups[i].TotalCost >= groups[j].TotalCost`. -/
theorem tld_order (L : GoLib) (hL : L.Lawful) (v : TLDView) (ds : List Domain)
    (pricing : GoMap TLDPricing)
    (hnan : ∀ g ∈ (v.SetData L ds pricing).groups, g.TotalCost ≠ .nan) :
    (v.SetData L ds pricing).groups.Pairwise
      (fun a b => F64.ge a.TotalCost b.TotalCost = true) := by
  have hnan' : ∀ g ∈ TLDView.buildGroups L ds pricing, g.TotalCost ≠ .nan := hnan
  have hun : ∀ g ∈ TLDView.unsortedGroups L ds pricing, g.TotalCost ≠ .nan :=
    fun g hg => hnan' g ((tld_buildGroups_perm L hL ds pricing).mem_iff.2 hg)
  have hord : Ordered TLDView.groupLess (TLDView.buildGroups L ds pricing) :=
    sort_Slice_ordered hL.pdqTLDGroups TLDView.groupLess _
      (fun a ha b hb c hc => F64.gt_trans (hun a ha) (hun b hb) (hun c hc))
      (fun a ha b hb c hc => F64.gt_negtrans (hun a ha) (hun b hb) (hun c hc))
  show (TLDView.buildGroups L ds pricing).Pairwise _
  exact pairwise_of_chain_on _ _ _
    (fun a ha b hb h => F64.ge_of_not_gt (hnan' a ha) (hnan' b hb) h)
    (fun a ha b hb c hc => F64.ge_trans (hnan' a ha) (hnan' b hb) (hnan' c hc)) hord

/-- C9, amended, at a concrete input: `tldSample` gives `io` (60), `dev` (15),
`com` (10). -/
theorem tld_order_witness :
    refLibRev.Lawful ∧
    (∀ g ∈ (NewTLDView.SetData refLibRev tldSample tldSamplePricing).groups,
      g.TotalCost ≠ .nan) ∧
    (NewTLDView.SetData refLibRev tldSample tldSamplePricing).groups.map
        (fun g => (g.TLD, g.TotalCost)) = [("io", .fin 60), ("dev", .fin 15), ("com", .fin 10)] ∧
    (NewTLDView.SetData refLibRev tldSample tldSamplePricing).groups.Pairwise
      (fun a b => F64.ge a.TotalCost b.TotalCost = true) :=
  ⟨refLibRev_lawful, by decide, by decide,
    tld_order refLibRev refLibRev_lawful NewTLDView tldSample tldSamplePricing (by decide)⟩

/-! ## Expansion flags of the cost breakdown -/

/-- C10, as stated, fails: `SetData` does not touch the map `expanded`, so a
group the user had expanded is still expanded after the groups are rebuilt. -/
theorem tld_setData_keeps_expanded :
    (expandedCom.SetData refLib twoLabels []).groups.map
        (fun g => (g.TLD, (expandedCom.SetData refLib twoLabels []).isExpanded g.TLD)) =
      [("com", true), ("net", false)] := by
  decide

/-- C10, amended. `TLDView.SetData` leaves the map `expanded` as it was, so a
label is expanded after the call exactly when it was before; after `SetData`
on a freshly constructed view every label, and so every group, is
collapsed. -/
theorem tld_setData_expanded (L : GoLib) (v : TLDView) (ds : List Domain)
    (pricing : GoMap TLDPricing) :
    (v.SetData L ds pricing).expanded = v.expanded
      ∧ (∀ tld, (v.SetData L ds pricing).isExpanded tld = v.isExpanded tld)
      ∧ (∀ g ∈ (NewTLDView.SetData L ds pricing).groups,
          (NewTLDView.SetData L ds pricing).isExpanded g.TLD = false) :=
  ⟨rfl, fun _ => rfl, fun _ _ => rfl⟩

/-! ## Lines of the grouped viewport -/

theorem monthGroup_lines_pos (g : MonthGroup) : 1 ≤ g.lines := by
  unfold MonthGroup.lines
  split <;> omega

theorem tld_linesOf_pos (v : TLDView) (g : TLDGroup) : 1 ≤ v.linesOf g := by
  unfold TLDView.linesOf
  split <;> omega

theorem calendar_lineLoop_eq (cursor : Int) :
    ∀ (rest : List MonthGroup) (i : Nat) (line : Int),
      CalendarView.lineLoop cursor rest i line =
        line + ((rest.take (cursor.toNat - i)).map MonthGroup.lines).sum := by
  intro rest
  induction rest with
  | nil => intro i line; simp [CalendarView.lineLoop]
  | cons g rest ih =>
    intro i line
    unfold CalendarView.lineLoop
    by_cases h : (i : Int) < cursor
    · rw [if_pos h, ih]
      have hk : cursor.toNat - i = (cursor.toNat - (i + 1)) + 1 := by omega
      rw [hk, List.take_succ_cons, List.map_cons, List.sum_cons]
      unfold MonthGroup.lines
      split <;> omega
    · rw [if_neg h]
      have hk : cursor.toNat - i = 0 := by omega
      rw [hk]
      simp

theorem calendar_getLineForCursor_eq (v : CalendarView) :
    v.getLineForCursor = ((v.groups.take v.cursor.toNat).map MonthGroup.lines).sum := by
  unfold CalendarView.getLineForCursor
  rw [calendar_lineLoop_eq]
  simp

theorem tld_lineLoop_eq (v : TLDView) :
    ∀ (rest : List TLDGroup) (i : Nat) (line : Int),
      TLDView.lineLoop v rest i line =
        line + ((rest.take (v.cursor.toNat - i)).map v.linesOf).sum := by
  intro rest
  induction rest with
  | nil => intro i line; simp [TLDView.lineLoop]
  | cons g rest ih =>
    intro i line
    unfold TLDView.lineLoop
    by_cases h : (i : Int) < v.cursor
    · rw [if_pos h, ih]
      have hk : v.cursor.toNat - i = (v.cursor.toNat - (i + 1)) + 1 := by omega
      rw [hk, List.take_succ_cons, List.map_cons, List.sum_cons]
      unfold TLDView.linesOf
      split <;> omega
    · rw [if_neg h]
      have hk : v.cursor.toNat - i = 0 := by omega
      rw [hk]
      simp

theorem tld_getLineForCursor_eq (v : TLDView) :
    v.getLineForCursor = ((v.groups.take v.cursor.toNat).map v.linesOf).sum := by
  unfold TLDView.getLineForCursor
  rw [tld_lineLoop_eq]
  simp

/-- C11. In both views `getLineForCursor` with the cursor at `k` is the sum,
over the groups before position `k`, of one line for the header plus the
number of members when the group is expanded. It is `0` at `k = 0`, and `3` at
`k = 1` when group 0 is expanded and holds two members. -/
theorem getLineForCursor_spec (cv : CalendarView) (tv : TLDView) (k : Nat) :
    ({ cv with cursor := (k : Int) } : CalendarView).getLineForCursor =
        ((cv.groups.take k).map MonthGroup.lines).sum
      ∧ ({ tv with cursor := (k : Int) } : TLDView).getLineForCursor =
        ((tv.groups.take k).map tv.linesOf).sum
      ∧ ({ cv with cursor := 0 } : CalendarView).getLineForCursor = 0
      ∧ ({ tv with cursor := 0 } : TLDView).getLineForCursor = 0
      ∧ (∀ (y : Int) (m : Nat) (d₁ d₂ : Domain) (rest : List MonthGroup),
          ({ cv with groups := ⟨y, m, [d₁, d₂], true⟩ :: rest, cursor := 1 } :
            CalendarView).getLineForCursor = 3)
      ∧ (∀ (tld : String) (d₁ d₂ : Domain) (p c : F64) (rest : List TLDGroup)
          (e : GoMap Bool),
          ({ tv with groups := ⟨tld, [d₁, d₂], p, c⟩ :: rest, cursor := 1,
                     expanded := (tld, true) :: e } : TLDView).getLineForCursor = 3) := by
  refine ⟨?_, ?_, ?_, ?_, ?_, ?_⟩
  · rw [calendar_getLineForCursor_eq]
    simp
  · rw [tld_getLineForCursor_eq]
    simp only [Int.toNat_ofNat]
    rfl
  · rw [calendar_getLineForCursor_eq]
    simp
  · rw [tld_getLineForCursor_eq]
    simp
  · intro y m d₁ d₂ rest
    rw [calendar_getLineForCursor_eq]
    simp [MonthGroup.lines]
  · intro tld d₁ d₂ p c rest e
    rw [tld_getLineForCursor_eq]
    simp [TLDView.linesOf, TLDView.isExpanded, GoMap.get?]

theorem calendar_totalLoop_eq (l : List MonthGroup) (acc : Int) :
    l.foldl
      (fun lines g => if g.Expanded then lines + 1 + (g.Domains.length : Int) else lines + 1)
      acc = acc + (l.map MonthGroup.lines).sum := by
  induction l generalizing acc with
  | nil => simp
  | cons g l ih =>
    simp only [List.foldl_cons, List.map_cons, List.sum_cons, MonthGroup.lines]
    rw [ih]
    cases g.Expanded <;> simp <;> ring

theorem calendar_getTotalLines_eq (v : CalendarView) :
    v.getTotalLines = (v.groups.map MonthGroup.lines).sum := by
  unfold CalendarView.getTotalLines
  rw [calendar_totalLoop_eq]
  simp

theorem tld_totalLoop_eq (v : TLDView) (l : List TLDGroup) (acc : Int) :
    l.foldl
      (fun lines g =>
        if v.isExpanded g.TLD then lines + 1 + (g.Domains.length : Int) else lines + 1)
      acc = acc + (l.map v.linesOf).sum := by
  induction l generalizing acc with
  | nil => simp
  | cons g l ih =>
    simp only [List.foldl_cons, List.map_cons, List.sum_cons, TLDView.linesOf]
    rw [ih]
    cases v.isExpanded g.TLD <;> simp <;> ring

theorem tld_getTotalLines_eq (v : TLDView) :
    v.getTotalLines = (v.groups.map v.linesOf).sum := by
  unfold TLDView.getTotalLines
  rw [tld_totalLoop_eq]
  simp

/-- A sum of line counts, each at least one, over a non-empty list is at least
one. -/
theorem sum_pos_of_ne_nil {α : Type} (f : α → Int) (hf : ∀ a, 1 ≤ f a) :
    ∀ l : List α, l ≠ [] → 1 ≤ (l.map f).sum := by
  intro l
  induction l with
  | nil => intro h; exact absurd rfl h
  | cons a l ih =>
    intro _
    rw [List.map_cons, List.sum_cons]
    cases l with
    | nil => simpa using hf a
    | cons b l' =>
      have := ih (by simp)
      have := hf a
      omega

theorem sum_take_lt {α : Type} (f : α → Int) (hf : ∀ a, 1 ≤ f a) (l : List α) (k : Nat)
    (hk : k < l.length) : ((l.take k).map f).sum < (l.map f).sum := by
  have h := List.sum_take_add_sum_drop (l.map f) k
  rw [← List.map_take, ← List.map_drop] at h
  have hd : l.drop k ≠ [] := by
    intro h0
    have := congrArg List.length h0
    simp at this
    omega
  have := sum_pos_of_ne_nil f hf (l.drop k) hd
  omega

theorem sum_nonneg_of_pos {α : Type} (f : α → Int) (hf : ∀ a, 1 ≤ f a) (l : List α) :
    0 ≤ (l.map f).sum := by
  induction l with
  | nil => simp
  | cons a l ih =>
    rw [List.map_cons, List.sum_cons]
    have := hf a
    omega

/-- In the calendar the header line of a valid cursor is below the total. -/
theorem calendar_line_lt_total (v : CalendarView) (h0 : 0 ≤ v.cursor)
    (h1 : v.cursor < (v.groups.length : Int)) : v.getLineForCursor < v.getTotalLines := by
  rw [calendar_getTotalLines_eq, calendar_getLineForCursor_eq]
  exact sum_take_lt _ monthGroup_lines_pos _ _ (by omega)

/-- In the cost breakdown the header line of a valid cursor is below the
total. -/
theorem tld_line_lt_total (v : TLDView) (h0 : 0 ≤ v.cursor)
    (h1 : v.cursor < (v.groups.length : Int)) : v.getLineForCursor < v.getTotalLines := by
  rw [tld_getTotalLines_eq, tld_getLineForCursor_eq]
  exact sum_take_lt _ (tld_linesOf_pos v) _ _ (by omega)

/-- C12. In both views `getTotalLines` is the sum over all groups of one line
for the header plus the number of members when the group is expanded; it is
the value of `getLineForCursor` with the cursor put at the number of groups;
and with the cursor at a valid group index `k`, `getLineForCursor` is below
`getTotalLines`. -/
theorem getTotalLines_spec (cv : CalendarView) (tv : TLDView) :
    cv.getTotalLines = (cv.groups.map MonthGroup.lines).sum
      ∧ tv.getTotalLines = (tv.groups.map tv.linesOf).sum
      ∧ cv.getTotalLines =
          ({ cv with cursor := (cv.groups.length : Int) } : CalendarView).getLineForCursor
      ∧ tv.getTotalLines =
          ({ tv with cursor := (tv.groups.length : Int) } : TLDView).getLineForCursor
      ∧ (0 ≤ cv.cursor → cv.cursor < (cv.groups.length : Int) →
          cv.getLineForCursor < cv.getTotalLines)
      ∧ (0 ≤ tv.cursor → tv.cursor < (tv.groups.length : Int) →
          tv.getLineForCursor < tv.getTotalLines) := by
  refine ⟨calendar_getTotalLines_eq cv, tld_getTotalLines_eq tv, ?_, ?_, ?_, ?_⟩
  · rw [calendar_getTotalLines_eq, calendar_getLineForCursor_eq]
    simp
  · rw [tld_getTotalLines_eq, tld_getLineForCursor_eq]
    simp only [Int.toNat_ofNat, List.take_length]
    rfl
  · intro h0 h1
    rw [calendar_getTotalLines_eq, calendar_getLineForCursor_eq]
    exact sum_take_lt _ monthGroup_lines_pos _ _ (by omega)
  · intro h0 h1
    rw [tld_getTotalLines_eq, tld_getLineForCursor_eq]
    exact sum_take_lt _ (tld_linesOf_pos tv) _ _ (by omega)

/-- C12 at a concrete input: the calendar of `calendarSample` with the cursor
on its second group and the cost breakdown of `tldSample` with the cursor on
its third group. -/
theorem getTotalLines_spec_witness :
    (0 : Int) ≤ 1 ∧ (0 : Int) ≤ 2 ∧
    ({ NewCalendarView.SetDomains refLib calendarSample with cursor := 1 } :
        CalendarView).getLineForCursor = 3 ∧
    ({ NewCalendarView.SetDomains refLib calendarSample with cursor := 1 } :
        CalendarView).getTotalLines = 5 ∧
    ({ NewCalendarView.SetDomains refLib calendarSample with cursor := 1 } :
        CalendarView).getLineForCursor <
      ({ NewCalendarView.SetDomains refLib calendarSample with cursor := 1 } :
        CalendarView).getTotalLines ∧
    ({ NewTLDView.SetData refLib tldSample tldSamplePricing with cursor := 2 } :
        TLDView).getLineForCursor <
      ({ NewTLDView.SetData refLib tldSample tldSamplePricing with cursor := 2 } :
        TLDView).getTotalLines :=
  ⟨by decide, by decide, by decide, by decide,
    (getTotalLines_spec
      ({ NewCalendarView.SetDomains refLib calendarSample with cursor := 1 } : CalendarView)
      ({ NewTLDView.SetData refLib tldSample tldSamplePricing with cursor := 2 } :
        TLDView)).2.2.2.2.1 (by decide) (by decide),
    (getTotalLines_spec
      ({ NewCalendarView.SetDomains refLib calendarSample with cursor := 1 } : CalendarView)
      ({ NewTLDView.SetData refLib tldSample tldSamplePricing with cursor := 2 } :
        TLDView)).2.2.2.2.2 (by decide) (by decide)⟩

/-! ## Scroll offset of the grouped viewport -/

theorem calendar_adjustOffset_offset (v : CalendarView) :
    v.adjustOffset.offset =
      (if (if v.getLineForCursor ≥ (if v.getLineForCursor < v.offset then v.getLineForCursor
              else v.offset) + v.height
            then v.getLineForCursor - v.height + 1
            else (if v.getLineForCursor < v.offset then v.getLineForCursor else v.offset))
          > v.getTotalLines - v.height
        then max 0 (v.getTotalLines - v.height)
        else (if v.getLineForCursor ≥ (if v.getLineForCursor < v.offset then v.getLineForCursor
              else v.offset) + v.height
            then v.getLineForCursor - v.height + 1
            else (if v.getLineForCursor < v.offset then v.getLineForCursor else v.offset))) := by
  unfold CalendarView.adjustOffset
  simp only
  split_ifs <;> first | rfl | (exfalso; simp_all [CalendarView.getTotalLines]; done) |
    (exfalso; simp_all [CalendarView.getTotalLines]; omega)

theorem tld_adjustOffset_offset (v : TLDView) :
    v.adjustOffset.offset =
      (if (if v.getLineForCursor ≥ (if v.getLineForCursor < v.offset then v.getLineForCursor
              else v.offset) + v.height
            then v.getLineForCursor - v.height + 1
            else (if v.getLineForCursor < v.offset then v.getLineForCursor else v.offset))
          > v.getTotalLines - v.height
        then max 0 (v.getTotalLines - v.height)
        else (if v.getLineForCursor ≥ (if v.getLineForCursor < v.offset then v.getLineForCursor
              else v.offset) + v.height
            then v.getLineForCursor - v.height + 1
            else (if v.getLineForCursor < v.offset then v.getLineForCursor else v.offset))) := by
  unfold TLDView.adjustOffset
  simp only
  split_ifs <;> first | rfl | (exfalso; simp_all [TLDView.getTotalLines, TLDView.isExpanded]; done) |
    (exfalso; simp_all [TLDView.getTotalLines, TLDView.isExpanded]; omega)

theorem calendar_getLineForCursor_nonneg (v : CalendarView) : 0 ≤ v.getLineForCursor := by
  rw [calendar_getLineForCursor_eq]
  exact sum_nonneg_of_pos _ monthGroup_lines_pos _

theorem tld_getLineForCursor_nonneg (v : TLDView) : 0 ≤ v.getLineForCursor := by
  rw [tld_getLineForCursor_eq]
  exact sum_nonneg_of_pos _ (tld_linesOf_pos v) _

/-- C13, as stated, fails: the header line is above the old offset, and yet the
new offset is not the header line. The view `staleCalendar` has five lines, a
viewport of five lines and the offset 4 left from the smaller window; when the
cursor moves up to the second group, whose header is line 3, `adjustOffset`
first takes the offset to 3 and then its last step cuts it to
`max(0, 5 - 5) = 0`. -/
theorem adjustOffset_clamps_header_line :
    staleCalendar.cursor = 2 ∧ staleCalendar.offset = 4 ∧ staleCalendar.height = 5
      ∧ staleCalendar.getTotalLines = 5
      ∧ ({ staleCalendar with cursor := 1 } : CalendarView).getLineForCursor = 3
      ∧ ({ staleCalendar with cursor := 1 } : CalendarView).adjustOffset.offset = 0
      ∧ (staleCalendar.Update (.KeyMsg ⟨"up"⟩)).offset = 0 := by
  decide

/-- C13, amended. In both views, for every state with `offset >= 0` and
`height >= 1`, `adjustOffset` leaves the offset within
`[0, max(0, totalLines - height)]`. When the header line of the cursor was above
the old offset, the new offset is the smaller of the header line and
`max(0, totalLines - height)`; it is the header line whenever the old offset was
itself at most `max(0, totalLines - height)`. When the header line was at or
beyond old offset + height, the new offset is the smaller of
`headerLine - height + 1` and `max(0, totalLines - height)`; it is
`headerLine - height + 1` whenever the cursor is a valid group index. -/
theorem adjustOffset_spec (cv : CalendarView) (tv : TLDView)
    (hco : 0 ≤ cv.offset) (hch : 1 ≤ cv.height) (hto : 0 ≤ tv.offset) (hth : 1 ≤ tv.height) :
    (0 ≤ cv.adjustOffset.offset
        ∧ cv.adjustOffset.offset ≤ max 0 (cv.getTotalLines - cv.height))
      ∧ (cv.getLineForCursor < cv.offset →
          cv.adjustOffset.offset = min cv.getLineForCursor (max 0 (cv.getTotalLines - cv.height))
          ∧ (cv.offset ≤ max 0 (cv.getTotalLines - cv.height) →
              cv.adjustOffset.offset = cv.getLineForCursor))
      ∧ (cv.getLineForCursor ≥ cv.offset + cv.height →
          cv.adjustOffset.offset =
            min (cv.getLineForCursor - cv.height + 1) (max 0 (cv.getTotalLines - cv.height))
          ∧ (0 ≤ cv.cursor → cv.cursor < (cv.groups.length : Int) →
              cv.adjustOffset.offset = cv.getLineForCursor - cv.height + 1))
      ∧ (0 ≤ tv.adjustOffset.offset
        ∧ tv.adjustOffset.offset ≤ max 0 (tv.getTotalLines - tv.height))
      ∧ (tv.getLineForCursor < tv.offset →
          tv.adjustOffset.offset = min tv.getLineForCursor (max 0 (tv.getTotalLines - tv.height))
          ∧ (tv.offset ≤ max 0 (tv.getTotalLines - tv.height) →
              tv.adjustOffset.offset = tv.getLineForCursor))
      ∧ (tv.getLineForCursor ≥ tv.offset + tv.height →
          tv.adjustOffset.offset =
            min (tv.getLineForCursor - tv.height + 1) (max 0 (tv.getTotalLines - tv.height))
          ∧ (0 ≤ tv.cursor → tv.cursor < (tv.groups.length : Int) →
              tv.adjustOffset.offset = tv.getLineForCursor - tv.height + 1)) := by
  have hc0 := calendar_getLineForCursor_nonneg cv
  have ht0 := tld_getLineForCursor_nonneg tv
  have hcv := calendar_line_lt_total cv
  have htv := tld_line_lt_total tv
  rw [calendar_adjustOffset_offset, tld_adjustOffset_offset]
  refine ⟨?_, ?_, ?_, ?_, ?_, ?_⟩
  · constructor <;> (split_ifs <;> omega)
  · intro h
    constructor
    · split_ifs <;> omega
    · intro hb
      split_ifs <;> omega
  · intro h
    constructor
    · split_ifs <;> omega
    · intro h0 h1
      have := hcv h0 h1
      split_ifs <;> omega
  · constructor <;> (split_ifs <;> omega)
  · intro h
    constructor
    · split_ifs <;> omega
    · intro hb
      split_ifs <;> omega
  · intro h
    constructor
    · split_ifs <;> omega
    · intro h0 h1
      have := htv h0 h1
      split_ifs <;> omega

/-- C13, amended, at a concrete input: in `movedUpCalendar` the header line 3
is above the offset 4 and the new offset is `min 3 (max 0 (5 - 5))`; in
`movedDownTLD` the header line 2 is beyond the one-line viewport at offset 0
and the new offset is `2 - 1 + 1`. -/
theorem adjustOffset_spec_witness :
    0 ≤ movedUpCalendar.offset ∧ 1 ≤ movedUpCalendar.height
      ∧ 0 ≤ movedDownTLD.offset ∧ 1 ≤ movedDownTLD.height
      ∧ movedUpCalendar.getLineForCursor < movedUpCalendar.offset
      ∧ movedUpCalendar.adjustOffset.offset =
          min movedUpCalendar.getLineForCursor
            (max 0 (movedUpCalendar.getTotalLines - movedUpCalendar.height))
      ∧ movedDownTLD.getLineForCursor ≥ movedDownTLD.offset + movedDownTLD.height
      ∧ movedDownTLD.adjustOffset.offset =
          movedDownTLD.getLineForCursor - movedDownTLD.height + 1 :=
  ⟨by decide, by decide, by decide, by decide, by decide,
    ((adjustOffset_spec movedUpCalendar movedDownTLD (by decide) (by decide) (by decide)
      (by decide)).2.1 (by decide)).1,
    by decide,
    ((adjustOffset_spec movedUpCalendar movedDownTLD (by decide) (by decide) (by decide)
      (by decide)).2.2.2.2.2 (by decide)).2 (by decide) (by decide)⟩

/-! ## Cursor and offset of the domain list -/

theorem sortDomains_length (L : GoLib) (hL : L.Lawful) (v : DomainsView) :
    (v.sortDomains L).filtered.length = v.filtered.length :=
  (sort_Slice_perm hL.pdqDomains _ _).length_eq

theorem sortDomains_domains_length (L : GoLib) (hL : L.Lawful) (v : DomainsView)
    (h : v.filtered.length ≤ v.domains.length) :
    (v.sortDomains L).filtered.length ≤ (v.sortDomains L).domains.length := by
  have hlen := sortDomains_length L hL v
  unfold DomainsView.sortDomains at hlen ⊢
  simp only at hlen ⊢
  split
  · exact le_refl _
  · rw [hlen]; exact h

theorem applyFilter_length_le (L : GoLib) (v : DomainsView) :
    (v.applyFilter L).filtered.length ≤ (v.applyFilter L).domains.length := by
  have hd : (v.applyFilter L).domains = v.domains := by
    unfold DomainsView.applyFilter
    simp only
    split <;> rfl
  rw [hd, applyFilter_filtered_eq]
  exact List.length_filter_le _ _

theorem applyFilter_offset (L : GoLib) (v : DomainsView) :
    (v.applyFilter L).offset = v.offset ∧ (v.applyFilter L).height = v.height := by
  unfold DomainsView.applyFilter
  simp only
  split <;> exact ⟨rfl, rfl⟩

theorem applyFilter_cursor_nonneg (L : GoLib) (v : DomainsView) (h : 0 ≤ v.cursor) :
    0 ≤ (v.applyFilter L).cursor := by
  unfold DomainsView.applyFilter
  simp only
  split
  · exact h
  · simp only
    split
    · exact le_max_left _ _
    · exact h

theorem applyFilter_cursor_of_empty (L : GoLib) (v : DomainsView)
    (h : strings.ToLower L v.searchInput.value = "") : (v.applyFilter L).cursor = v.cursor := by
  unfold DomainsView.applyFilter
  simp only [h, if_true]

theorem applyFilter_cursor_of_nonempty (L : GoLib) (v : DomainsView)
    (h : strings.ToLower L v.searchInput.value ≠ "") :
    (v.applyFilter L).cursor =
      if v.cursor ≥ ((v.applyFilter L).filtered.length : Int) then
        max 0 (((v.applyFilter L).filtered.length : Int) - 1)
      else v.cursor := by
  unfold DomainsView.applyFilter
  simp only [h, if_false]

theorem applyFilter_sort_inv (L : GoLib) (hL : L.Lawful) (v : DomainsView)
    (h0 : 0 ≤ v.offset) (h1 : 0 ≤ v.cursor) : ((v.applyFilter L).sortDomains L).Inv :=
  ⟨by
    show (v.applyFilter L).offset ≥ 0
    rw [(applyFilter_offset L v).1]; exact h0,
   applyFilter_cursor_nonneg L v h1,
   sortDomains_domains_length L hL _ (applyFilter_length_le L v)⟩

theorem cursorUp_inv (v : DomainsView) (h : v.Inv) : v.cursorUp.Inv := by
  obtain ⟨h0, h1, h2⟩ := h
  unfold DomainsView.cursorUp
  split_ifs
  · exact ⟨by show 0 ≤ v.cursor - 1; omega, by show 0 ≤ v.cursor - 1; omega, h2⟩
  · exact ⟨h0, by show 0 ≤ v.cursor - 1; omega, h2⟩
  · exact ⟨h0, h1, h2⟩

theorem cursorDown_inv (v : DomainsView) (h : v.Inv) : v.cursorDown.Inv := by
  obtain ⟨h0, h1, h2⟩ := h
  unfold DomainsView.cursorDown
  split_ifs
  · exact ⟨by show 0 ≤ v.cursor + 1 - v.height + 1; omega, by show 0 ≤ v.cursor + 1; omega, h2⟩
  · exact ⟨h0, by show 0 ≤ v.cursor + 1; omega, h2⟩
  · exact ⟨h0, h1, h2⟩

theorem pressSort_inv (L : GoLib) (hL : L.Lawful) (v : DomainsView) (f : SortField)
    (h : v.Inv) : (v.pressSort L f).Inv := by
  obtain ⟨h0, h1, h2⟩ := h
  unfold DomainsView.pressSort
  split
  · exact ⟨h0, h1, sortDomains_domains_length L hL _ h2⟩
  · exact ⟨h0, h1, sortDomains_domains_length L hL _ h2⟩

theorem domainsView_update_inv (L : GoLib) (hL : L.Lawful) (T : TeaLib) (v : DomainsView)
    (msg : Msg) (h : v.Inv) : (v.Update L T msg).1.Inv := by
  have htype : (v.typeInSearch L T msg).1.Inv :=
    applyFilter_sort_inv L hL _ h.1 h.2.1
  unfold DomainsView.Update
  split
  · split
    · split_ifs
      · exact h
      · exact cursorUp_inv v h
      · exact cursorDown_inv v h
      · exact htype
    · exact htype
  · split
    · split_ifs
      · exact cursorUp_inv v h
      · exact cursorDown_inv v h
      · exact h
      · exact applyFilter_sort_inv L hL _ h.1 h.2.1
      · exact h
      · exact pressSort_inv L hL v _ h
      · exact pressSort_inv L hL v _ h
      · exact h
    · exact h

theorem domainsView_reachable_inv (v : DomainsView) (h : DomainsView.Reachable v) : v.Inv := by
  induction h with
  | init => exact ⟨le_refl _, le_refl _, le_refl _⟩
  | setSize v w hh _ ih => exact ih
  | setDomains L hL v ds _ ih => exact applyFilter_sort_inv L hL _ ih.1 ih.2.1
  | update L hL T _ v k _ ih => exact domainsView_update_inv L hL T v _ ih

theorem setDomains_cursor_eq (L : GoLib) (v : DomainsView) (ds : List Domain) :
    (v.SetDomains L ds).cursor = (({ v with domains := ds } : DomainsView).applyFilter L).cursor :=
  rfl

theorem setDomains_length_eq (L : GoLib) (hL : L.Lawful) (v : DomainsView) (ds : List Domain) :
    (v.SetDomains L ds).filtered.length =
      (({ v with domains := ds } : DomainsView).applyFilter L).filtered.length :=
  sortDomains_length L hL _

/-- C14, as stated, fails: `SetDomains` does not assign the cursor. The view
`scrolledList` has its cursor on row 2; after `SetDomains` with the same three
domains the cursor is still 2, not 0. -/
theorem setDomains_keeps_cursor :
    scrolledList.cursor = 2
      ∧ (scrolledList.SetDomains refLib threeDomains).cursor = 2
      ∧ (scrolledList.SetDomains refLib threeDomains).filtered.length = 3 := by
  decide

/-- C14, amended. `DomainsView.SetDomains` leaves a cursor that is below the
new length of `filtered` where it was. With a search text that is not empty, a
cursor at or beyond the new length of `filtered` is set to
`max(0, len(filtered) - 1)`, so that a cursor that was not negative is a valid
index of `filtered` after the call whenever `filtered` is not empty. -/
theorem setDomains_cursor (L : GoLib) (hL : L.Lawful) (v : DomainsView) (ds : List Domain) :
    (v.cursor < ((v.SetDomains L ds).filtered.length : Int) →
        (v.SetDomains L ds).cursor = v.cursor)
      ∧ (strings.ToLower L v.searchInput.value ≠ "" →
          v.cursor ≥ ((v.SetDomains L ds).filtered.length : Int) →
          (v.SetDomains L ds).cursor = max 0 (((v.SetDomains L ds).filtered.length : Int) - 1))
      ∧ (strings.ToLower L v.searchInput.value ≠ "" → 0 ≤ v.cursor →
          (v.SetDomains L ds).filtered ≠ [] →
          0 ≤ (v.SetDomains L ds).cursor
            ∧ (v.SetDomains L ds).cursor < ((v.SetDomains L ds).filtered.length : Int)) := by
  have hlen := setDomains_length_eq L hL v ds
  have hcur := setDomains_cursor_eq L v ds
  generalize hw : ({ v with domains := ds } : DomainsView) = w at hlen hcur
  have hwc : w.cursor = v.cursor := by rw [← hw]
  have hws : w.searchInput = v.searchInput := by rw [← hw]
  refine ⟨?_, ?_, ?_⟩
  · intro h
    rw [hcur]
    by_cases hq : strings.ToLower L w.searchInput.value = ""
    · rw [applyFilter_cursor_of_empty L w hq, hwc]
    · rw [applyFilter_cursor_of_nonempty L w hq, ← hlen, hwc]
      exact if_neg (by simpa using h)
  · intro hq h
    rw [← hws] at hq
    rw [hcur, applyFilter_cursor_of_nonempty L w hq, ← hlen, hwc]
    exact if_pos h
  · intro hq h0 hne
    rw [← hws] at hq
    have hpos : 0 < (v.SetDomains L ds).filtered.length := List.length_pos.2 hne
    rw [hcur, applyFilter_cursor_of_nonempty L w hq, ← hlen, hwc]
    split_ifs <;> omega

/-- C14, amended, at a concrete input: `searchingList` has its cursor on row 2
and the search text `a`; a refresh that returns the single domain `alpha.com`
puts the cursor on row 0. -/
theorem setDomains_cursor_witness :
    refLib.Lawful ∧ strings.ToLower refLib searchingList.searchInput.value ≠ ""
      ∧ 0 ≤ searchingList.cursor
      ∧ (searchingList.SetDomains refLib
          [mkDomain "alpha.com" "com" ⟨1736899200, 2025, 1⟩]).filtered ≠ []
      ∧ 0 ≤ (searchingList.SetDomains refLib
          [mkDomain "alpha.com" "com" ⟨1736899200, 2025, 1⟩]).cursor
      ∧ (searchingList.SetDomains refLib
          [mkDomain "alpha.com" "com" ⟨1736899200, 2025, 1⟩]).cursor <
        ((searchingList.SetDomains refLib
          [mkDomain "alpha.com" "com" ⟨1736899200, 2025, 1⟩]).filtered.length : Int) :=
  ⟨refLib_lawful, by decide, by decide, by decide,
    (setDomains_cursor refLib refLib_lawful searchingList
      [mkDomain "alpha.com" "com" ⟨1736899200, 2025, 1⟩]).2.2 (by decide) (by decide)
      (by decide)⟩

theorem cursorUp_bound (v : DomainsView) (h : v.OffsetBound) :
    v.cursorUp.OffsetBound := by
  unfold DomainsView.OffsetBound at h ⊢
  unfold DomainsView.cursorUp
  split_ifs
  · show v.cursor - 1 ≤ max 0 ((v.filtered.length : Int) - v.height)
    omega
  · exact h
  · exact h

theorem cursorDown_bound (v : DomainsView) (h : v.OffsetBound) : v.cursorDown.OffsetBound := by
  unfold DomainsView.OffsetBound at h ⊢
  unfold DomainsView.cursorDown
  split_ifs
  · show v.cursor + 1 - v.height + 1 ≤ max 0 ((v.filtered.length : Int) - v.height)
    omega
  · exact h
  · exact h

theorem pressSort_bound (L : GoLib) (hL : L.Lawful) (v : DomainsView) (f : SortField)
    (h : v.OffsetBound) : (v.pressSort L f).OffsetBound := by
  unfold DomainsView.OffsetBound at h ⊢
  unfold DomainsView.pressSort
  split
  · rw [sortDomains_length L hL]
    exact h
  · rw [sortDomains_length L hL]
    exact h

theorem clearFilter_bound (L : GoLib) (hL : L.Lawful) (T : TeaLib) (hT : T.Lawful)
    (v : DomainsView) (hlen : v.filtered.length ≤ v.domains.length) (h : v.OffsetBound) :
    ((({ v with searchInput := T.textinputSetValue v.searchInput "" } :
      DomainsView).applyFilter L).sortDomains L).OffsetBound := by
  have hq : strings.ToLower L (T.textinputSetValue v.searchInput "").value = "" := by
    rw [hT.setValue_empty]
    rfl
  generalize hw : ({ v with searchInput := T.textinputSetValue v.searchInput "" } :
    DomainsView) = w
  have hwq : strings.ToLower L w.searchInput.value = "" := by rw [← hw]; exact hq
  have hwd : w.domains = v.domains := by rw [← hw]
  have hwo : w.offset = v.offset := by rw [← hw]
  have hwh : w.height = v.height := by rw [← hw]
  have hf : (w.applyFilter L).filtered = w.domains := by
    unfold DomainsView.applyFilter
    simp only [hwq, if_true]
  have ho := applyFilter_offset L w
  unfold DomainsView.OffsetBound at h ⊢
  rw [sortDomains_length L hL]
  change (w.applyFilter L).offset ≤
    max 0 (((w.applyFilter L).filtered.length : Int) - (w.applyFilter L).height)
  rw [ho.1, ho.2, hf, hwd, hwo, hwh]
  omega

theorem refTea_lawful : refTea.Lawful := ⟨fun _ => rfl⟩

theorem scrolledList_reachable : DomainsView.Reachable scrolledList :=
  DomainsView.Reachable.update refLib refLib_lawful refTea refTea_lawful _ ⟨"down"⟩
    (DomainsView.Reachable.update refLib refLib_lawful refTea refTea_lawful _ ⟨"down"⟩
      (DomainsView.Reachable.setDomains refLib refLib_lawful _ threeDomains
        (DomainsView.Reachable.setSize _ 80 8 DomainsView.Reachable.init)))

/-- C15 (the code at the failing input). No step but a cursor movement assigns
the offset. The view `scrolledList` shows three domains in a two-line viewport
at offset 1 with the cursor on row 2; after a refresh that returns one domain
the offset is still 1, above `max(0, 1 - 2) = 0`, the cursor is still 2, and no
domain is selected. -/
theorem offset_bound_broken :
    DomainsView.Reachable shrunkList
      ∧ shrunkList.height = 2 ∧ shrunkList.filtered.length = 1 ∧ shrunkList.offset = 1
      ∧ ¬ (shrunkList.offset ≤ max 0 ((shrunkList.filtered.length : Int) - shrunkList.height))
      ∧ shrunkList.cursor = 2 ∧ shrunkList.SelectedDomain = none :=
  ⟨DomainsView.Reachable.setDomains refLib refLib_lawful _ _ scrolledList_reachable,
    by decide, by decide, by decide, by decide, by decide, by decide⟩

theorem domainsView_update_bound (L : GoLib) (hL : L.Lawful) (T : TeaLib) (hT : T.Lawful)
    (v : DomainsView) (k : KeyMsg) (hinv : v.Inv) (hb : v.OffsetBound)
    (hk : v.searching = false ∨
      k.text ∈ ["enter", "esc", "ctrl+k", "up", "ctrl+j", "down"]) :
    (v.Update L T (.KeyMsg k)).1.OffsetBound := by
  unfold DomainsView.Update
  split
  · rename_i hs
    rcases hk with hk | hk
    · rw [hk] at hs
      exact absurd hs (by decide)
    · simp only
      split_ifs with h1 h2 h3
      · exact hb
      · exact cursorUp_bound v hb
      · exact cursorDown_bound v hb
      · exfalso
        simp only [List.mem_cons, List.mem_singleton, List.not_mem_nil, or_false] at hk
        rcases hk with hk | hk | hk | hk | hk | hk
        · exact h1 (Or.inl hk)
        · exact h1 (Or.inr hk)
        · exact h2 (Or.inl hk)
        · exact h2 (Or.inr hk)
        · exact h3 (Or.inl hk)
        · exact h3 (Or.inr hk)
  · simp only
    split_ifs
    · exact cursorUp_bound v hb
    · exact cursorDown_bound v hb
    · exact hb
    · exact clearFilter_bound L hL T hT v hinv.2.2 hb
    · exact hb
    · exact pressSort_bound L hL v _ hb
    · exact pressSort_bound L hL v _ hb
    · exact hb

/-- The part of the offset invariant the code keeps. In every state of the
domain list reachable from `NewDomainsView` by `SetSize`, `SetDomains` and
`Update` on key messages the scroll offset is not negative. The bound
`offset <= max(0, len(filtered) - height)` is kept by `Update` on every key
message outside the search sub-mode (navigation, entering the search, clearing
the filter, the sort keys) and, inside it, on the keys that move the cursor or
leave the sub-mode. -/
theorem offset_bound (v : DomainsView) (hr : DomainsView.Reachable v) :
    0 ≤ v.offset
      ∧ ∀ (L : GoLib) (T : TeaLib) (k : KeyMsg), L.Lawful → T.Lawful →
          v.offset ≤ max 0 ((v.filtered.length : Int) - v.height) →
          (v.searching = false ∨
            k.text ∈ ["enter", "esc", "ctrl+k", "up", "ctrl+j", "down"]) →
          (v.Update L T (.KeyMsg k)).1.offset ≤
            max 0 (((v.Update L T (.KeyMsg k)).1.filtered.length : Int) -
              (v.Update L T (.KeyMsg k)).1.height) :=
  ⟨(domainsView_reachable_inv v hr).1, fun L T k hL hT hb hk =>
    domainsView_update_bound L hL T hT v k (domainsView_reachable_inv v hr) hb hk⟩

/-- The theorem `offset_bound` at a concrete input: the reachable view
`scrolledList`, which meets the bound, and the key `up`. -/
theorem offset_bound_witness :
    DomainsView.Reachable scrolledList ∧ refLib.Lawful ∧ refTea.Lawful
      ∧ scrolledList.offset ≤
          max 0 ((scrolledList.filtered.length : Int) - scrolledList.height)
      ∧ scrolledList.searching = false
      ∧ (scrolledList.Update refLib refTea (.KeyMsg ⟨"up"⟩)).1.offset ≤
            max 0 (((scrolledList.Update refLib refTea (.KeyMsg ⟨"up"⟩)).1.filtered.length : Int)
              - (scrolledList.Update refLib refTea (.KeyMsg ⟨"up"⟩)).1.height) :=
  ⟨scrolledList_reachable, refLib_lawful, refTea_lawful, by decide, by decide,
    (offset_bound scrolledList scrolledList_reachable).2 refLib refTea ⟨"up"⟩ refLib_lawful
      refTea_lawful (by decide) (Or.inl (by decide))⟩

/-! ## The sort keys -/

theorem update_sortName (L : GoLib) (T : TeaLib) (v : DomainsView) (hs : v.searching = false) :
    v.Update L T (.KeyMsg ⟨"1"⟩) = (v.pressSort L .SortByName, []) := by
  unfold DomainsView.Update
  simp [hs, key.Matches, Keys.Up, Keys.Down, Keys.Search, Keys.Back, Keys.SortName]

theorem update_sortExp (L : GoLib) (T : TeaLib) (v : DomainsView) (hs : v.searching = false) :
    v.Update L T (.KeyMsg ⟨"2"⟩) = (v.pressSort L .SortByExpiration, []) := by
  unfold DomainsView.Update
  simp [hs, key.Matches, Keys.Up, Keys.Down, Keys.Search, Keys.Back, Keys.SortName,
    Keys.SortExp]

theorem pressSort_fields (L : GoLib) (v : DomainsView) (f : SortField) :
    (v.pressSort L f).sortField = f
      ∧ (v.pressSort L f).sortAscending = (if v.sortField = f then !v.sortAscending else true)
      ∧ (v.pressSort L f).searching = v.searching
      ∧ (v.pressSort L f).filtered =
          sort.Slice L.pdqDomains (v.pressSort L f).sortLess v.filtered := by
  unfold DomainsView.pressSort
  by_cases h : v.sortField = f
  · rw [if_pos h, if_pos h]
    exact ⟨h, rfl, rfl, rfl⟩
  · rw [if_neg h, if_neg h]
    exact ⟨rfl, rfl, rfl, rfl⟩

/-- C16. Outside the search sub-mode the key `1` (sort by name) and the key `2`
(sort by expiration) are handled alike: the key of the field that is active
keeps the field and flips `sortAscending`, the key of the other field selects
that field with `sortAscending = true`, and `filtered` becomes the result of
`sort.Slice` on the old `filtered` under the new setting. Pressing the key of
the active field twice gives back the field and the direction the view
started with. -/
theorem sortKey_spec (L : GoLib) (T : TeaLib) (v : DomainsView) (hs : v.searching = false) :
    ((v.Update L T (.KeyMsg ⟨"1"⟩)).1.sortField = .SortByName
        ∧ (v.Update L T (.KeyMsg ⟨"1"⟩)).1.sortAscending =
            (if v.sortField = .SortByName then !v.sortAscending else true)
        ∧ (v.Update L T (.KeyMsg ⟨"1"⟩)).1.filtered =
            sort.Slice L.pdqDomains (v.Update L T (.KeyMsg ⟨"1"⟩)).1.sortLess v.filtered)
      ∧ ((v.Update L T (.KeyMsg ⟨"2"⟩)).1.sortField = .SortByExpiration
        ∧ (v.Update L T (.KeyMsg ⟨"2"⟩)).1.sortAscending =
            (if v.sortField = .SortByExpiration then !v.sortAscending else true)
        ∧ (v.Update L T (.KeyMsg ⟨"2"⟩)).1.filtered =
            sort.Slice L.pdqDomains (v.Update L T (.KeyMsg ⟨"2"⟩)).1.sortLess v.filtered)
      ∧ (v.sortField = .SortByName →
          ((v.Update L T (.KeyMsg ⟨"1"⟩)).1.Update L T (.KeyMsg ⟨"1"⟩)).1.sortField =
              v.sortField
            ∧ ((v.Update L T (.KeyMsg ⟨"1"⟩)).1.Update L T (.KeyMsg ⟨"1"⟩)).1.sortAscending =
              v.sortAscending)
      ∧ (v.sortField = .SortByExpiration →
          ((v.Update L T (.KeyMsg ⟨"2"⟩)).1.Update L T (.KeyMsg ⟨"2"⟩)).1.sortField =
              v.sortField
            ∧ ((v.Update L T (.KeyMsg ⟨"2"⟩)).1.Update L T (.KeyMsg ⟨"2"⟩)).1.sortAscending =
              v.sortAscending) := by
  have h1 := pressSort_fields L v .SortByName
  have h2 := pressSort_fields L v .SortByExpiration
  have e1 := update_sortName L T v hs
  have e2 := update_sortExp L T v hs
  refine ⟨?_, ?_, ?_, ?_⟩
  · rw [e1]
    exact ⟨h1.1, h1.2.1, h1.2.2.2⟩
  · rw [e2]
    exact ⟨h2.1, h2.2.1, h2.2.2.2⟩
  · intro hf
    rw [e1, update_sortName L T _ (h1.2.2.1.trans hs)]
    have h3 := pressSort_fields L (v.pressSort L .SortByName) .SortByName
    refine ⟨by rw [h3.1, hf], ?_⟩
    rw [h3.2.1, if_pos h1.1, h1.2.1, if_pos hf]
    simp
  · intro hf
    rw [e2, update_sortExp L T _ (h2.2.2.1.trans hs)]
    have h3 := pressSort_fields L (v.pressSort L .SortByExpiration) .SortByExpiration
    refine ⟨by rw [h3.1, hf], ?_⟩
    rw [h3.2.1, if_pos h2.1, h2.2.1, if_pos hf]
    simp

/-- C16 at a concrete input: the view `scrolledList`, sorted by expiration,
ascending, after the key `2` pressed twice. -/
theorem sortKey_spec_witness :
    scrolledList.searching = false ∧ scrolledList.sortField = .SortByExpiration
      ∧ (scrolledList.Update refLib refTea (.KeyMsg ⟨"2"⟩)).1.sortAscending = false
      ∧ ((scrolledList.Update refLib refTea (.KeyMsg ⟨"2"⟩)).1.Update refLib refTea
          (.KeyMsg ⟨"2"⟩)).1.sortAscending = scrolledList.sortAscending :=
  ⟨by decide, by decide, by decide,
    ((sortKey_spec refLib refTea scrolledList (by decide)).2.2.2 (by decide)).2⟩

/-! ## The controller -/

/-- No command of `DomainsView.Update` is `tea.Quit` or a registrar task. -/
theorem domainsView_update_cmds (L : GoLib) (T : TeaLib) (v : DomainsView) (msg : Msg) :
    ∀ c ∈ (v.Update L T msg).2, c ≠ Cmd.Quit ∧ c.isTask = false := by
  intro c hc
  unfold DomainsView.Update at hc
  have htype : ∀ c ∈ (v.typeInSearch L T msg).2, c ≠ Cmd.Quit ∧ c.isTask = false := by
    intro c hc
    simp only [DomainsView.typeInSearch, List.mem_map] at hc
    obtain ⟨l, -, rfl⟩ := hc
    exact ⟨by simp, rfl⟩
  split at hc
  · split at hc
    · split_ifs at hc
      all_goals first
        | exact htype c hc
        | (simp at hc)
    · exact htype c hc
  · split at hc
    · split_ifs at hc
      all_goals first
        | (simp at hc; done)
        | (simp only [List.mem_singleton] at hc; subst hc; exact ⟨by simp, rfl⟩)
    · simp at hc

/-- In the search sub-mode a key that matches Quit or Help goes to the text
input. -/
theorem domainsView_update_typed (L : GoLib) (T : TeaLib) (v : DomainsView) (k : KeyMsg)
    (hs : v.searching = true)
    (hk : key.Matches k Keys.Quit = true ∨ key.Matches k Keys.Help = true) :
    v.Update L T (.KeyMsg k) = v.typeInSearch L T (.KeyMsg k) := by
  have hk2 : k.text = "q" ∨ k.text = "ctrl+c" ∨ k.text = "?" := by
    simp [key.Matches, Keys.Quit, Keys.Help] at hk
    tauto
  unfold DomainsView.Update
  rw [if_pos hs]
  have h1 : ¬ (k.text = "enter" ∨ k.text = "esc") := by
    rcases hk2 with h | h | h <;> rw [h] <;> decide
  have h2 : ¬ (k.text = "ctrl+k" ∨ k.text = "up") := by
    rcases hk2 with h | h | h <;> rw [h] <;> decide
  have h3 : ¬ (k.text = "ctrl+j" ∨ k.text = "down") := by
    rcases hk2 with h | h | h <;> rw [h] <;> decide
  simp only [if_neg h1, if_neg h2, if_neg h3]

/-- A key cannot match both Quit and Help. -/
theorem quit_not_help (k : KeyMsg) (hq : key.Matches k Keys.Quit = true) :
    key.Matches k Keys.Help = false := by
  simp [key.Matches, Keys.Quit, Keys.Help] at hq ⊢
  rcases hq with h | h <;> rw [h] <;> decide

/-- C17. For every state of the controller and every key that matches Quit or
Help: when the view is the domain list and its search sub-mode is active, the
controller returns the state with only the domain list changed, by
`DomainsView.Update` on that key, which hands the key to the search input; the
view stays and no command is `tea.Quit`. In every other state the result is
the one of the controller itself (Quit leaves the help screen or quits, Help
toggles the help screen) and all sub-views are as before. -/
theorem global_keys_intercepted (L : GoLib) (T : TeaLib) (a : App) (k : KeyMsg)
    (hk : key.Matches k Keys.Quit = true ∨ key.Matches k Keys.Help = true) :
    (a.view = .ViewDomains ∧ a.domainsView.searching = true →
      a.Update L T (.KeyMsg k)
          = some ({ a with domainsView := (a.domainsView.Update L T (.KeyMsg k)).1 },
              (a.domainsView.Update L T (.KeyMsg k)).2)
        ∧ a.domainsView.Update L T (.KeyMsg k) = a.domainsView.typeInSearch L T (.KeyMsg k)
        ∧ Cmd.Quit ∉ (a.domainsView.Update L T (.KeyMsg k)).2)
    ∧ (¬ (a.view = .ViewDomains ∧ a.domainsView.searching = true) →
      a.Update L T (.KeyMsg k)
          = some (
            if a.view = .ViewHelp then ({ a with view := a.prevView }, [])
            else if key.Matches k Keys.Quit then (a, [Cmd.Quit])
            else ({ a with prevView := a.view, view := .ViewHelp }, []))) := by
  constructor
  · rintro ⟨hv, hs⟩
    refine ⟨?_, domainsView_update_typed L T _ k hs hk, ?_⟩
    · have hsearch : (decide (a.view = .ViewDomains) && a.domainsView.IsSearching) = true := by
        simp [hv, hs, DomainsView.IsSearching]
      have hd : a.dispatch L T k
          = some ({ a with domainsView := (a.domainsView.Update L T (.KeyMsg k)).1 },
              (a.domainsView.Update L T (.KeyMsg k)).2) := by
        simp [App.dispatch, hv, App.updateDomains, DomainsView.IsSearching, hs]
      simp only [App.Update, App.keyPressed, hsearch, if_true]
      split_ifs <;> exact hd
    · intro hq
      exact (domainsView_update_cmds L T _ _ _ hq).1 rfl
  · intro hn
    have hsearch : (decide (a.view = .ViewDomains) && a.domainsView.IsSearching) = false := by
      simp only [DomainsView.IsSearching, Bool.and_eq_false_iff, decide_eq_false_iff_not]
      by_cases hv : a.view = .ViewDomains
      · right
        cases hs : a.domainsView.searching
        · rfl
        · exact absurd ⟨hv, hs⟩ hn
      · left; exact hv
    simp only [App.Update, App.keyPressed, hsearch]
    rcases hk with hq | hh
    · simp only [hq, if_true]
      split_ifs <;> simp_all
    · by_cases hq : key.Matches k Keys.Quit = true
      · rw [quit_not_help k hq] at hh
        exact absurd hh (by decide)
      · simp only [hq, hh, if_true]
        split_ifs <;> simp_all

/-- C17 at `searchingApp` with the key `q`, and after the search is left. -/
theorem global_keys_intercepted_witness :
    (key.Matches ⟨"q"⟩ Keys.Quit = true ∨ key.Matches ⟨"q"⟩ Keys.Help = true)
      ∧ (searchingApp.view = .ViewDomains ∧ searchingApp.domainsView.searching = true)
      ∧ (searchingApp.Update refLib refTea (.KeyMsg ⟨"q"⟩)).map
          (fun r => (r.1.view, r.1.domainsView.searchInput.value, r.2))
          = some (.ViewDomains, "q", [])
      ∧ cachedApp.Update refLib refTea (.KeyMsg ⟨"q"⟩) = some (cachedApp, [Cmd.Quit]) := by
  have h := global_keys_intercepted refLib refTea searchingApp ⟨"q"⟩ (Or.inl (by decide))
  have h2 := global_keys_intercepted refLib refTea cachedApp ⟨"q"⟩ (Or.inl (by decide))
  refine ⟨Or.inl (by decide), by decide, ?_, ?_⟩
  · rw [(h.1 (by decide)).1]
    decide
  · rw [h2.2 (by decide)]
    decide

/-- The view-specific handlers leave `prevView` as it is. -/
theorem dispatch_prevView (L : GoLib) (T : TeaLib) (a : App) (k : KeyMsg)
    (r : App × List Cmd) (h : a.dispatch L T k = some r) : r.1.prevView = a.prevView := by
  unfold App.dispatch at h
  split at h
  · cases h
    simp only [App.updateDomains, App.openDNS, App.openNameservers]
    repeat' split
    all_goals rfl
  · cases h
    simp only [App.updateDetail, App.openDNS, App.openNameservers]
    repeat' split
    all_goals rfl
  · cases h
    simp only [App.updateDNS]
    split <;> rfl
  · unfold App.updateNameservers at h
    split_ifs at h
    · cases h; rfl
    · cases h; rfl
    · simp only [Option.map_eq_some'] at h
      obtain ⟨x, -, rfl⟩ := h
      rfl
  · cases h
    simp only [App.updateAvailability]
    repeat' split
    all_goals rfl
  · cases h
    simp only [App.updateTLD]
    split <;> rfl
  · cases h
    simp only [App.updateCalendar]
    split <;> rfl
  · cases h
    split <;> rfl

/-- One step of `App.Update` keeps `prevView`, or stores the view it leaves for
the help screen. -/
theorem update_prevView (L : GoLib) (T : TeaLib) (a : App) (msg : Msg) (r : App × List Cmd)
    (h : a.Update L T msg = some r) :
    r.1.prevView = a.prevView ∨ (r.1.prevView = a.view ∧ a.view ≠ .ViewHelp) := by
  cases msg with
  | KeyMsg k =>
    simp only [App.Update, App.keyPressed] at h
    split_ifs at h with h1 h2 h3 h4 h5 h6
    · exact Or.inl (dispatch_prevView L T a k r h)
    · cases h; exact Or.inl rfl
    · cases h; exact Or.inl rfl
    · exact Or.inl (dispatch_prevView L T a k r h)
    · cases h; exact Or.inl rfl
    · cases h; exact Or.inr ⟨rfl, h6⟩
    · exact Or.inl (dispatch_prevView L T a k r h)
  | errMsg e =>
    simp only [App.Update, Option.some.injEq] at h
    subst h
    left
    simp only [App.failed]
    split <;> rfl
  | _ =>
    simp only [App.Update, Option.some.injEq] at h
    subst h
    exact Or.inl rfl

/-- In every reachable state of the controller `prevView` is not the help
screen. -/
theorem reachable_prevView (a : App) (h : a.Reachable) : a.prevView ≠ .ViewHelp := by
  induction h with
  | init L c ds p demo => simp [NewApp]
  | step L T a msg r _ hstep ih =>
    rcases update_prevView L T a msg r hstep with h1 | ⟨h1, h2⟩
    · rw [h1]; exact ih
    · rw [h1]; exact h2

/-- C18. From a state whose view `s` is not the help screen, and which is not
in the search sub-mode of the domain list, a key that matches Help moves to the
help screen and stores `s`; from there a key that matches Help or Back gives
the first state again with `s` as view (and as stored view). In every state
reachable from `NewApp` the stored view is not the help screen, so any key that
leaves the help screen (Help, Back or Quit) lands on another view. -/
theorem help_roundtrip (L : GoLib) (T : TeaLib) (a : App) :
    (∀ k back : KeyMsg, a.view ≠ .ViewHelp →
      ¬ (a.view = .ViewDomains ∧ a.domainsView.searching = true) →
      key.Matches k Keys.Help = true →
      key.Matches back Keys.Help = true ∨ key.Matches back Keys.Back = true →
      a.Update L T (.KeyMsg k) = some ({ a with prevView := a.view, view := .ViewHelp }, [])
        ∧ ({ a with prevView := a.view, view := .ViewHelp } : App).Update L T (.KeyMsg back)
            = some ({ a with prevView := a.view }, []))
    ∧ (a.Reachable →
      a.prevView ≠ .ViewHelp
        ∧ (a.view = .ViewHelp → ∀ k : KeyMsg,
            key.Matches k Keys.Help = true ∨ key.Matches k Keys.Back = true
              ∨ key.Matches k Keys.Quit = true →
            ∃ r, a.Update L T (.KeyMsg k) = some r ∧ r.1.view = a.prevView
              ∧ r.1.view ≠ .ViewHelp)) := by
  have hleave : ∀ (b : App) (k : KeyMsg), b.view = .ViewHelp →
      key.Matches k Keys.Help = true ∨ key.Matches k Keys.Back = true
        ∨ key.Matches k Keys.Quit = true →
      b.Update L T (.KeyMsg k) = some ({ b with view := b.prevView }, []) := by
    intro b k hv hk
    have hsearch : (decide (b.view = .ViewDomains) && b.domainsView.IsSearching) = false := by
      simp [hv]
    simp only [App.Update, App.keyPressed, hsearch, App.dispatch, hv]
    rcases hk with h | h | h
    · split_ifs <;> simp_all
    · split_ifs <;> simp_all
    · simp [h]
  constructor
  · intro k back hv hn hk hb
    have hq : key.Matches k Keys.Quit = false := by
      cases hq : key.Matches k Keys.Quit
      · rfl
      · rw [quit_not_help k hq] at hk
        exact absurd hk (by decide)
    have hsearch : (decide (a.view = .ViewDomains) && a.domainsView.IsSearching) = false := by
      simp only [DomainsView.IsSearching, Bool.and_eq_false_iff, decide_eq_false_iff_not]
      by_cases hv2 : a.view = .ViewDomains
      · right
        cases hs : a.domainsView.searching
        · rfl
        · exact absurd ⟨hv2, hs⟩ hn
      · left; exact hv2
    constructor
    · simp [App.Update, App.keyPressed, hsearch, hq, hk, hv]
    · rw [hleave _ back rfl (by tauto)]
  · intro hr
    refine ⟨reachable_prevView a hr, ?_⟩
    intro hv k hk
    exact ⟨_, hleave a k hv hk, rfl, reachable_prevView a hr⟩

/-- C18 at `tldApp` with the keys `?` and `esc`. -/
theorem help_roundtrip_witness :
    tldApp.view = .ViewTLD
      ∧ tldApp.Update refLib refTea (.KeyMsg ⟨"?"⟩)
          = some ({ tldApp with prevView := tldApp.view, view := .ViewHelp }, [])
      ∧ ({ tldApp with prevView := tldApp.view, view := .ViewHelp } : App).Update refLib refTea
            (.KeyMsg ⟨"esc"⟩)
          = some ({ tldApp with prevView := tldApp.view }, []) :=
  ⟨by decide,
    (help_roundtrip refLib refTea tldApp).1 ⟨"?"⟩ ⟨"esc"⟩ (by decide) (by decide) (by decide)
      (Or.inr (by decide))⟩

/-- In demo mode the view-specific handlers return, keep the demo invariant and
ask for no registrar task. -/
theorem dispatch_demo (L : GoLib) (T : TeaLib) (a : App) (k : KeyMsg) (h : a.DemoInv) :
    ∃ r, a.dispatch L T k = some r ∧ r.1.DemoInv ∧ ∀ c ∈ r.2, c.isTask = false := by
  obtain ⟨hd, hv, hp⟩ := h
  have hfwd : ∀ c ∈ (a.domainsView.Update L T (.KeyMsg k)).2, c.isTask = false :=
    fun c hc => (domainsView_update_cmds L T _ _ c hc).2
  unfold App.dispatch
  split
  next hview =>
    refine ⟨_, rfl, ?_, ?_⟩
    · simp only [App.updateDomains, App.openDNS, App.openNameservers, hd, if_true]
      repeat' split
      all_goals (refine ⟨?_, ?_, ?_⟩ <;> first | rfl | exact hd | exact hv | exact hp)
    · simp only [App.updateDomains, App.openDNS, App.openNameservers, hd, if_true]
      repeat' split
      all_goals first
        | exact hfwd
        | (intro c hc; simp at hc)
  next hview =>
    refine ⟨_, rfl, ?_, ?_⟩
    · simp only [App.updateDetail, App.openDNS, App.openNameservers, hd, if_true]
      repeat' split
      all_goals (refine ⟨?_, ?_, ?_⟩ <;> first | rfl | exact hd | exact hv | exact hp)
    · simp only [App.updateDetail, App.openDNS, App.openNameservers, hd, if_true]
      repeat' split
      all_goals (intro c hc; simp at hc)
  next hview => rw [hview] at hv; exact absurd hv (by decide)
  next hview => rw [hview] at hv; exact absurd hv (by decide)
  next hview => rw [hview] at hv; exact absurd hv (by decide)
  next hview =>
    refine ⟨_, rfl, ?_, ?_⟩
    · simp only [App.updateTLD]
      split
      all_goals (refine ⟨?_, ?_, ?_⟩ <;> first | rfl | exact hd | exact hv | exact hp)
    · simp only [App.updateTLD]
      split
      all_goals (intro c hc; simp at hc)
  next hview =>
    refine ⟨_, rfl, ?_, ?_⟩
    · simp only [App.updateCalendar]
      split
      all_goals (refine ⟨?_, ?_, ?_⟩ <;> first | rfl | exact hd | exact hv | exact hp)
    · simp only [App.updateCalendar]
      split
      all_goals (intro c hc; simp at hc)
  next hview =>
    refine ⟨_, rfl, ?_, ?_⟩
    · split
      · exact ⟨hd, hp, hp⟩
      · exact ⟨hd, hv, hp⟩
    · intro c hc; simp at hc

/-- In demo mode `App.Update` handles a key or window size message without a
panic, keeps the demo invariant and asks for no registrar task. -/
theorem update_demo (L : GoLib) (T : TeaLib) (a : App) (msg : Msg) (h : a.DemoInv)
    (hm : msg.isInput = true) :
    ∃ r, a.Update L T msg = some r ∧ r.1.DemoInv ∧ ∀ c ∈ r.2, c.isTask = false := by
  cases msg with
  | KeyMsg k =>
    obtain ⟨r, hr, hinv, hcmd⟩ := dispatch_demo L T a k h
    obtain ⟨hd, hv, hp⟩ := h
    simp only [App.Update, App.keyPressed]
    split_ifs
    · exact ⟨r, hr, hinv, hcmd⟩
    · exact ⟨_, rfl, ⟨hd, hp, hp⟩, by intro c hc; simp at hc⟩
    · refine ⟨_, rfl, ⟨hd, hv, hp⟩, ?_⟩
      intro c hc
      simp only [List.mem_singleton] at hc
      subst hc; rfl
    · exact ⟨r, hr, hinv, hcmd⟩
    · exact ⟨_, rfl, ⟨hd, hp, hp⟩, by intro c hc; simp at hc⟩
    · exact ⟨_, rfl, ⟨hd, rfl, hv⟩, by intro c hc; simp at hc⟩
    · exact ⟨r, hr, hinv, hcmd⟩
  | WindowSizeMsg w h2 =>
    exact ⟨_, rfl, ⟨h.1, h.2.1, h.2.2⟩, by intro c hc; simp at hc⟩
  | _ => simp [Msg.isInput] at hm

/-- Every state of a demo session satisfies the demo invariant. -/
theorem demoReachable_inv (a : App) (h : a.DemoReachable) : a.DemoInv := by
  induction h with
  | init L c ds p => exact ⟨rfl, rfl, rfl⟩
  | step L T a msg r _ hm hstep ih =>
    obtain ⟨r2, hr2, hinv, -⟩ := update_demo L T a msg ih hm
    rw [hstep] at hr2
    cases hr2
    exact hinv

/-- C19. In every state reachable from `NewApp` in demo mode by key and window
size messages: `Init` returns no command, the view is not DNS, Nameservers or
Availability, and `App.Update` handles every key or window size message without
a panic and returns none of the six registrar tasks (fetch of domains, pricing,
DNS records or name servers, save of name servers, availability check). -/
theorem demo_no_task (a : App) (h : a.DemoReachable) :
    a.Init = []
      ∧ a.view ≠ .ViewDNS ∧ a.view ≠ .ViewNameservers ∧ a.view ≠ .ViewAvailability
      ∧ ∀ (L : GoLib) (T : TeaLib) (msg : Msg), msg.isInput = true →
          ∃ r, a.Update L T msg = some r
            ∧ ∀ c ∈ r.2, c ≠ .loadDomains ∧ c ≠ .loadPricing ∧ (∀ d, c ≠ .loadDNS d)
                ∧ (∀ d, c ≠ .loadNameservers d) ∧ (∀ d ns, c ≠ .saveNameservers d ns)
                ∧ (∀ d, c ≠ .checkAvailability d) := by
  have hinv := demoReachable_inv a h
  obtain ⟨hd, hv, -⟩ := hinv
  refine ⟨by simp [App.Init, hd], ?_, ?_, ?_, ?_⟩
  · intro h2; rw [h2] at hv; exact absurd hv (by decide)
  · intro h2; rw [h2] at hv; exact absurd hv (by decide)
  · intro h2; rw [h2] at hv; exact absurd hv (by decide)
  · intro L T msg hm
    obtain ⟨r, hr, -, hcmd⟩ := update_demo L T a msg (demoReachable_inv a h) hm
    refine ⟨r, hr, ?_⟩
    intro c hc
    have ht := hcmd c hc
    refine ⟨?_, ?_, ?_, ?_, ?_, ?_⟩
    · rintro rfl; simp [Cmd.isTask] at ht
    · rintro rfl; simp [Cmd.isTask] at ht
    · rintro d rfl; simp [Cmd.isTask] at ht
    · rintro d rfl; simp [Cmd.isTask] at ht
    · rintro d ns rfl; simp [Cmd.isTask] at ht
    · rintro d rfl; simp [Cmd.isTask] at ht

/-- C19 at `demoTLD`, the demo session over `threeDomains` after the key `t`. -/
theorem demo_no_task_witness :
    demoTLD.DemoReachable ∧ demoTLD.view = .ViewTLD ∧ demoTLD.Init = []
      ∧ demoTLD.view ≠ .ViewDNS :=
  have h : demoTLD.DemoReachable :=
    App.DemoReachable.step refLib refTea demoApp (.KeyMsg ⟨"t"⟩) (demoTLD, [])
      (App.DemoReachable.init refLib none threeDomains []) rfl (by decide)
  ⟨h, by decide, (demo_no_task demoTLD h).1, (demo_no_task demoTLD h).2.1⟩

/-- The view-specific handlers do not clear `refreshing`. -/
theorem dispatch_refreshing (L : GoLib) (T : TeaLib) (a : App) (k : KeyMsg)
    (r : App × List Cmd) (h : a.dispatch L T k = some r) (hr : a.refreshing = true) :
    r.1.refreshing = true := by
  unfold App.dispatch at h
  split at h
  · cases h
    simp only [App.updateDomains, App.openDNS, App.openNameservers]
    repeat' split
    all_goals first | rfl | exact hr
  · cases h
    simp only [App.updateDetail, App.openDNS, App.openNameservers]
    repeat' split
    all_goals first | rfl | exact hr
  · cases h
    simp only [App.updateDNS]
    split <;> exact hr
  · unfold App.updateNameservers at h
    split_ifs at h
    · cases h; exact hr
    · cases h; exact hr
    · simp only [Option.map_eq_some'] at h
      obtain ⟨x, -, rfl⟩ := h
      exact hr
  · cases h
    simp only [App.updateAvailability]
    repeat' split
    all_goals exact hr
  · cases h
    simp only [App.updateTLD]
    split <;> exact hr
  · cases h
    simp only [App.updateCalendar]
    split <;> exact hr
  · cases h
    split <;> exact hr

/-- A message that is neither `domainsLoadedMsg` nor `errMsg` does not clear
`refreshing`. -/
theorem update_refreshing_kept (L : GoLib) (T : TeaLib) (a : App) (msg : Msg)
    (r : App × List Cmd) (h : a.Update L T msg = some r) (hr : a.refreshing = true)
    (h1 : ∀ ds, msg ≠ .domainsLoadedMsg ds) (h2 : ∀ e, msg ≠ .errMsg e) :
    r.1.refreshing = true := by
  cases msg with
  | KeyMsg k =>
    simp only [App.Update, App.keyPressed] at h
    split_ifs at h
    · exact dispatch_refreshing L T a k r h hr
    · cases h; exact hr
    · cases h; exact hr
    · exact dispatch_refreshing L T a k r h hr
    · cases h; exact hr
    · cases h; exact hr
    · exact dispatch_refreshing L T a k r h hr
  | errMsg e => exact absurd rfl (h2 e)
  | domainsLoadedMsg ds => exact absurd rfl (h1 ds)
  | _ =>
    simp only [App.Update, Option.some.injEq] at h
    subst h
    exact hr

/-- Every `errMsg` clears `refreshing`, whatever task it comes from. -/
theorem update_errMsg_refreshing (L : GoLib) (T : TeaLib) (a : App) (e : GoError) :
    (a.Update L T (.errMsg e)).map (fun r => r.1.refreshing) = some false := by
  simp only [App.Update, Option.map_some', App.failed]
  split <;> rfl

/-- C20 (the code at the failing input). The session `cachedApp` starts with
`refreshing` set and the domain fetch among the commands of `Init`. The key `d`
opens the DNS view and starts the DNS fetch of `alpha.com`, and `refreshing` is
still set. The failure of that DNS fetch is an `errMsg`, and `App.Update`
clears `refreshing` on it, although no result of the domain fetch was
handled. -/
theorem refreshing_cleared_by_dns_failure :
    cachedApp.refreshing = true
      ∧ Cmd.loadDomains ∈ cachedApp.Init
      ∧ cachedApp.Update refLib refTea (.KeyMsg ⟨"d"⟩)
          = some (dnsPending, [Cmd.loadDNS "alpha.com"])
      ∧ dnsPending.refreshing = true
      ∧ Cmd.mayYield (.loadDNS "alpha.com") (.errMsg ⟨"dns failed"⟩) = true
      ∧ Cmd.mayYield .loadDomains (.errMsg ⟨"dns failed"⟩) = true
      ∧ (dnsPending.Update refLib refTea (.errMsg ⟨"dns failed"⟩)).map
          (fun r => (r.1.refreshing, r.1.dnsView.err)) = some (false, some ⟨"dns failed"⟩) := by
  decide

/-! ## Failures, history and credentials -/

/-- C21. `App.Update` handles an `errMsg` without a panic and with no command:
the error is recorded in `err`, `loading` is false, and the domain list view
(its domain list and its filtered list), the calendar view (its groups), the
cost breakdown (its groups) and the pricing map are as before. -/
theorem fetch_failure_keeps_data (L : GoLib) (T : TeaLib) (a : App) (e : GoError) :
    ∃ r, a.Update L T (.errMsg e) = some r
      ∧ r.2 = []
      ∧ r.1.err = some e
      ∧ r.1.loading = false
      ∧ r.1.domainsView = a.domainsView
      ∧ r.1.domainsView.domains = a.domainsView.domains
      ∧ r.1.domainsView.filtered = a.domainsView.filtered
      ∧ r.1.calendarView = a.calendarView
      ∧ r.1.calendarView.groups = a.calendarView.groups
      ∧ r.1.tldView = a.tldView
      ∧ r.1.tldView.groups = a.tldView.groups
      ∧ r.1.pricing = a.pricing := by
  refine ⟨(a.failed e, []), rfl, rfl, ?_⟩
  simp only [App.failed]
  split <;> simp

/-- C22 (as stated, refuted). In `nsSaving` the view is the name server view,
no global error is set and a save is in progress. The failure of the save is
stored in the view, and in the global error as well, which the status bar then
shows, also after the user left the name server view. -/
theorem save_failure_sets_global_error :
    nsSaving.view = .ViewNameservers ∧ nsSaving.err = none
      ∧ Cmd.mayYield (.saveNameservers "alpha.com" ["ns1.example.net", "ns2.example.net"])
          (.errMsg ⟨"save failed"⟩) = true
      ∧ (nsSaving.Update refLib refTea (.errMsg ⟨"save failed"⟩)).map
          (fun r => (r.1.nameserversView.err, r.1.err))
          = some (some ⟨"save failed"⟩, some ⟨"save failed"⟩)
      ∧ (nsSaving.after (.errMsg ⟨"save failed"⟩)).statusBar plainStyles = "Error: save failed"
      ∧ ((nsSaving.after (.errMsg ⟨"save failed"⟩)).after (.KeyMsg ⟨"esc"⟩)).view = .ViewDomains
      ∧ ((nsSaving.after (.errMsg ⟨"save failed"⟩)).after (.KeyMsg ⟨"esc"⟩)).statusBar plainStyles
          = "Error: save failed" := by
  decide

/-- C22 (amended). When an `errMsg` is handled, the error is stored in the
global error of the controller, in every view; when the current view is DNS,
Nameservers or Availability it is stored in the error field of that view too
(and the name server view leaves its saving state), while the error fields of
the two other views stay. The status bar of the new state shows the error. -/
theorem failure_recorded_in_view_and_globally (L : GoLib) (T : TeaLib) (S : Styles) (a : App)
    (e : GoError) :
    ∃ r, a.Update L T (.errMsg e) = some r
      ∧ r.1.err = some e
      ∧ r.1.view = a.view
      ∧ r.1.statusBar S = S.statusBarStyle a.width (S.errorStyle ("Error: " ++ e.text))
      ∧ (a.view = .ViewDNS →
          r.1.dnsView.err = some e ∧ r.1.nameserversView = a.nameserversView
            ∧ r.1.availabilityView = a.availabilityView)
      ∧ (a.view = .ViewNameservers →
          r.1.nameserversView.err = some e ∧ r.1.nameserversView.saving = false
            ∧ r.1.dnsView = a.dnsView ∧ r.1.availabilityView = a.availabilityView)
      ∧ (a.view = .ViewAvailability →
          r.1.availabilityView.err = some e ∧ r.1.dnsView = a.dnsView
            ∧ r.1.nameserversView = a.nameserversView)
      ∧ (a.view.needsRegistrar = false →
          r.1.dnsView = a.dnsView ∧ r.1.nameserversView = a.nameserversView
            ∧ r.1.availabilityView = a.availabilityView) := by
  refine ⟨(a.failed e, []), rfl, ?_⟩
  cases hv : a.view <;>
    simp [App.failed, App.statusBar, hv, View.needsRegistrar, DNSView.SetError,
      NameserversView.SetError, AvailabilityView.SetError]

/-- C22 (amended) at `dnsPending`, the DNS view of `alpha.com`, with a failure
of the DNS fetch. -/
theorem failure_recorded_in_view_and_globally_witness :
    dnsPending.view = .ViewDNS
      ∧ ∃ r, dnsPending.Update refLib refTea (.errMsg ⟨"timeout"⟩) = some r
          ∧ r.1.err = some ⟨"timeout"⟩ ∧ r.1.dnsView.err = some ⟨"timeout"⟩ := by
  obtain ⟨r, h1, h2, -, -, h5, -⟩ :=
    failure_recorded_in_view_and_globally refLib refTea plainStyles dnsPending ⟨"timeout"⟩
  exact ⟨by decide, r, h1, h2, (h5 (by decide)).1⟩

/-- C25. `AvailabilityView.SetResult` on a history of at most ten entries: a
result that is not nil goes to the front, followed by the first
`min (len h) 9` entries of the history in their order, so the new length is
`min (len h + 1) 10`; a nil result leaves the history as it is. -/
theorem setResult_history (v : AvailabilityView) (r : AvailabilityResult)
    (h : v.results.length ≤ 10) :
    (v.SetResult (some r)).results = r :: v.results.take (min v.results.length 9)
      ∧ (v.SetResult (some r)).results.length = min (v.results.length + 1) 10
      ∧ (v.SetResult (some r)).results.length ≤ 10
      ∧ (v.SetResult none).results = v.results := by
  have hres : (v.SetResult (some r)).results = r :: v.results.take (min v.results.length 9) := by
    simp only [AvailabilityView.SetResult, List.length_cons]
    split_ifs with h1
    · have h9 : min v.results.length 9 = 9 := by omega
      rw [h9]
      rfl
    · have h9 : min v.results.length 9 = v.results.length := by omega
      rw [h9, List.take_length]
  refine ⟨hres, ?_, ?_, rfl⟩
  · rw [hres]
    simp only [List.length_cons, List.length_take]
    omega
  · rw [hres]
    simp only [List.length_cons, List.length_take]
    omega

/-- C25 at `fullHistory`: the new result comes first, `d0` to `d8` follow, and
`d9` is dropped. -/
theorem setResult_history_witness :
    fullHistory.results.length ≤ 10
      ∧ (fullHistory.SetResult (some (takenResult "new"))).results.map (fun x => x.Domain)
          = ["new", "d0", "d1", "d2", "d3", "d4", "d5", "d6", "d7", "d8"] := by
  have h := setResult_history fullHistory (takenResult "new") (by decide)
  refine ⟨by decide, ?_⟩
  rw [h.1]
  decide

/-- C26. `config.Load` as a function of the two environment values and of the
file configuration `fileConfig` (none when there is no readable file): each
credential is the environment value when that is not empty, else the file
value (empty without a file); `Load` fails, with its one error, exactly when
one of the two merged credentials is empty, and else returns the merged pair.
When both environment values are not empty the result is the two values,
whatever the file holds. -/
theorem load_merges_env_over_file (H : Host) :
    Load H =
        (if (if H.getenv "PORKBUN_API_KEY" ≠ "" then H.getenv "PORKBUN_API_KEY"
              else ((fileConfig H).map (fun c => c.APIKey)).getD "") = ""
            ∨ (if H.getenv "PORKBUN_SECRET_KEY" ≠ "" then H.getenv "PORKBUN_SECRET_KEY"
              else ((fileConfig H).map (fun c => c.SecretKey)).getD "") = ""
          then .error missingCredentials
          else .ok
            { APIKey :=
                if H.getenv "PORKBUN_API_KEY" ≠ "" then H.getenv "PORKBUN_API_KEY"
                else ((fileConfig H).map (fun c => c.APIKey)).getD ""
              SecretKey :=
                if H.getenv "PORKBUN_SECRET_KEY" ≠ "" then H.getenv "PORKBUN_SECRET_KEY"
                else ((fileConfig H).map (fun c => c.SecretKey)).getD "" })
      ∧ (H.getenv "PORKBUN_API_KEY" ≠ "" → H.getenv "PORKBUN_SECRET_KEY" ≠ "" →
          Load H = .ok ⟨H.getenv "PORKBUN_API_KEY", H.getenv "PORKBUN_SECRET_KEY"⟩) := by
  constructor
  · unfold Load fileConfig
    by_cases hk : H.getenv "PORKBUN_API_KEY" = "" <;>
      by_cases hs : H.getenv "PORKBUN_SECRET_KEY" = "" <;>
      by_cases hp : getConfigPath H = "" <;>
      cases hf : loadFromFile H (getConfigPath H) <;>
      simp [hk, hs, hp, hf]
  · intro hk hs
    simp [Load, hk, hs]

/-- C26 on three hosts: both values in the environment and other values in
the file; only the API key in the environment and no file; only the API key
in the environment and a file with both values. -/
theorem load_merges_env_over_file_witness :
    Load (hostOf "pk1_from_env" "sk1_from_env" (some ⟨"pk1_from_file", "sk1_from_file"⟩))
        = .ok ⟨"pk1_from_env", "sk1_from_env"⟩
      ∧ Load (hostOf "pk1_test" "" none) = .error missingCredentials
      ∧ Load (hostOf "pk1_test" "" (some ⟨"pk1_from_file", "sk1_from_file"⟩))
        = .ok ⟨"pk1_test", "sk1_from_file"⟩ :=
  ⟨(load_merges_env_over_file
      (hostOf "pk1_from_env" "sk1_from_env" (some ⟨"pk1_from_file", "sk1_from_file"⟩))).2
      (by decide) (by decide),
    rfl, rfl⟩

/-! ## The name server view -/

/-- An index inside the slice can be changed in place. -/
theorem sliceModify_of_lt {α : Type} (s : List α) (i : Int) (f : α → α) (h0 : 0 ≤ i)
    (h1 : i < s.length) : ∃ s2, sliceModify s i f = some s2 ∧ s2.length = s.length := by
  have hlt : i.toNat < s.length := by omega
  refine ⟨s.set i.toNat (f (s.get ⟨i.toNat, hlt⟩)), ?_, by simp⟩
  simp only [sliceModify, sliceAt, if_neg (not_lt.mpr h0), List.get?_eq_get hlt, Option.map_some']

/-- The result of `sliceModify` has the length of the slice. -/
theorem sliceModify_length {α : Type} (s s2 : List α) (i : Int) (f : α → α)
    (h : sliceModify s i f = some s2) : s2.length = s.length := by
  simp only [sliceModify, Option.map_eq_some'] at h
  obtain ⟨x, -, rfl⟩ := h
  simp

/-- On a slice without elements every index access panics. -/
theorem sliceModify_nil {α : Type} (i : Int) (f : α → α) : sliceModify ([] : List α) i f = none := by
  simp [sliceModify, sliceAt]

/-- Before the inputs exist, the key `e` in view mode and the key `enter` in
preset mode make `NameserversView.Update` panic, with any runtime. -/
theorem nameservers_update_panics (T : TeaLib) (v : NameserversView) (h : v.inputs = []) :
    (v.mode = .NSViewModeView → v.Update T (.KeyMsg ⟨"e"⟩) = none)
      ∧ (v.mode = .NSViewModePreset → v.Update T (.KeyMsg ⟨"enter"⟩) = none) := by
  constructor
  · intro hm
    simp [NameserversView.Update, hm, NameserversView.updateView, h, sliceModify_nil]
  · intro hm
    have h1 : key.Matches ⟨"enter"⟩ Keys.Back = false := by decide
    have h2 : key.Matches ⟨"enter"⟩ Keys.Up = false := by decide
    have h3 : key.Matches ⟨"enter"⟩ Keys.Down = false := by decide
    have h4 : key.Matches ⟨"enter"⟩ Keys.Enter = true := by decide
    simp [NameserversView.Update, hm, NameserversView.updatePreset, h, h1, h2, h3, h4,
      sliceModify_nil]

/-- Once the inputs exist, `NameserversView.Update` handles every message
without a panic and keeps them in place. -/
theorem nameservers_update_ready (T : TeaLib) (v : NameserversView) (msg : Msg)
    (h : v.Ready) : ∃ r, v.Update T msg = some r ∧ r.1.Ready := by
  obtain ⟨hlen, hc0, hc4, hp0, hp3⟩ := h
  have hcur : ∀ f, ∃ s2, sliceModify v.inputs v.cursor f = some s2 ∧ s2.length = 4 := by
    intro f
    obtain ⟨s2, h1, h2⟩ := sliceModify_of_lt v.inputs v.cursor f hc0 (by rw [hlen]; exact_mod_cast hc4)
    exact ⟨s2, h1, by rw [h2, hlen]⟩
  have hmove : ∀ next : Int → Int → Int, (0 ≤ next v.cursor 4 ∧ next v.cursor 4 < 4) →
      ∃ r, v.moveTo next = some r ∧ r.1.Ready := by
    intro next hn
    obtain ⟨s2, h1, h2⟩ := hcur TextInput.Blur
    obtain ⟨s3, h3, h4⟩ := sliceModify_of_lt s2 (next v.cursor 4) TextInput.Focus hn.1
      (by rw [h2]; exact_mod_cast hn.2)
    refine ⟨({ v with inputs := s3, cursor := next v.cursor 4 }, [Cmd.Blink]), ?_, ?_⟩
    · simp [NameserversView.moveTo, h1, h2, h3]
    · exact ⟨by rw [h4, h2], hn.1, hn.2, hp0, hp3⟩
  have htype : ∃ r, v.typeInInput T msg = some r ∧ r.1.Ready := by
    obtain ⟨s2, h1, h2⟩ := hcur (fun ti => (T.textinputUpdate ti msg).1)
    exact ⟨({ v with inputs := s2 }, []), by simp [NameserversView.typeInInput, h1],
      ⟨h2, hc0, hc4, hp0, hp3⟩⟩
  have hnext : 0 ≤ Int.tmod (v.cursor + 1) 4 ∧ Int.tmod (v.cursor + 1) 4 < 4 := by
    have : v.cursor = 0 ∨ v.cursor = 1 ∨ v.cursor = 2 ∨ v.cursor = 3 := by omega
    rcases this with h | h | h | h <;> rw [h] <;> decide
  have hprev : 0 ≤ Int.tmod (v.cursor - 1 + 4) 4 ∧ Int.tmod (v.cursor - 1 + 4) 4 < 4 := by
    have : v.cursor = 0 ∨ v.cursor = 1 ∨ v.cursor = 2 ∨ v.cursor = 3 := by omega
    rcases this with h | h | h | h <;> rw [h] <;> decide
  unfold NameserversView.Update
  split
  · -- edit mode
    unfold NameserversView.updateEdit
    split
    · split_ifs
      · obtain ⟨s2, h1, h2⟩ := hcur TextInput.Blur
        exact ⟨({ v with mode := .NSViewModeView, inputs := s2 }, []), by simp [h1],
          ⟨h2, hc0, hc4, hp0, hp3⟩⟩
      · exact hmove _ hnext
      · exact hmove _ hprev
      · exact ⟨_, rfl, ⟨hlen, hc0, hc4, hp0, hp3⟩⟩
      · exact htype
    · exact htype
  · -- preset mode
    unfold NameserversView.updatePreset
    split
    · split_ifs
      · exact ⟨_, rfl, ⟨hlen, hc0, hc4, hp0, hp3⟩⟩
      · exact ⟨_, rfl, ⟨hlen, hc0, hc4, by show 0 ≤ v.presetIdx - 1; omega,
          by show v.presetIdx - 1 < 3; omega⟩⟩
      · exact ⟨_, rfl, ⟨hlen, hc0, hc4, hp0, hp3⟩⟩
      · rename_i hlt
        have hlt2 : v.presetIdx < 2 := by
          have : (NSPresets.length : Int) = 3 := by decide
          omega
        exact ⟨_, rfl, ⟨hlen, hc0, hc4, by show 0 ≤ v.presetIdx + 1; omega,
          by show v.presetIdx + 1 < 3; omega⟩⟩
      · exact ⟨_, rfl, ⟨hlen, hc0, hc4, hp0, hp3⟩⟩
      · have hpre : ∃ p, sliceAt NSPresets v.presetIdx = some p := by
          have : v.presetIdx = 0 ∨ v.presetIdx = 1 ∨ v.presetIdx = 2 := by omega
          rcases this with h | h | h <;> rw [h] <;> exact ⟨_, rfl⟩
        obtain ⟨p, hp⟩ := hpre
        obtain ⟨s2, h1, h2⟩ := sliceModify_of_lt
          (v.inputs.mapIdx (fun i ti =>
            T.textinputSetValue ti (if i < p.NS.length then p.NS.getD i "" else "")))
          0 TextInput.Focus (le_refl 0) (by simp [hlen])
        refine ⟨({ v with inputs := s2, mode := .NSViewModeEdit }, [Cmd.Blink]), ?_, ?_⟩
        · rw [hp]
          show Option.map _ (sliceModify _ 0 TextInput.Focus) = _
          rw [h1]
          rfl
        · refine ⟨?_, hc0, hc4, hp0, hp3⟩
          rw [h2]
          simp [hlen]
      · exact ⟨_, rfl, ⟨hlen, hc0, hc4, hp0, hp3⟩⟩
    · exact ⟨_, rfl, ⟨hlen, hc0, hc4, hp0, hp3⟩⟩
  · -- view mode
    unfold NameserversView.updateView
    split
    · split_ifs
      · obtain ⟨s2, h1, h2⟩ := sliceModify_of_lt v.inputs 0 TextInput.Focus (le_refl 0)
          (by rw [hlen]; decide)
        exact ⟨({ v with mode := .NSViewModeEdit, inputs := s2 }, [Cmd.Blink]), by simp [h1],
          ⟨by rw [h2, hlen], hc0, hc4, hp0, hp3⟩⟩
      · exact ⟨_, rfl, ⟨hlen, hc0, hc4, le_refl 0, by show (0 : Int) < 3; decide⟩⟩
      · exact ⟨_, rfl, ⟨hlen, hc0, hc4, hp0, hp3⟩⟩
    · exact ⟨_, rfl, ⟨hlen, hc0, hc4, hp0, hp3⟩⟩

/-- The view `SetNameservers` leaves has its inputs, when the preset index is
inside `NSPresets`. -/
theorem setNameservers_ready (T : TeaLib) (v : NameserversView) (ns : List String)
    (hp : 0 ≤ v.presetIdx ∧ v.presetIdx < 3) : (v.SetNameservers T ns).Ready :=
  ⟨by simp [NameserversView.SetNameservers, NameserversView.initInputs], le_refl 0,
    by show (0 : Int) < 4; decide, hp.1, hp.2⟩

/-- A key other than `ctrl+s` does not start a save in the name server view,
and the only command the view asks for is `textinput.Blink`. -/
theorem nameservers_update_saving (T : TeaLib) (v : NameserversView) (k : KeyMsg)
    (r : NameserversView × List Cmd) (h : v.Update T (.KeyMsg k) = some r)
    (hk : k.text ≠ "ctrl+s") : r.1.saving = v.saving ∧ ∀ c ∈ r.2, c = Cmd.Blink := by
  unfold NameserversView.Update at h
  split at h
  · simp only [NameserversView.updateEdit] at h
    split_ifs at h
    · simp only [Option.map_eq_some'] at h
      obtain ⟨x, -, rfl⟩ := h
      exact ⟨rfl, by simp⟩
    · simp only [NameserversView.moveTo, Option.bind_eq_some, Option.map_eq_some'] at h
      obtain ⟨x, -, y, -, rfl⟩ := h
      exact ⟨rfl, by simp⟩
    · simp only [NameserversView.moveTo, Option.bind_eq_some, Option.map_eq_some'] at h
      obtain ⟨x, -, y, -, rfl⟩ := h
      exact ⟨rfl, by simp⟩
    · simp only [NameserversView.typeInInput, Option.map_eq_some'] at h
      obtain ⟨x, -, rfl⟩ := h
      exact ⟨rfl, by simp⟩
  · simp only [NameserversView.updatePreset] at h
    split_ifs at h
    all_goals first
      | (cases h; exact ⟨rfl, by simp⟩)
      | (simp only [Option.bind_eq_some, Option.map_eq_some'] at h
         obtain ⟨x, -, y, -, rfl⟩ := h
         exact ⟨rfl, by simp⟩)
  · simp only [NameserversView.updateView] at h
    split_ifs at h
    all_goals first
      | (cases h; exact ⟨rfl, by simp⟩)
      | (simp only [Option.map_eq_some'] at h
         obtain ⟨x, -, rfl⟩ := h
         exact ⟨rfl, by simp⟩)

/-- While no save is in progress, a key other than `ctrl+s` makes
`updateNameservers` return no save task. -/
theorem updateNameservers_idle (T : TeaLib) (a : App) (k : KeyMsg) (r : App × List Cmd)
    (h : a.updateNameservers T k = some r) (hs : a.nameserversView.saving = false)
    (hk : k.text ≠ "ctrl+s") : ∀ c ∈ r.2, ∀ d ns, c ≠ Cmd.saveNameservers d ns := by
  unfold App.updateNameservers at h
  split_ifs at h with h1 h2
  · cases h
    intro c hc
    simp at hc
  · exact absurd h2.1 hk
  · simp only [Option.map_eq_some'] at h
    obtain ⟨x, hx, rfl⟩ := h
    obtain ⟨hsav, hcmd⟩ := nameservers_update_saving T _ k x hx hk
    have hx1 : x.1.IsSaving = false := by
      simp only [NameserversView.IsSaving, hsav, hs]
    intro c hc d ns hcd
    simp only [hx1] at hc
    have := hcmd c (by simpa using hc)
    rw [this] at hcd
    cases hcd

/-- C29 (the code at the failing input). After `NewNameserversView` and
`SetDomain` the slice `inputs` has no element. The key `e` then makes
`NameserversView.Update` read `inputs[0]`, a panic; so does the key `enter`
after the key `p`, and the key `e` after the load failed. In the controller:
the key `n` on the domain list opens the view, and the key `e` pressed before
the name servers have arrived ends `App.Update` with that panic. -/
theorem nameservers_edit_before_load_panics :
    (NewNameserversView.SetDomain "alpha.com").inputs = []
      ∧ (NewNameserversView.SetDomain "alpha.com").Update refTea (.KeyMsg ⟨"e"⟩) = none
      ∧ ((NewNameserversView.SetDomain "alpha.com").Update refTea (.KeyMsg ⟨"p"⟩)).map
          (fun r => (r.1.mode, r.1.Update refTea (.KeyMsg ⟨"enter"⟩)))
          = some (.NSViewModePreset, none)
      ∧ ((NewNameserversView.SetDomain "alpha.com").SetError ⟨"load failed"⟩).Update refTea
          (.KeyMsg ⟨"e"⟩) = none
      ∧ cachedApp.Update refLib refTea (.KeyMsg ⟨"n"⟩)
          = some (nsOpened, [Cmd.loadNameservers "alpha.com"])
      ∧ nsOpened.Update refLib refTea (.KeyMsg ⟨"e"⟩) = none := by
  decide

/-- C30 (the code at the failing input). In `nsEditing` no save is in progress;
the key `ctrl+s` starts one and returns one save task. While that save is in
progress the key `x`, which is typed into the first input, makes
`App.Update` return a save task again. -/
theorem key_during_save_spawns_save :
    nsEditing.view = .ViewNameservers ∧ nsEditing.nameserversView.saving = false
      ∧ nsEditing.Update refLib refTea (.KeyMsg ⟨"ctrl+s"⟩)
          = some (nsSaving,
              [Cmd.saveNameservers "alpha.com" ["ns1.example.net", "ns2.example.net"]])
      ∧ nsSaving.nameserversView.saving = true
      ∧ (⟨"x"⟩ : KeyMsg).text ≠ "ctrl+s"
      ∧ (nsSaving.Update refLib refTea (.KeyMsg ⟨"x"⟩)).map Prod.snd
          = some [Cmd.saveNameservers "alpha.com" ["ns1.example.netx", "ns2.example.net"]]
      ∧ nsSaving.updateNameservers refTea ⟨"x"⟩
          = nsSaving.Update refLib refTea (.KeyMsg ⟨"x"⟩) := by
  decide

/-! ## The calendar and the cost breakdown as one viewport -/

/-- A map read after a map write. -/
theorem GoMap.get?_set {V : Type} (m : GoMap V) (k k' : String) (x : V) :
    GoMap.get? (GoMap.set m k x) k' = if k = k' then some x else GoMap.get? m k' := by
  induction m with
  | nil =>
    simp only [GoMap.set, GoMap.get?]
  | cons e m ih =>
    obtain ⟨k0, y⟩ := e
    simp only [GoMap.set]
    by_cases h : k0 = k
    · subst h
      simp only [if_true, GoMap.get?]
      split_ifs <;> rfl
    · simp only [if_neg h, GoMap.get?, ih]
      by_cases h2 : k0 = k'
      · have h3 : ¬ k = k' := fun h3 => h (h2.trans h3.symm)
        simp only [if_pos h2, if_neg h3]
      · simp only [if_neg h2]

/-- `adjustOffset` of the calendar changes the offset only. -/
theorem calendar_adjustOffset_fields (v : CalendarView) :
    v.adjustOffset.groups = v.groups ∧ v.adjustOffset.cursor = v.cursor
      ∧ v.adjustOffset.height = v.height := by
  unfold CalendarView.adjustOffset
  simp only []
  split_ifs <;> exact ⟨rfl, rfl, rfl⟩

/-- `adjustOffset` of the cost breakdown changes the offset only. -/
theorem tld_adjustOffset_fields (v : TLDView) :
    v.adjustOffset.groups = v.groups ∧ v.adjustOffset.cursor = v.cursor
      ∧ v.adjustOffset.height = v.height ∧ v.adjustOffset.expanded = v.expanded := by
  unfold TLDView.adjustOffset
  simp only []
  split_ifs <;> exact ⟨rfl, rfl, rfl, rfl⟩

/-- Two views that agree have the same line count per group. -/
theorem viewsAgree_lines (c : CalendarView) (t : TLDView) (h : ViewsAgree c t) :
    c.groups.map MonthGroup.lines = t.groups.map t.linesOf := by
  have h4 := h.2.2.2.1
  have hc : c.groups.map MonthGroup.lines
      = (c.groups.map (fun g => (g.Domains.length, g.Expanded))).map
          (fun p => if p.2 then 1 + (p.1 : Int) else 1) := by
    rw [List.map_map]
    rfl
  have ht : t.groups.map t.linesOf
      = (t.groups.map (fun g => (g.Domains.length, t.isExpanded g.TLD))).map
          (fun p => if p.2 then 1 + (p.1 : Int) else 1) := by
    rw [List.map_map]
    rfl
  rw [hc, ht, h4]

/-- Two views that agree compute the same two line numbers. -/
theorem viewsAgree_lineNumbers (c : CalendarView) (t : TLDView) (h : ViewsAgree c t) :
    c.getLineForCursor = t.getLineForCursor ∧ c.getTotalLines = t.getTotalLines := by
  have hl := viewsAgree_lines c t h
  constructor
  · rw [calendar_getLineForCursor_eq, tld_getLineForCursor_eq, List.map_take, List.map_take,
      h.1, hl]
  · rw [calendar_getTotalLines_eq, tld_getTotalLines_eq, hl]

/-- Agreement is kept by `adjustOffset`. -/
theorem viewsAgree_adjustOffset (c : CalendarView) (t : TLDView) (h : ViewsAgree c t) :
    ViewsAgree c.adjustOffset t.adjustOffset := by
  obtain ⟨hline, htotal⟩ := viewsAgree_lineNumbers c t h
  obtain ⟨hcg, hcc, hch⟩ := calendar_adjustOffset_fields c
  obtain ⟨htg, htc, hth, hte⟩ := tld_adjustOffset_fields t
  obtain ⟨h1, h2, h3, h4, h5⟩ := h
  refine ⟨by rw [hcc, htc, h1], ?_, by rw [hch, hth, h3], ?_, by rw [htg]; exact h5⟩
  · rw [calendar_adjustOffset_offset, tld_adjustOffset_offset, hline, htotal, h2, h3]
  · rw [hcg, htg]
    simp only [TLDView.isExpanded, hte]
    exact h4

/-- The toggle of the calendar at position `i` and the map write of the cost
breakdown under the label at position `i` give the same flags. -/
theorem toggle_agree (e : GoMap Bool) :
    ∀ (cg : List MonthGroup) (tg : List TLDGroup) (i : Nat) (tld : String),
      cg.map (fun g => (g.Domains.length, g.Expanded))
          = tg.map (fun g => (g.Domains.length, (e.get? g.TLD).getD false)) →
      (tg.map (fun g => g.TLD)).Nodup →
      (tg.get? i).map (fun g => g.TLD) = some tld →
      (CalendarView.toggleAt cg i).map (fun g => (g.Domains.length, g.Expanded))
          = tg.map (fun g => (g.Domains.length,
              ((e.set tld (!(e.get? tld).getD false)).get? g.TLD).getD false)) := by
  intro cg
  induction cg with
  | nil =>
    intro tg i tld h1 _ h3
    cases tg with
    | nil => simp at h3
    | cons t ts => simp at h1
  | cons c cs ih =>
    intro tg i tld h1 h2 h3
    cases tg with
    | nil => simp at h1
    | cons t ts =>
      simp only [List.map_cons, List.cons.injEq, Prod.mk.injEq] at h1
      obtain ⟨⟨hlen, hexp⟩, htail⟩ := h1
      simp only [List.map_cons, List.nodup_cons, List.mem_map, not_exists, not_and] at h2
      obtain ⟨hnot, hnd⟩ := h2
      cases i with
      | zero =>
        simp only [List.get?_cons_zero, Option.map_some', Option.some.injEq] at h3
        subst h3
        simp only [CalendarView.toggleAt, List.map_cons, List.cons.injEq, Prod.mk.injEq]
        refine ⟨⟨hlen, ?_⟩, ?_⟩
        · rw [GoMap.get?_set, if_pos rfl, hexp]
          rfl
        · rw [htail]
          apply List.map_congr_left
          intro g hg
          have hne : ¬ t.TLD = g.TLD := fun h => hnot g hg h.symm
          rw [GoMap.get?_set, if_neg hne]
      | succ j =>
        simp only [List.get?_cons_succ] at h3
        have hmem : tld ∈ ts.map (fun g => g.TLD) := by
          cases hj : ts.get? j with
          | none => rw [hj] at h3; simp at h3
          | some g =>
            rw [hj] at h3
            simp only [Option.map_some', Option.some.injEq] at h3
            rw [← h3]
            exact List.mem_map_of_mem _ (List.get?_mem hj)
        have hne : ¬ tld = t.TLD := by
          intro h
          obtain ⟨g, hg, hgt⟩ := List.mem_map.mp hmem
          exact hnot g hg (hgt.trans h)
        simp only [CalendarView.toggleAt, List.map_cons, List.cons.injEq, Prod.mk.injEq]
        refine ⟨⟨hlen, ?_⟩, ih ts j tld htail hnd h3⟩
        rw [GoMap.get?_set, if_neg hne, hexp]

/-- Agreement is kept by `Update` on the same key. -/
theorem viewsAgree_update (c : CalendarView) (t : TLDView) (k : KeyMsg) (h : ViewsAgree c t) :
    ViewsAgree (c.Update (.KeyMsg k)) (t.Update (.KeyMsg k)) := by
  have hlen : c.groups.length = t.groups.length := by
    have := congrArg List.length h.2.2.2.1
    simpa using this
  obtain ⟨h1, h2, h3, h4, h5⟩ := h
  simp only [CalendarView.Update, TLDView.Update]
  by_cases hu : key.Matches k Keys.Up = true
  · simp only [hu, if_true]
    by_cases hc : c.cursor > 0
    · rw [if_pos hc, if_pos (h1 ▸ hc)]
      exact viewsAgree_adjustOffset _ _ ⟨by show c.cursor - 1 = t.cursor - 1; rw [h1], h2, h3, h4, h5⟩
    · rw [if_neg hc, if_neg (h1 ▸ hc)]
      exact ⟨h1, h2, h3, h4, h5⟩
  · simp only [hu, Bool.false_eq_true, if_false]
    by_cases hd : key.Matches k Keys.Down = true
    · simp only [hd, if_true]
      by_cases hc : c.cursor < (c.groups.length : Int) - 1
      · rw [if_pos hc, if_pos (by rw [← h1, ← hlen]; exact hc)]
        exact viewsAgree_adjustOffset _ _
          ⟨by show c.cursor + 1 = t.cursor + 1; rw [h1], h2, h3, h4, h5⟩
      · rw [if_neg hc, if_neg (by rw [← h1, ← hlen]; exact hc)]
        exact ⟨h1, h2, h3, h4, h5⟩
    · simp only [hd, Bool.false_eq_true, if_false]
      by_cases he : key.Matches k Keys.Enter = true
      · simp only [he, if_true]
        by_cases hc : c.cursor < (c.groups.length : Int) ∧ 0 ≤ c.cursor
        · have ht : t.cursor < (t.groups.length : Int) ∧ 0 ≤ t.cursor := by
            rw [← h1, ← hlen]; exact hc
          rw [if_pos hc, if_pos ht]
          have hlt : t.cursor.toNat < t.groups.length := by omega
          have hget : t.groups.get? t.cursor.toNat = some (t.groups.get ⟨t.cursor.toNat, hlt⟩) :=
            List.get?_eq_get hlt
          have htld : t.cursorTLD = some (t.groups.get ⟨t.cursor.toNat, hlt⟩).TLD := by
            simp only [TLDView.cursorTLD, hget, Option.map_some']
          rw [htld]
          apply viewsAgree_adjustOffset
          refine ⟨h1, h2, h3, ?_, h5⟩
          have := toggle_agree t.expanded c.groups t.groups t.cursor.toNat
            (t.groups.get ⟨t.cursor.toNat, hlt⟩).TLD h4 h5 (by rw [hget]; rfl)
          have hcur : c.cursor.toNat = t.cursor.toNat := by rw [h1]
          show List.map _ (CalendarView.toggleAt c.groups c.cursor.toNat) = _
          rw [hcur]
          exact this
        · have ht : ¬ (t.cursor < (t.groups.length : Int) ∧ 0 ≤ t.cursor) := by
            rw [← h1, ← hlen]; exact hc
          rw [if_neg hc, if_neg ht]
          exact ⟨h1, h2, h3, h4, h5⟩
      · simp only [he, Bool.false_eq_true, if_false]
        exact ⟨h1, h2, h3, h4, h5⟩

/-- C27. A calendar view and a cost breakdown that show the same viewport (the
same cursor, offset and height, groups with the same sizes and expansion flags
position by position, pairwise distinct TLD labels) compute the same
`getLineForCursor` and the same `getTotalLines`, and after `Update` on the same
key they have the same cursor, the same offset and the same expansion flag for
every group, and show the same viewport again. -/
theorem viewport_refinement (c : CalendarView) (t : TLDView) (h : ViewsAgree c t) :
    c.getLineForCursor = t.getLineForCursor
      ∧ c.getTotalLines = t.getTotalLines
      ∧ ∀ k : KeyMsg,
          (c.Update (.KeyMsg k)).cursor = (t.Update (.KeyMsg k)).cursor
            ∧ (c.Update (.KeyMsg k)).offset = (t.Update (.KeyMsg k)).offset
            ∧ (c.Update (.KeyMsg k)).groups.map (fun g => g.Expanded)
                = (t.Update (.KeyMsg k)).groups.map
                    (fun g => (t.Update (.KeyMsg k)).isExpanded g.TLD)
            ∧ ViewsAgree (c.Update (.KeyMsg k)) (t.Update (.KeyMsg k)) := by
  obtain ⟨hl, ht⟩ := viewsAgree_lineNumbers c t h
  refine ⟨hl, ht, ?_⟩
  intro k
  have hu := viewsAgree_update c t k h
  refine ⟨hu.1, hu.2.1, ?_, hu⟩
  have := congrArg (List.map Prod.snd) hu.2.2.2.1
  simpa [List.map_map, Function.comp_def] using this

/-- C27 at `freshCalendar` and `freshTLD`: the key `down` moves both cursors to
the second group and both offsets to line 3, and the key `enter` then expands
the second group in both. -/
theorem viewport_refinement_witness :
    ViewsAgree freshCalendar freshTLD
      ∧ (freshCalendar.Update (.KeyMsg ⟨"down"⟩)).offset = 3
      ∧ (freshTLD.Update (.KeyMsg ⟨"down"⟩)).offset = 3
      ∧ ((freshCalendar.Update (.KeyMsg ⟨"down"⟩)).Update (.KeyMsg ⟨"enter"⟩)).groups.map
            (fun g => g.Expanded)
          = ((freshTLD.Update (.KeyMsg ⟨"down"⟩)).Update (.KeyMsg ⟨"enter"⟩)).groups.map
              (fun g => ((freshTLD.Update (.KeyMsg ⟨"down"⟩)).Update
                (.KeyMsg ⟨"enter"⟩)).isExpanded g.TLD) :=
  have h : ViewsAgree freshCalendar freshTLD :=
    ⟨by decide, by decide, by decide, by decide, by decide⟩
  have h2 := ((viewport_refinement freshCalendar freshTLD h).2.2 ⟨"down"⟩).2.2.2
  ⟨h, by decide, by decide,
    ((viewport_refinement _ _ h2).2.2 ⟨"enter"⟩).2.2.1⟩

/-! ## The header line of the cursor stays in the viewport -/

/-- The toggle keeps the number of groups. -/
theorem toggleAt_length : ∀ (gs : List MonthGroup) (i : Nat),
    (CalendarView.toggleAt gs i).length = gs.length
  | [], _ => rfl
  | _ :: _, 0 => rfl
  | g :: gs, i + 1 => by
    simp only [CalendarView.toggleAt, List.length_cons, toggleAt_length gs i]

/-- `adjustOffset` of the calendar keeps the header line of the cursor. -/
theorem calendar_adjustOffset_line (v : CalendarView) :
    v.adjustOffset.getLineForCursor = v.getLineForCursor := by
  obtain ⟨hg, hc, -⟩ := calendar_adjustOffset_fields v
  simp only [CalendarView.getLineForCursor, hg, hc]

/-- `adjustOffset` of the cost breakdown keeps the header line of the cursor. -/
theorem tld_adjustOffset_line (v : TLDView) :
    v.adjustOffset.getLineForCursor = v.getLineForCursor := by
  obtain ⟨hg, hc, -, he⟩ := tld_adjustOffset_fields v
  have hl : v.adjustOffset.linesOf = v.linesOf := by
    funext g
    simp only [TLDView.linesOf, TLDView.isExpanded, he]
  rw [tld_getLineForCursor_eq, tld_getLineForCursor_eq, hg, hc, hl]

/-- After `adjustOffset` of the calendar, with a viewport of at least one line
and a valid cursor, the header line of the cursor is inside the viewport. -/
theorem calendar_adjustOffset_window (v : CalendarView) (hh : 1 ≤ v.height)
    (h0 : 0 ≤ v.cursor) (h1 : v.cursor < (v.groups.length : Int)) :
    v.adjustOffset.offset ≤ v.adjustOffset.getLineForCursor
      ∧ v.adjustOffset.getLineForCursor < v.adjustOffset.offset + v.adjustOffset.height := by
  have hl0 := calendar_getLineForCursor_nonneg v
  have hlt := calendar_line_lt_total v h0 h1
  rw [calendar_adjustOffset_line, (calendar_adjustOffset_fields v).2.2,
    calendar_adjustOffset_offset]
  constructor <;> (split_ifs <;> omega)

/-- After `adjustOffset` of the cost breakdown, with a viewport of at least one
line and a valid cursor, the header line of the cursor is inside the viewport. -/
theorem tld_adjustOffset_window (v : TLDView) (hh : 1 ≤ v.height)
    (h0 : 0 ≤ v.cursor) (h1 : v.cursor < (v.groups.length : Int)) :
    v.adjustOffset.offset ≤ v.adjustOffset.getLineForCursor
      ∧ v.adjustOffset.getLineForCursor < v.adjustOffset.offset + v.adjustOffset.height := by
  have hl0 := tld_getLineForCursor_nonneg v
  have hlt := tld_line_lt_total v h0 h1
  rw [tld_adjustOffset_line, (tld_adjustOffset_fields v).2.2.1, tld_adjustOffset_offset]
  constructor <;> (split_ifs <;> omega)

/-- `Update` of the calendar keeps the cursor in place. -/
theorem calendar_update_cursorOk (v : CalendarView) (msg : Msg)
    (h : CursorOk v.cursor v.groups.length) :
    CursorOk (v.Update msg).cursor (v.Update msg).groups.length := by
  obtain ⟨h0, h1⟩ := h
  unfold CalendarView.Update
  split
  · split_ifs with _ hc _ hc _ hc
    · obtain ⟨hg, hcur, -⟩ := calendar_adjustOffset_fields { v with cursor := v.cursor - 1 }
      rw [hg, hcur]
      exact ⟨by show 0 ≤ v.cursor - 1; omega, Or.inl (by show v.cursor - 1 < (v.groups.length : Int); omega)⟩
    · exact ⟨h0, h1⟩
    · obtain ⟨hg, hcur, -⟩ := calendar_adjustOffset_fields { v with cursor := v.cursor + 1 }
      rw [hg, hcur]
      exact ⟨by show 0 ≤ v.cursor + 1; omega, Or.inl (by show v.cursor + 1 < (v.groups.length : Int); omega)⟩
    · exact ⟨h0, h1⟩
    · obtain ⟨hg, hcur, -⟩ := calendar_adjustOffset_fields
        { v with groups := CalendarView.toggleAt v.groups v.cursor.toNat }
      rw [hg, hcur]
      exact ⟨h0, Or.inl (by show v.cursor < ((CalendarView.toggleAt _ _).length : Int)
                            rw [toggleAt_length]; exact hc.1)⟩
    · exact ⟨h0, h1⟩
    · exact ⟨h0, h1⟩
  · exact ⟨h0, h1⟩

/-- `Update` of the cost breakdown keeps the cursor in place. -/
theorem tld_update_cursorOk (v : TLDView) (msg : Msg)
    (h : CursorOk v.cursor v.groups.length) :
    CursorOk (v.Update msg).cursor (v.Update msg).groups.length := by
  obtain ⟨h0, h1⟩ := h
  unfold TLDView.Update
  split
  · split_ifs with _ hc _ hc _ hc
    · obtain ⟨hg, hcur, -⟩ := tld_adjustOffset_fields { v with cursor := v.cursor - 1 }
      rw [hg, hcur]
      exact ⟨by show 0 ≤ v.cursor - 1; omega, Or.inl (by show v.cursor - 1 < (v.groups.length : Int); omega)⟩
    · exact ⟨h0, h1⟩
    · obtain ⟨hg, hcur, -⟩ := tld_adjustOffset_fields { v with cursor := v.cursor + 1 }
      rw [hg, hcur]
      exact ⟨by show 0 ≤ v.cursor + 1; omega, Or.inl (by show v.cursor + 1 < (v.groups.length : Int); omega)⟩
    · exact ⟨h0, h1⟩
    · split
      · rename_i tld _
        obtain ⟨hg, hcur, -⟩ := tld_adjustOffset_fields
          { v with expanded := v.expanded.set tld (!v.isExpanded tld) }
        rw [hg, hcur]
        exact ⟨h0, h1⟩
      · exact ⟨h0, h1⟩
    · exact ⟨h0, h1⟩
    · exact ⟨h0, h1⟩
  · exact ⟨h0, h1⟩

/-- In every reachable state of the calendar the cursor is in place. -/
theorem calendar_reachable_cursorOk (v : CalendarView) (h : v.Reachable) :
    CursorOk v.cursor v.groups.length := by
  induction h with
  | init => exact ⟨le_refl 0, Or.inr rfl⟩
  | setSize v w hgt _ ih => exact ih
  | setDomains L v ds _ _ => exact ⟨le_refl 0, Or.inr rfl⟩
  | update v msg _ ih => exact calendar_update_cursorOk v msg ih

/-- In every reachable state of the cost breakdown the cursor is in place. -/
theorem tld_reachable_cursorOk (v : TLDView) (h : v.Reachable) :
    CursorOk v.cursor v.groups.length := by
  induction h with
  | init => exact ⟨le_refl 0, Or.inr rfl⟩
  | setSize v w hgt _ ih => exact ih
  | setData L v ds p _ _ => exact ⟨le_refl 0, Or.inr rfl⟩
  | update v msg _ ih => exact tld_update_cursorOk v msg ih

/-- C28. In a reachable state of the calendar view, and of the cost breakdown,
with a viewport of at least one line, an offset that is not negative and at
least one group: after `Update` on a message that changes the cursor or toggles
a group (the groups of the calendar, the `expanded` map of the cost breakdown),
the cursor is a valid group index and the header line of its group is inside
the viewport, `offset ≤ getLineForCursor < offset + height`. -/
theorem header_in_viewport (cv : CalendarView) (tv : TLDView) (msg : Msg)
    (hc : cv.Reachable) (ht : tv.Reachable) :
    (1 ≤ cv.height → 0 ≤ cv.offset → cv.groups ≠ [] →
      ((cv.Update msg).cursor ≠ cv.cursor ∨ (cv.Update msg).groups ≠ cv.groups) →
      0 ≤ (cv.Update msg).cursor
        ∧ (cv.Update msg).cursor < ((cv.Update msg).groups.length : Int)
        ∧ (cv.Update msg).offset ≤ (cv.Update msg).getLineForCursor
        ∧ (cv.Update msg).getLineForCursor < (cv.Update msg).offset + (cv.Update msg).height)
    ∧ (1 ≤ tv.height → 0 ≤ tv.offset → tv.groups ≠ [] →
      ((tv.Update msg).cursor ≠ tv.cursor ∨ (tv.Update msg).expanded ≠ tv.expanded) →
      0 ≤ (tv.Update msg).cursor
        ∧ (tv.Update msg).cursor < ((tv.Update msg).groups.length : Int)
        ∧ (tv.Update msg).offset ≤ (tv.Update msg).getLineForCursor
        ∧ (tv.Update msg).getLineForCursor < (tv.Update msg).offset + (tv.Update msg).height) := by
  constructor
  · intro hh _ hne hchg
    obtain ⟨hc0, hc1⟩ := calendar_reachable_cursorOk cv hc
    have hpos : 0 < cv.groups.length := List.length_pos.mpr hne
    have hcl : cv.cursor < (cv.groups.length : Int) := by
      rcases hc1 with h | h
      · exact h
      · rw [h]; exact_mod_cast hpos
    revert hchg
    unfold CalendarView.Update
    split
    · split_ifs with _ hgt _ hlt _ hin
      · intro _
        obtain ⟨hg, hcur, -⟩ := calendar_adjustOffset_fields { cv with cursor := cv.cursor - 1 }
        have hw := calendar_adjustOffset_window { cv with cursor := cv.cursor - 1 } hh
          (by show 0 ≤ cv.cursor - 1; omega)
          (by show cv.cursor - 1 < (cv.groups.length : Int); omega)
        rw [hg, hcur]
        exact ⟨by show 0 ≤ cv.cursor - 1; omega,
          by show cv.cursor - 1 < (cv.groups.length : Int); omega, hw.1, hw.2⟩
      · intro hchg; exact absurd hchg (by simp)
      · intro _
        obtain ⟨hg, hcur, -⟩ := calendar_adjustOffset_fields { cv with cursor := cv.cursor + 1 }
        have hw := calendar_adjustOffset_window { cv with cursor := cv.cursor + 1 } hh
          (by show 0 ≤ cv.cursor + 1; omega)
          (by show cv.cursor + 1 < (cv.groups.length : Int); omega)
        rw [hg, hcur]
        exact ⟨by show 0 ≤ cv.cursor + 1; omega,
          by show cv.cursor + 1 < (cv.groups.length : Int); omega, hw.1, hw.2⟩
      · intro hchg; exact absurd hchg (by simp)
      · intro _
        obtain ⟨hg, hcur, -⟩ := calendar_adjustOffset_fields
          { cv with groups := CalendarView.toggleAt cv.groups cv.cursor.toNat }
        have hlen : ((CalendarView.toggleAt cv.groups cv.cursor.toNat).length : Int)
            = cv.groups.length := by rw [toggleAt_length]
        have hcl2 : cv.cursor
            < ((CalendarView.toggleAt cv.groups cv.cursor.toNat).length : Int) := by
          rw [hlen]; exact hcl
        have hw := calendar_adjustOffset_window
          { cv with groups := CalendarView.toggleAt cv.groups cv.cursor.toNat } hh hc0 hcl2
        rw [hg, hcur]
        exact ⟨hc0, hcl2, hw.1, hw.2⟩
      · intro hchg; exact absurd hchg (by simp)
      · intro hchg; exact absurd hchg (by simp)
    · intro hchg; exact absurd hchg (by simp)
  · intro hh _ hne hchg
    obtain ⟨hc0, hc1⟩ := tld_reachable_cursorOk tv ht
    have hpos : 0 < tv.groups.length := List.length_pos.mpr hne
    have hcl : tv.cursor < (tv.groups.length : Int) := by
      rcases hc1 with h | h
      · exact h
      · rw [h]; exact_mod_cast hpos
    revert hchg
    unfold TLDView.Update
    split
    · split_ifs with _ hgt _ hlt _ hin
      · intro _
        obtain ⟨hg, hcur, -⟩ := tld_adjustOffset_fields { tv with cursor := tv.cursor - 1 }
        have hw := tld_adjustOffset_window { tv with cursor := tv.cursor - 1 } hh
          (by show 0 ≤ tv.cursor - 1; omega)
          (by show tv.cursor - 1 < (tv.groups.length : Int); omega)
        rw [hg, hcur]
        exact ⟨by show 0 ≤ tv.cursor - 1; omega,
          by show tv.cursor - 1 < (tv.groups.length : Int); omega, hw.1, hw.2⟩
      · intro hchg; exact absurd hchg (by simp)
      · intro _
        obtain ⟨hg, hcur, -⟩ := tld_adjustOffset_fields { tv with cursor := tv.cursor + 1 }
        have hw := tld_adjustOffset_window { tv with cursor := tv.cursor + 1 } hh
          (by show 0 ≤ tv.cursor + 1; omega)
          (by show tv.cursor + 1 < (tv.groups.length : Int); omega)
        rw [hg, hcur]
        exact ⟨by show 0 ≤ tv.cursor + 1; omega,
          by show tv.cursor + 1 < (tv.groups.length : Int); omega, hw.1, hw.2⟩
      · intro hchg; exact absurd hchg (by simp)
      · split
        · rename_i tld _
          intro _
          obtain ⟨hg, hcur, -⟩ := tld_adjustOffset_fields
            { tv with expanded := tv.expanded.set tld (!tv.isExpanded tld) }
          have hw := tld_adjustOffset_window
            { tv with expanded := tv.expanded.set tld (!tv.isExpanded tld) } hh hc0 hcl
          rw [hg, hcur]
          exact ⟨hc0, hcl, hw.1, hw.2⟩
        · intro hchg; exact absurd hchg (by simp)
      · intro hchg; exact absurd hchg (by simp)
      · intro hchg; exact absurd hchg (by simp)
    · intro hchg; exact absurd hchg (by simp)

/-- C28 at `freshCalendar` and `freshTLD` with the key `down`: both cursors
move to the second group, whose header is on line 3, and both one-line
viewports move to that line. -/
theorem header_in_viewport_witness :
    freshCalendar.Reachable ∧ freshTLD.Reachable
      ∧ (freshCalendar.Update (.KeyMsg ⟨"down"⟩)).cursor = 1
      ∧ (0 ≤ (freshCalendar.Update (.KeyMsg ⟨"down"⟩)).cursor
        ∧ (freshCalendar.Update (.KeyMsg ⟨"down"⟩)).cursor
            < ((freshCalendar.Update (.KeyMsg ⟨"down"⟩)).groups.length : Int)
        ∧ (freshCalendar.Update (.KeyMsg ⟨"down"⟩)).offset
            ≤ (freshCalendar.Update (.KeyMsg ⟨"down"⟩)).getLineForCursor
        ∧ (freshCalendar.Update (.KeyMsg ⟨"down"⟩)).getLineForCursor
            < (freshCalendar.Update (.KeyMsg ⟨"down"⟩)).offset
              + (freshCalendar.Update (.KeyMsg ⟨"down"⟩)).height)
      ∧ (0 ≤ (freshTLD.Update (.KeyMsg ⟨"down"⟩)).cursor
        ∧ (freshTLD.Update (.KeyMsg ⟨"down"⟩)).cursor
            < ((freshTLD.Update (.KeyMsg ⟨"down"⟩)).groups.length : Int)
        ∧ (freshTLD.Update (.KeyMsg ⟨"down"⟩)).offset
            ≤ (freshTLD.Update (.KeyMsg ⟨"down"⟩)).getLineForCursor
        ∧ (freshTLD.Update (.KeyMsg ⟨"down"⟩)).getLineForCursor
            < (freshTLD.Update (.KeyMsg ⟨"down"⟩)).offset
              + (freshTLD.Update (.KeyMsg ⟨"down"⟩)).height) :=
  have hc : freshCalendar.Reachable :=
    CalendarView.Reachable.setDomains refLib _ calendarSample
      (CalendarView.Reachable.setSize _ 80 7 CalendarView.Reachable.init)
  have ht : freshTLD.Reachable :=
    TLDView.Reachable.update _ (.KeyMsg ⟨"enter"⟩)
      (TLDView.Reachable.setData refLib _ tldSample tldSamplePricing
        (TLDView.Reachable.setSize _ 80 9 TLDView.Reachable.init))
  have h := header_in_viewport freshCalendar freshTLD (.KeyMsg ⟨"down"⟩) hc ht
  ⟨hc, ht, by decide,
    h.1 (by decide) (by decide) (by decide) (Or.inl (by decide)),
    h.2 (by decide) (by decide) (by decide) (Or.inl (by decide))⟩

/-! ## Completion order of the fetches -/

/-- The comparison of `sortDomains` depends on the sort field and direction
only. -/
theorem sortLess_congr (v w : DomainsView) (h1 : v.sortField = w.sortField)
    (h2 : v.sortAscending = w.sortAscending) : v.sortLess = w.sortLess := by
  funext a b
  simp only [DomainsView.sortLess, h1, h2]

/-- `SetDomains` keeps the search input, the sort field and the direction. -/
theorem setDomains_settings (L : GoLib) (v : DomainsView) (ds : List Domain) :
    (v.SetDomains L ds).searchInput = v.searchInput
      ∧ (v.SetDomains L ds).sortField = v.sortField
      ∧ (v.SetDomains L ds).sortAscending = v.sortAscending := by
  simp only [DomainsView.SetDomains, DomainsView.sortDomains, DomainsView.applyFilter]
  split_ifs <;> exact ⟨rfl, rfl, rfl⟩

/-- The two lists `SetDomains` leaves depend on the view through its search
input, sort field and direction only. -/
theorem setDomains_lists_congr (L : GoLib) (v w : DomainsView) (ds : List Domain)
    (h1 : v.searchInput = w.searchInput) (h2 : v.sortField = w.sortField)
    (h3 : v.sortAscending = w.sortAscending) :
    (v.SetDomains L ds).domains = (w.SetDomains L ds).domains
      ∧ (v.SetDomains L ds).filtered = (w.SetDomains L ds).filtered := by
  have hless : ∀ x : DomainsView, x.sortLess = fun a b =>
      if (!x.sortAscending) = true then !fieldLess x.sortField a b
      else fieldLess x.sortField a b := fun x => rfl
  simp only [DomainsView.SetDomains, DomainsView.sortDomains, DomainsView.applyFilter, hless, h1,
    h2, h3]
  split_ifs <;> simp

/-- Runtimes that agree apart from the `range` order give the same domain
list view. -/
theorem setDomains_agree (L L' : GoLib) (h : L.Agree L') (v : DomainsView) (ds : List Domain) :
    v.SetDomains L ds = v.SetDomains L' ds := by
  simp only [DomainsView.SetDomains, DomainsView.sortDomains, DomainsView.applyFilter,
    strings.ToLower, h.1, h.2.1]

/-- The length of the domain list `SetDomains` leaves. -/
theorem setDomains_domains_length (L : GoLib) (hL : L.Lawful) (v : DomainsView)
    (ds : List Domain) : (v.SetDomains L ds).domains.length = ds.length := by
  have key : ∀ w : DomainsView, (w.shared = true → w.filtered = w.domains) →
      (w.sortDomains L).domains.length = w.domains.length := by
    intro w hw
    simp only [DomainsView.sortDomains]
    split
    · rename_i hs
      rw [← hw hs]
      exact (sort_Slice_perm hL.pdqDomains _ _).length_eq
    · rfl
  unfold DomainsView.SetDomains
  rw [key]
  · simp only [DomainsView.applyFilter]
    split <;> rfl
  · simp only [DomainsView.applyFilter]
    split <;> simp

/-- Without domains the cost breakdown has no group. -/
theorem tld_buildGroups_nil (L : GoLib) (hL : L.Lawful) (pricing : GoMap TLDPricing) :
    TLDView.buildGroups L [] pricing = [] := by
  have h : L.rangeTLDs [] = [] := List.Perm.eq_nil (hL.rangeTLDs [])
  simp only [TLDView.buildGroups, List.foldl_nil, h, List.map_nil]
  rfl

/-- Runtimes that agree apart from the `range` order build the same TLD
groups, up to their order. -/
theorem tld_buildGroups_agree (L L' : GoLib) (hL : L.Lawful) (hL' : L'.Lawful)
    (h : L.Agree L') (ds : List Domain) (pricing : GoMap TLDPricing) :
    (TLDView.buildGroups L ds pricing).Perm (TLDView.buildGroups L' ds pricing) := by
  have hmk : TLDView.mkGroup L pricing = TLDView.mkGroup L' pricing := by
    funext tld doms
    simp only [TLDView.mkGroup, h.2.2.2.2.1, h.2.2.2.2.2]
  have hu : (TLDView.unsortedGroups L ds pricing).Perm (TLDView.unsortedGroups L' ds pricing) := by
    unfold TLDView.unsortedGroups
    rw [hmk]
    exact ((hL.rangeTLDs _).trans (hL'.rangeTLDs _).symm).map _
  exact ((tld_buildGroups_perm L hL ds pricing).trans hu).trans
    (tld_buildGroups_perm L' hL' ds pricing).symm

/-- Runtimes that agree apart from the `range` order build the same month
groups, in the same order. -/
theorem calendar_buildGroups_agree (L L' : GoLib) (hL : L.Lawful) (hL' : L'.Lawful)
    (h : L.Agree L') (ds : List Domain) :
    CalendarView.buildGroups L ds = CalendarView.buildGroups L' ds := by
  have hu : (CalendarView.unsortedGroups L ds).Perm (CalendarView.unsortedGroups L' ds) := by
    unfold CalendarView.unsortedGroups
    rw [h.2.1]
    exact ((hL.rangeMonths _).trans (hL'.rangeMonths _).symm).map _
  have hp : (CalendarView.buildGroups L ds).Perm (CalendarView.buildGroups L' ds) :=
    ((calendar_buildGroups_perm L hL ds).trans hu).trans (calendar_buildGroups_perm L' hL' ds).symm
  have hanti : IsAntisymm MonthGroup (fun a b => ymLess a.ym b.ym) :=
    ⟨fun a b h1 h2 => by
      unfold ymLess at h1 h2
      omega⟩
  exact List.eq_of_perm_of_sorted hp (calendar_buildGroups_sorted L hL ds)
    (calendar_buildGroups_sorted L' hL' ds)

/-- After `SetDomains` of the calendar no year-month occurs in two groups. -/
theorem calendar_setDomains_nodup (L : GoLib) (hL : L.Lawful) (v : CalendarView)
    (ds : List Domain) : ((v.SetDomains L ds).groups.map MonthGroup.ym).Nodup := by
  show ((CalendarView.expandFirst (CalendarView.buildGroups L ds)).map _).Nodup
  rw [calendar_expandFirst_map_ym]
  exact (((calendar_buildGroups_perm L hL ds).map MonthGroup.ym).nodup_iff).2
    (calendar_unsortedGroups_nodup L hL ds)

/-- After `SetData` of the cost breakdown no label occurs in two groups. -/
theorem tld_setData_nodup (L : GoLib) (hL : L.Lawful) (v : TLDView) (ds : List Domain)
    (pricing : GoMap TLDPricing) :
    ((v.SetData L ds pricing).groups.map (fun g => g.TLD)).Nodup :=
  ((tld_buildGroups_labels L hL ds pricing).nodup_iff).2 (tldMapInv_foldl ds).1

/-- Agreement of runtimes is symmetric. -/
theorem agree_symm (L L' : GoLib) (h : L.Agree L') : L'.Agree L :=
  ⟨h.1.symm, h.2.1.symm, h.2.2.1.symm, h.2.2.2.1.symm, h.2.2.2.2.1.symm, h.2.2.2.2.2.symm⟩

/-- Agreement of runtimes is transitive. -/
theorem agree_trans (L L' L'' : GoLib) (h : L.Agree L') (h' : L'.Agree L'') : L.Agree L'' :=
  ⟨h.1.trans h'.1, h.2.1.trans h'.2.1, h.2.2.1.trans h'.2.2.1, h.2.2.2.1.trans h'.2.2.2.1,
    h.2.2.2.2.1.trans h'.2.2.2.2.1, h.2.2.2.2.2.trans h'.2.2.2.2.2⟩

/-- Runtimes that agree apart from the `range` order give the same calendar. -/
theorem calendar_setDomains_agree (L L' : GoLib) (hL : L.Lawful) (hL' : L'.Lawful)
    (h : L.Agree L') (v : CalendarView) (ds : List Domain) :
    v.SetDomains L ds = v.SetDomains L' ds := by
  simp only [CalendarView.SetDomains, calendar_buildGroups_agree L L' hL hL' h ds]

/-- C23. The domain fetch and the pricing fetch may complete in either order.
Let the four handlings run with runtimes `L₁` to `L₄` that are the same apart
from the order in which a `range` loop visits a map. Handling
`domainsLoadedMsg D` and then `pricingLoadedMsg P` leaves the same domain list
view, the same pricing map, the same calendar groups and the same TLD groups
(labels, members, renewal prices and total costs; the order of the groups is
the one of the last sort) as handling `pricingLoadedMsg P` and then
`domainsLoadedMsg D`; when the two last handlings visit maps in the same order,
the two final states are equal altogether. -/
theorem load_order_commutes (L₁ L₂ L₃ L₄ : GoLib) (T : TeaLib) (a : App) (D : List Domain)
    (P : GoMap TLDPricing) (h₁ : L₁.Lawful) (h₂ : L₂.Lawful) (h₄ : L₄.Lawful)
    (h12 : L₁.Agree L₂) (h14 : L₁.Agree L₄) :
    ∃ a₁ a₁₂ a₂ a₂₁,
      a.Update L₁ T (.domainsLoadedMsg D) = some (a₁, [])
        ∧ a₁.Update L₂ T (.pricingLoadedMsg P) = some (a₁₂, [])
        ∧ a.Update L₃ T (.pricingLoadedMsg P) = some (a₂, [])
        ∧ a₂.Update L₄ T (.domainsLoadedMsg D) = some (a₂₁, [])
        ∧ a₁₂.domainsView = a₂₁.domainsView
        ∧ a₁₂.domainsView.domains = a₂₁.domainsView.domains
        ∧ a₁₂.pricing = P ∧ a₂₁.pricing = P
        ∧ a₁₂.calendarView.groups = a₂₁.calendarView.groups
        ∧ a₁₂.tldView.groups.Perm a₂₁.tldView.groups
        ∧ (L₂ = L₄ → a₁₂ = a₂₁) := by
  have hdv : a.domainsView.SetDomains L₁ D = a.domainsView.SetDomains L₄ D :=
    setDomains_agree L₁ L₄ h14 _ _
  have hlen : (a.domainsView.SetDomains L₁ D).domains.length = D.length :=
    setDomains_domains_length L₁ h₁ _ _
  have hcal : ∀ ds, a.calendarView.SetDomains L₁ ds = a.calendarView.SetDomains L₄ ds :=
    calendar_setDomains_agree L₁ L₄ h₁ h₄ h14 _
  have h24 : L₂.Agree L₄ := agree_trans _ _ _ (agree_symm _ _ h12) h14
  refine ⟨a.domainsLoaded L₁ D, (a.domainsLoaded L₁ D).pricingLoaded L₂ P,
    a.pricingLoaded L₃ P, (a.pricingLoaded L₃ P).domainsLoaded L₄ D, rfl, rfl, rfl, rfl, ?_⟩
  have e1 : ((a.domainsLoaded L₁ D).pricingLoaded L₂ P).tldView
      = if (a.domainsView.SetDomains L₁ D).domains.length > 0 then
          { a.tldView with
            groups := TLDView.buildGroups L₂ (a.domainsView.SetDomains L₁ D).domains P
            cursor := 0, offset := 0 }
        else
          { a.tldView with
            groups := TLDView.buildGroups L₁ (a.domainsView.SetDomains L₁ D).domains a.pricing
            cursor := 0, offset := 0 } := by
    simp only [App.domainsLoaded, App.pricingLoaded, DomainsView.GetDomains]
    split_ifs <;> rfl
  have e2 : ((a.pricingLoaded L₃ P).domainsLoaded L₄ D).tldView
      = { a.tldView with
          groups := TLDView.buildGroups L₄ (a.domainsView.SetDomains L₄ D).domains P
          cursor := 0, offset := 0 } := by
    simp only [App.domainsLoaded, App.pricingLoaded, TLDView.SetData]
    split_ifs <;> rfl
  have hnil : ¬ (a.domainsView.SetDomains L₁ D).domains.length > 0 →
      (a.domainsView.SetDomains L₁ D).domains = [] := fun h0 =>
    List.length_eq_zero.mp (by omega)
  have htld : ((a.domainsLoaded L₁ D).pricingLoaded L₂ P).tldView.groups.Perm
      ((a.pricingLoaded L₃ P).domainsLoaded L₄ D).tldView.groups := by
    rw [e1, e2, ← hdv]
    split_ifs with h0
    · exact tld_buildGroups_agree L₂ L₄ h₂ h₄ h24 _ _
    · show (TLDView.buildGroups L₁ _ _).Perm (TLDView.buildGroups L₄ _ _)
      rw [hnil h0, tld_buildGroups_nil L₁ h₁, tld_buildGroups_nil L₄ h₄]
  have hcv : ((a.domainsLoaded L₁ D).pricingLoaded L₂ P).calendarView
      = ((a.pricingLoaded L₃ P).domainsLoaded L₄ D).calendarView := by
    show a.calendarView.SetDomains L₁ (a.domainsView.SetDomains L₁ D).domains
      = a.calendarView.SetDomains L₄ (a.domainsView.SetDomains L₄ D).domains
    rw [hcal, hdv]
  refine ⟨hdv, congrArg _ hdv, rfl, rfl, congrArg _ hcv, htld, ?_⟩
  intro h
  subst h
  have htv : ((a.domainsLoaded L₁ D).pricingLoaded L₂ P).tldView
      = ((a.pricingLoaded L₃ P).domainsLoaded L₂ D).tldView := by
    rw [e1, e2, ← hdv]
    split_ifs with h0
    · rfl
    · rw [hnil h0, tld_buildGroups_nil L₁ h₁, tld_buildGroups_nil L₂ h₂]
  have hca : ((a.domainsLoaded L₁ D).pricingLoaded L₂ P).cache
      = ((a.pricingLoaded L₃ P).domainsLoaded L₂ D).cache := by
    show (a.cache.map _).map _ = (a.cache.map _).map _
    rw [hdv]
    cases a.cache <;> rfl
  have hd2 : ((a.domainsLoaded L₁ D).pricingLoaded L₂ P).domainsView
      = ((a.pricingLoaded L₃ P).domainsLoaded L₂ D).domainsView := hdv
  have hflat : ∀ x y : App, x.cache = y.cache → x.width = y.width → x.height = y.height →
      x.view = y.view → x.prevView = y.prevView → x.domainsView = y.domainsView →
      x.detailView = y.detailView → x.dnsView = y.dnsView →
      x.nameserversView = y.nameserversView → x.availabilityView = y.availabilityView →
      x.tldView = y.tldView → x.calendarView = y.calendarView → x.helpView = y.helpView →
      x.pricing = y.pricing → x.loading = y.loading → x.refreshing = y.refreshing →
      x.demoMode = y.demoMode → x.err = y.err → x.spinner = y.spinner → x = y := by
    intro x y
    cases x; cases y
    simp only [App.mk.injEq]
    intros
    exact ⟨‹_›, ‹_›, ‹_›, ‹_›, ‹_›, ‹_›, ‹_›, ‹_›, ‹_›, ‹_›, ‹_›, ‹_›, ‹_›, ‹_›, ‹_›, ‹_›, ‹_›, ‹_›,
      ‹_›⟩
  exact hflat _ _ hca rfl rfl rfl rfl hd2 rfl rfl rfl rfl htv hcv rfl rfl rfl rfl rfl rfl rfl

/-- C23 with the domains of `tldSample` and the prices of `tldSamplePricing`
arriving at `cachedApp`: the first order runs with a map visited in insertion
order and then in reverse order, the second order the other way round. -/
theorem load_order_commutes_witness :
    refLib.Lawful ∧ refLibRev.Lawful ∧ refLib.Agree refLibRev
      ∧ ∃ a₁ a₁₂ a₂ a₂₁,
          cachedApp.Update refLib refTea (.domainsLoadedMsg tldSample) = some (a₁, [])
            ∧ a₁.Update refLibRev refTea (.pricingLoadedMsg tldSamplePricing) = some (a₁₂, [])
            ∧ cachedApp.Update refLibRev refTea (.pricingLoadedMsg tldSamplePricing)
                = some (a₂, [])
            ∧ a₂.Update refLib refTea (.domainsLoadedMsg tldSample) = some (a₂₁, [])
            ∧ a₁₂.domainsView = a₂₁.domainsView
            ∧ a₁₂.domainsView.domains = a₂₁.domainsView.domains
            ∧ a₁₂.pricing = tldSamplePricing ∧ a₂₁.pricing = tldSamplePricing
            ∧ a₁₂.calendarView.groups = a₂₁.calendarView.groups
            ∧ a₁₂.tldView.groups.Perm a₂₁.tldView.groups
            ∧ (refLibRev = refLib → a₁₂ = a₂₁) :=
  ⟨refLib_lawful, refLibRev_lawful, ⟨rfl, rfl, rfl, rfl, rfl, rfl⟩,
    load_order_commutes refLib refLibRev refLibRev refLib refTea cachedApp tldSample
      tldSamplePricing refLib_lawful refLibRev_lawful refLib_lawful ⟨rfl, rfl, rfl, rfl, rfl, rfl⟩
      ⟨rfl, rfl, rfl, rfl, rfl, rfl⟩⟩

/-- C24. The domain fetch that completes last wins. Let the handlings run with
runtimes that are the same apart from the order in which a `range` loop visits
a map (the first handling with any runtime). Handling `domainsLoadedMsg D₁` and
then `domainsLoadedMsg D₂` leaves the same domain list and filtered list, the
same calendar and the same TLD groups (up to the order the last sort gives
them; the same cost breakdown when the maps are visited in the same order) as
handling `domainsLoadedMsg D₂` alone, and no year-month and no TLD label occurs
in two groups. -/
theorem last_load_wins (L₁ L₂ L₃ : GoLib) (T : TeaLib) (a : App) (D₁ D₂ : List Domain)
    (h₂ : L₂.Lawful) (h₃ : L₃.Lawful) (h23 : L₂.Agree L₃) :
    ∃ a₁ a₁₂ a₂,
      a.Update L₁ T (.domainsLoadedMsg D₁) = some (a₁, [])
        ∧ a₁.Update L₂ T (.domainsLoadedMsg D₂) = some (a₁₂, [])
        ∧ a.Update L₃ T (.domainsLoadedMsg D₂) = some (a₂, [])
        ∧ a₁₂.domainsView.domains = a₂.domainsView.domains
        ∧ a₁₂.domainsView.filtered = a₂.domainsView.filtered
        ∧ a₁₂.calendarView = a₂.calendarView
        ∧ a₁₂.calendarView.groups = a₂.calendarView.groups
        ∧ a₁₂.tldView.groups.Perm a₂.tldView.groups
        ∧ (L₂ = L₃ → a₁₂.tldView = a₂.tldView)
        ∧ (a₁₂.calendarView.groups.map MonthGroup.ym).Nodup
        ∧ (a₁₂.tldView.groups.map (fun g => g.TLD)).Nodup := by
  obtain ⟨s1, s2, s3⟩ := setDomains_settings L₁ a.domainsView D₁
  obtain ⟨hdom, hfil⟩ := setDomains_lists_congr L₂ (a.domainsView.SetDomains L₁ D₁)
    a.domainsView D₂ s1 s2 s3
  have hagree : a.domainsView.SetDomains L₂ D₂ = a.domainsView.SetDomains L₃ D₂ :=
    setDomains_agree L₂ L₃ h23 _ _
  have hdom3 : ((a.domainsView.SetDomains L₁ D₁).SetDomains L₂ D₂).domains
      = (a.domainsView.SetDomains L₃ D₂).domains := by rw [hdom, hagree]
  have hfil3 : ((a.domainsView.SetDomains L₁ D₁).SetDomains L₂ D₂).filtered
      = (a.domainsView.SetDomains L₃ D₂).filtered := by rw [hfil, hagree]
  have hcal : ((a.domainsLoaded L₁ D₁).domainsLoaded L₂ D₂).calendarView
      = (a.domainsLoaded L₃ D₂).calendarView := by
    show a.calendarView.SetDomains L₂ ((a.domainsView.SetDomains L₁ D₁).SetDomains L₂ D₂).domains
      = a.calendarView.SetDomains L₃ (a.domainsView.SetDomains L₃ D₂).domains
    rw [hdom3, calendar_setDomains_agree L₂ L₃ h₂ h₃ h23]
  refine ⟨a.domainsLoaded L₁ D₁, (a.domainsLoaded L₁ D₁).domainsLoaded L₂ D₂,
    a.domainsLoaded L₃ D₂, rfl, rfl, rfl, hdom3, hfil3, hcal, congrArg _ hcal, ?_, ?_,
    calendar_setDomains_nodup L₂ h₂ _ _, tld_setData_nodup L₂ h₂ _ _ _⟩
  · show (TLDView.buildGroups L₂ ((a.domainsView.SetDomains L₁ D₁).SetDomains L₂ D₂).domains
        a.pricing).Perm (TLDView.buildGroups L₃ (a.domainsView.SetDomains L₃ D₂).domains a.pricing)
    rw [hdom3]
    exact tld_buildGroups_agree L₂ L₃ h₂ h₃ h23 _ _
  · intro h
    subst h
    show a.tldView.SetData L₂ ((a.domainsView.SetDomains L₁ D₁).SetDomains L₂ D₂).domains
        a.pricing = a.tldView.SetData L₂ (a.domainsView.SetDomains L₂ D₂).domains a.pricing
    rw [hdom3]

/-- C24 at `cachedApp`: the domains of `calendarSample` arrive, then the
domains of `tldSample`, with maps visited in reverse order in the last
handling of the first run. -/
theorem last_load_wins_witness :
    refLibRev.Lawful ∧ refLib.Lawful ∧ refLibRev.Agree refLib
      ∧ ∃ a₁ a₁₂ a₂,
          cachedApp.Update refLib refTea (.domainsLoadedMsg calendarSample) = some (a₁, [])
            ∧ a₁.Update refLibRev refTea (.domainsLoadedMsg tldSample) = some (a₁₂, [])
            ∧ cachedApp.Update refLib refTea (.domainsLoadedMsg tldSample) = some (a₂, [])
            ∧ a₁₂.domainsView.domains = a₂.domainsView.domains
            ∧ a₁₂.domainsView.filtered = a₂.domainsView.filtered
            ∧ a₁₂.calendarView = a₂.calendarView
            ∧ a₁₂.calendarView.groups = a₂.calendarView.groups
            ∧ a₁₂.tldView.groups.Perm a₂.tldView.groups
            ∧ (refLibRev = refLib → a₁₂.tldView = a₂.tldView)
            ∧ (a₁₂.calendarView.groups.map MonthGroup.ym).Nodup
            ∧ (a₁₂.tldView.groups.map (fun g => g.TLD)).Nodup :=
  ⟨refLibRev_lawful, refLib_lawful, ⟨rfl, rfl, rfl, rfl, rfl, rfl⟩,
    last_load_wins refLib refLibRev refLib refTea cachedApp calendarSample tldSample
      refLibRev_lawful refLib_lawful ⟨rfl, rfl, rfl, rfl, rfl, rfl⟩⟩

end Porkbun
